import Mathlib

/-!
# ExaMesh: partition-boundary reconciliation and the length-scale estimator

A shallow embedding of the parts of `src/ExaMesh.cxx`, `src/exa-defs.h` and
`src/TetDivider.h` that the specification talks about, followed by the theorems that settle
its claims.

Modelling conventions.

* A `double` is an element of a linearly ordered field `K` (exact arithmetic; rounding,
  infinities and NaN are not modelled).  Every definition is computable for `K = ℚ`.
* The `<cmath>` routines `sqrt`, `acos`, `cbrt` and the constant `M_PI` are not part of the
  repository.  They are passed in as a record `Libm K`.
* `emInt` (`uint32_t`) values that are only stored and compared are natural numbers.
* Undefined behaviour (flowing off the end of a value-returning function, an out-of-range
  `operator[]`, the signed overflow of the `int` counter of `WriteIdenticalVerts`) and a failed
  `assert` are the `none` of `Option`.
-/

namespace ExaMesh

/-! ## Definitions -/

section Records

variable {K : Type} [LinearOrderedField K]

/-- A `double[3]` array, components `[0]`, `[1]`, `[2]`. -/
@[ext]
structure Vec3 (K : Type) where
  c0 : K
  c1 : K
  c2 : K
deriving DecidableEq

/-- The record `struct vertsPartBdry` of `exa-defs.h`: `emInt ID; emInt Part; double coord[3]`. -/
structure vertsPartBdry (K : Type) where
  ID : Nat
  Part : Nat
  coord : Vec3 K
deriving DecidableEq

/-- Source `operator==(const vertsPartBdry&, const vertsPartBdry&)` (ExaMesh.cxx 647-662).
The tolerance `epsilon` is declared outside `src/`, so it is a parameter. -/
def operatorEq (epsilon : K) (a b : vertsPartBdry K) : Bool :=
  let comp := false
  if a.Part != b.Part then
    if decide (|a.coord.c0 - b.coord.c0| < epsilon) && decide (|a.coord.c1 - b.coord.c1| < epsilon)
        && decide (|a.coord.c2 - b.coord.c2| < epsilon) then
      true
    else comp
  else comp

/-- Source `compX` (ExaMesh.cxx 665-668): two `if`s with a `return`, and no `return` after
them.  When the two x-coordinates are equal control reaches the end of the function without
a value, which is undefined behaviour: `none`. -/
def compX (a b : vertsPartBdry K) : Option Bool :=
  if a.coord.c0 < b.coord.c0 then some true
  else if a.coord.c0 > b.coord.c0 then some false
  else none

/-- Source `compY` (ExaMesh.cxx 669-673), same shape as `compX` on `coord[1]`. -/
def compY (a b : vertsPartBdry K) : Option Bool :=
  if a.coord.c1 < b.coord.c1 then some true
  else if a.coord.c1 > b.coord.c1 then some false
  else none

/-- Source `compZ` (ExaMesh.cxx 674-678), same shape as `compX` on `coord[2]`. -/
def compZ (a b : vertsPartBdry K) : Option Bool :=
  if a.coord.c2 < b.coord.c2 then some true
  else if a.coord.c2 > b.coord.c2 then some false
  else none

/-- One insertion of the sorting model: `e` goes in front of the first element `y` of the
sorted run that the comparator does not put before `e`.  A comparator call without a value
makes the whole insertion undefined. -/
def insertByM {α : Type} (comp : α → α → Option Bool) (e : α) : List α → Option (List α)
  | [] => some [e]
  | y :: ys =>
    match comp y e with
    | none => none
    | some true => (insertByM comp e ys).map (fun r => y :: r)
    | some false => some (e :: y :: ys)

/-- Model of the library routine `std::stable_sort(first, last, comp)`: a stable insertion
sort that consults `comp` for every decision (the execution policy is ignored). -/
def stable_sort {α : Type} (comp : α → α → Option Bool) : List α → Option (List α)
  | [] => some []
  | e :: es => (stable_sort comp es).bind (insertByM comp e)

/-- Model of the library routine `std::sort(first, last, comp)`.  The standard leaves the order
of equivalent elements open; the stable order is one admissible outcome and is the one
modelled. -/
def sort {α : Type} (comp : α → α → Option Bool) (x : List α) : Option (List α) :=
  stable_sort comp x

/-- Source `sortBuffer` (ExaMesh.cxx 695-704): `std::sort` with `compZ`, then
`std::stable_sort` with `compY`, then `std::stable_sort` with `compX`; returns the buffer. -/
def sortBuffer (x : List (vertsPartBdry K)) : Option (List (vertsPartBdry K)) := do
  let x1 ← sort compZ x
  let x2 ← stable_sort compY x1
  let x3 ← stable_sort compX x2
  pure x3

/-- One line of the listing file: the five columns `Part  ID  coord[0]  coord[1]  coord[2]`
streamed by `WriteIdenticalVerts` (the blanks between the columns are not modelled). -/
def lineOf (r : vertsPartBdry K) : Nat × Nat × K × K × K :=
  (r.Part, r.ID, r.coord.c0, r.coord.c1, r.coord.c2)

/-- The `for (auto i = 1; i < x.size() - 1; i++)` loop of `WriteIdenticalVerts`
(ExaMesh.cxx 713-724), unrolled on the number `n` of iterations still to run, with `i` the
current index.  Every `x[..]` is a checked read.  The counter is an `int`: every iteration
computes `i + 1` (the index of `x[i+1]`, and the value that `i++` stores), and when that
exceeds `INT_MAX = 2^31 - 1` the addition is a signed overflow, undefined behaviour: `none`. -/
def WriteIdenticalVerts.loop (epsilon : K) (x : List (vertsPartBdry K)) :
    Nat → Nat → Option (List (Nat × Nat × K × K × K))
  | 0, _ => some []
  | n + 1, i =>
    if i + 1 < 2 ^ 31 then do
      let xi ← x[i]?
      let xi1 ← x[i + 1]?
      let out ←
        if operatorEq epsilon xi xi1 then do
          let xim ← x[i - 1]?
          if (operatorEq epsilon xi xim) == false then pure [lineOf xi, lineOf xi1]
          else pure [lineOf xi1]
        else pure []
      let rest ← WriteIdenticalVerts.loop epsilon x n (i + 1)
      pure (out ++ rest)
    else none

/-- Source `WriteIdenticalVerts` (ExaMesh.cxx 706-726); the result is the list of lines
written to the file, in order.  `x[0]` and `x[1]` are read unconditionally first.  The loop
bound `x.size() - 1` is computed in `size_t` (64 bits). -/
def WriteIdenticalVerts (epsilon : K) (x : List (vertsPartBdry K)) :
    Option (List (Nat × Nat × K × K × K)) := do
  let x0 ← x[0]?
  let x1 ← x[1]?
  let head := if operatorEq epsilon x0 x1 then [lineOf x0, lineOf x1] else []
  let bound := (x.length + 2 ^ 64 - 1) % 2 ^ 64
  let rest ← WriteIdenticalVerts.loop epsilon x (bound - 1) 1
  pure (head ++ rest)

/-- The lines of the test on `x[0]`, `x[1]` that precedes the loop of `WriteIdenticalVerts`,
read off the front of the buffer. -/
def headLines (epsilon : K) : List (vertsPartBdry K) → List (Nat × Nat × K × K × K)
  | a :: b :: _ => if operatorEq epsilon a b then [lineOf a, lineOf b] else []
  | _ => []

/-- The lines of the loop of `WriteIdenticalVerts`, read off the buffer three consecutive
records `x[i-1]`, `x[i]`, `x[i+1]` at a time. -/
def windowLines (epsilon : K) : List (vertsPartBdry K) → List (Nat × Nat × K × K × K)
  | a :: b :: c :: t =>
    (if operatorEq epsilon b c then
      (if (operatorEq epsilon b a) == false then [lineOf b, lineOf c] else [lineOf c])
     else []) ++ windowLines epsilon (b :: c :: t)
  | _ => []

/-- A comparator of the shape of `compX`, `compY`, `compZ`, deciding on the key `k`. -/
def keyComparator {α : Type} (k : α → K) (comp : α → α → Option Bool) : Prop :=
  ∀ a b, comp a b = if k a < k b then some true else if k a > k b then some false else none

/-- No two records of the buffer share an x-, a y- or a z-coordinate. -/
def noTies (x : List (vertsPartBdry K)) : Prop :=
  x.Pairwise (fun a b =>
    a.coord.c0 ≠ b.coord.c0 ∧ a.coord.c1 ≠ b.coord.c1 ∧ a.coord.c2 ≠ b.coord.c2)

/-- Agreement of two records within `epsilon` in all three coordinates. -/
def within (epsilon : K) (a b : vertsPartBdry K) : Prop :=
  |a.coord.c0 - b.coord.c0| < epsilon ∧ |a.coord.c1 - b.coord.c1| < epsilon ∧
    |a.coord.c2 - b.coord.c2| < epsilon

/-- The precondition the specification puts on a gathered buffer: agreement within `epsilon`
groups the records into clusters (it is transitive on the buffer), and two records of one
cluster never come from the same partition. -/
def clustered (epsilon : K) (x : List (vertsPartBdry K)) : Prop :=
  (∀ a ∈ x, ∀ b ∈ x, ∀ c ∈ x, within epsilon a b → within epsilon b c → within epsilon a c) ∧
    x.Pairwise (fun a b => within epsilon a b → a.Part ≠ b.Part)

end Records

/-- A gathered buffer of three records.  Records 4 (part 0) and 6 (part 1) are the same
geometric vertex, computed with a rounding difference of a few `1e-9`; record 9 is another
vertex of part 0 whose x-coordinate lies between theirs. -/
def separatedDuplicate : List (vertsPartBdry ℚ) :=
  [⟨9, 0, ⟨1 / 2 + 1 / 10 ^ 9, 3 / 4, 5 / 8⟩⟩,
   ⟨4, 0, ⟨1 / 2, 1 / 4, 1 / 8⟩⟩,
   ⟨6, 1, ⟨1 / 2 + 2 / 10 ^ 9, 1 / 4 + 1 / 10 ^ 9, 1 / 8 + 1 / 10 ^ 9⟩⟩]

/-- A gathered buffer of three records in which the two copies of one vertex (records 4 and
6) are next to each other after sorting. -/
def adjacentDuplicate : List (vertsPartBdry ℚ) :=
  [⟨9, 0, ⟨3 / 4, 3 / 4, 5 / 8⟩⟩,
   ⟨6, 1, ⟨1 / 2 + 2 / 10 ^ 9, 1 / 4 + 1 / 10 ^ 9, 1 / 8 + 1 / 10 ^ 9⟩⟩,
   ⟨4, 0, ⟨1 / 2, 1 / 4, 1 / 8⟩⟩]

/-! ### Partition count of `refineForParallel` -/

/-- Lines 390-396 of `ExaMesh::refineForParallel`: the part count computed from the policy,
before line 397.  The cell counts are `emInt` (32 bits), `numCells` and `outputCells` are
`size_t` (64 bits), the quotient is stored in an `emInt`.  A zero `maxCellsPerPart` is a
division by zero. -/
def nPartsFromPolicy (numTets numPyramids numHexes numPrisms numDivs maxCellsPerPart : Nat) :
    Option Nat :=
  let numCells := (numTets + numPyramids + numHexes + numPrisms) % 2 ^ 32
  let outputCells := (numCells * ((numDivs * numDivs * numDivs) % 2 ^ 32)) % 2 ^ 64
  if maxCellsPerPart = 0 then none
  else
    let nParts := (((outputCells + 2 ^ 64 - 1) % 2 ^ 64) / maxCellsPerPart + 1) % 2 ^ 32
    some (if nParts > numCells then numCells else nParts)

/-- The value of `nParts` that `ExaMesh::refineForParallel` (ExaMesh.cxx 387-402) hands to
`partitionCells`: the policy value is computed, then line 397, `nParts=2;`, overwrites it. -/
def refineForParallel_nParts
    (numTets numPyramids numHexes numPrisms numDivs maxCellsPerPart : Nat) : Option Nat :=
  (nPartsFromPolicy numTets numPyramids numHexes numPrisms numDivs maxCellsPerPart).map
    (fun _ => 2)

/-! ### Geometry primitives and the length-scale estimator -/

section Geometry

variable {K : Type} [LinearOrderedField K]

/-- The `<cmath>` routines `sqrt`, `acos`, `cbrt` and the constant `M_PI` used by the
estimator.  They are declared outside `src/` and are taken as parameters. -/
structure Libm (K : Type) where
  sqrt : K → K
  acos : K → K
  cbrt : K → K
  M_PI : K

/-- Macro `DIFF(a,b)` of `exa-defs.h` (line 91). -/
def DIFF (a b : Vec3 K) : Vec3 K := ⟨a.c0 - b.c0, a.c1 - b.c1, a.c2 - b.c2⟩

/-- Macro `CROSS(a,b,c)` of `exa-defs.h` (line 94); the result is `c`. -/
def CROSS (a b : Vec3 K) : Vec3 K :=
  ⟨a.c1 * b.c2 - a.c2 * b.c1, a.c2 * b.c0 - a.c0 * b.c2, a.c0 * b.c1 - a.c1 * b.c0⟩

/-- Macro `DOT(a,b)` of `exa-defs.h` (line 95). -/
def DOT (a b : Vec3 K) : K := a.c0 * b.c0 + a.c1 * b.c1 + a.c2 * b.c2

/-- Macro `NORMALIZE(a)` of `exa-defs.h` (line 96): `tmp = 1./sqrt(DOT(a,a))`, then each
component is multiplied by `tmp`. -/
def NORMALIZE (L : Libm K) (a : Vec3 K) : Vec3 K :=
  let tmp := 1 / L.sqrt (DOT a a)
  ⟨a.c0 * tmp, a.c1 * tmp, a.c2 * tmp⟩

/-- Source `safe_acos` (`exa-defs.h` 98-102). -/
def safe_acos (L : Libm K) (arg : K) : K :=
  if arg < -1 then L.M_PI
  else if arg > 1 then 0
  else L.acos arg

/-- Source `triUnitNormal` (ExaMesh.cxx 46-52); the output parameter `normal` is the result. -/
def triUnitNormal (L : Libm K) (coords0 coords1 coords2 : Vec3 K) : Vec3 K :=
  let edge01 := DIFF coords1 coords0
  let edge02 := DIFF coords2 coords0
  NORMALIZE L (CROSS edge01 edge02)

/-- Source `tetVolume` (ExaMesh.cxx 54-62). -/
def tetVolume (coords0 coords1 coords2 coords3 : Vec3 K) : K :=
  let edge01 := DIFF coords1 coords0
  let edge02 := DIFF coords2 coords0
  let edge03 := DIFF coords3 coords0
  let normal := CROSS edge01 edge02
  DOT normal edge03 / 6

/-- Source `quadUnitNormal` (ExaMesh.cxx 64-73); the output parameter `normal` is the
result. -/
def quadUnitNormal (L : Libm K) (coords0 coords1 coords2 coords3 : Vec3 K) : Vec3 K :=
  let vecB : Vec3 K := ⟨0.25 * (coords0.c0 + coords3.c0 - coords1.c0 - coords2.c0),
    0.25 * (coords0.c1 + coords3.c1 - coords1.c1 - coords2.c1),
    0.25 * (coords0.c2 + coords3.c2 - coords1.c2 - coords2.c2)⟩
  let vecC : Vec3 K := ⟨0.25 * (coords0.c0 + coords1.c0 - coords3.c0 - coords2.c0),
    0.25 * (coords0.c1 + coords1.c1 - coords3.c1 - coords2.c1),
    0.25 * (coords0.c2 + coords1.c2 - coords3.c2 - coords2.c2)⟩
  NORMALIZE L (CROSS vecB vecC)

/-- Source `pyrVolume` (ExaMesh.cxx 75-88); `coords4` is the apex. -/
def pyrVolume (coords0 coords1 coords2 coords3 coords4 : Vec3 K) : K :=
  let vecB : Vec3 K := ⟨0.25 * (coords0.c0 + coords3.c0 - coords1.c0 - coords2.c0),
    0.25 * (coords0.c1 + coords3.c1 - coords1.c1 - coords2.c1),
    0.25 * (coords0.c2 + coords3.c2 - coords1.c2 - coords2.c2)⟩
  let vecC : Vec3 K := ⟨0.25 * (coords0.c0 + coords1.c0 - coords3.c0 - coords2.c0),
    0.25 * (coords0.c1 + coords1.c1 - coords3.c1 - coords2.c1),
    0.25 * (coords0.c2 + coords1.c2 - coords3.c2 - coords2.c2)⟩
  let vecE : Vec3 K := ⟨coords4.c0 - 0.25 * (coords0.c0 + coords1.c0 + coords2.c0 + coords3.c0),
    coords4.c1 - 0.25 * (coords0.c1 + coords1.c1 + coords2.c1 + coords3.c1),
    coords4.c2 - 0.25 * (coords0.c2 + coords1.c2 + coords2.c2 + coords3.c2)⟩
  let normal := CROSS vecB vecC
  DOT normal vecE / 0.75

/-- The dihedral block of the tet loop (ExaMesh.cxx 102-120); `c i` is the position of the
local vertex `i` (`coordsA` .. `coordsD`). -/
def tetDiheds (L : Libm K) (c : Fin 4 → Vec3 K) : Fin 6 → K :=
  let coordsA := c 0
  let coordsB := c 1
  let coordsC := c 2
  let coordsD := c 3
  let normABC := triUnitNormal L coordsA coordsB coordsC
  let normADB := triUnitNormal L coordsA coordsD coordsB
  let normBDC := triUnitNormal L coordsB coordsD coordsC
  let normCDA := triUnitNormal L coordsC coordsD coordsA
  ![safe_acos L (-(DOT normABC normADB)),
    safe_acos L (-(DOT normABC normCDA)),
    safe_acos L (-(DOT normADB normCDA)),
    safe_acos L (-(DOT normABC normBDC)),
    safe_acos L (-(DOT normADB normBDC)),
    safe_acos L (-(DOT normBDC normCDA))]

/-- The solid-angle block of the tet loop (ExaMesh.cxx 122-127). -/
def tetSolids (L : Libm K) (diheds : Fin 6 → K) : Fin 4 → K :=
  ![diheds 0 + diheds 1 + diheds 2 - L.M_PI,
    diheds 0 + diheds 3 + diheds 4 - L.M_PI,
    diheds 1 + diheds 3 + diheds 5 - L.M_PI,
    diheds 2 + diheds 4 + diheds 5 - L.M_PI]

/-- The dihedral block of the pyramid loop (ExaMesh.cxx 143-165). -/
def pyrDiheds (L : Libm K) (c : Fin 5 → Vec3 K) : Fin 8 → K :=
  let coords0 := c 0
  let coords1 := c 1
  let coords2 := c 2
  let coords3 := c 3
  let coords4 := c 4
  let norm0123 := quadUnitNormal L coords0 coords1 coords2 coords3
  let norm014 := triUnitNormal L coords1 coords0 coords4
  let norm124 := triUnitNormal L coords2 coords1 coords4
  let norm234 := triUnitNormal L coords3 coords2 coords4
  let norm304 := triUnitNormal L coords0 coords3 coords4
  ![safe_acos L (-(DOT norm0123 norm014)),
    safe_acos L (-(DOT norm014 norm304)),
    safe_acos L (-(DOT norm0123 norm124)),
    safe_acos L (-(DOT norm124 norm014)),
    safe_acos L (-(DOT norm0123 norm234)),
    safe_acos L (-(DOT norm234 norm124)),
    safe_acos L (-(DOT norm0123 norm304)),
    safe_acos L (-(DOT norm304 norm234))]

/-- The solid-angle block of the pyramid loop (ExaMesh.cxx 167-173). -/
def pyrSolids (L : Libm K) (diheds : Fin 8 → K) : Fin 5 → K :=
  ![diheds 0 + diheds 1 + diheds 6 - L.M_PI,
    diheds 0 + diheds 2 + diheds 3 - L.M_PI,
    diheds 2 + diheds 4 + diheds 5 - L.M_PI,
    diheds 4 + diheds 6 + diheds 7 - L.M_PI,
    diheds 1 + diheds 3 + diheds 5 + diheds 7 - 2 * L.M_PI]

/-- The dihedral block of the prism loop (ExaMesh.cxx 189-214). -/
def prismDiheds (L : Libm K) (c : Fin 6 → Vec3 K) : Fin 9 → K :=
  let coords0 := c 0
  let coords1 := c 1
  let coords2 := c 2
  let coords3 := c 3
  let coords4 := c 4
  let coords5 := c 5
  let norm1034 := quadUnitNormal L coords1 coords0 coords3 coords4
  let norm2145 := quadUnitNormal L coords2 coords1 coords4 coords5
  let norm0253 := quadUnitNormal L coords0 coords2 coords5 coords3
  let norm012 := triUnitNormal L coords0 coords1 coords2
  let norm543 := triUnitNormal L coords5 coords4 coords3
  ![safe_acos L (-(DOT norm1034 norm012)),
    safe_acos L (-(DOT norm2145 norm012)),
    safe_acos L (-(DOT norm0253 norm012)),
    safe_acos L (-(DOT norm0253 norm1034)),
    safe_acos L (-(DOT norm1034 norm2145)),
    safe_acos L (-(DOT norm2145 norm0253)),
    safe_acos L (-(DOT norm1034 norm543)),
    safe_acos L (-(DOT norm2145 norm543)),
    safe_acos L (-(DOT norm0253 norm543))]

/-- The solid-angle block of the prism loop (ExaMesh.cxx 216-223). -/
def prismSolids (L : Libm K) (diheds : Fin 9 → K) : Fin 6 → K :=
  ![diheds 0 + diheds 2 + diheds 3 - L.M_PI,
    diheds 0 + diheds 1 + diheds 4 - L.M_PI,
    diheds 1 + diheds 2 + diheds 5 - L.M_PI,
    diheds 6 + diheds 8 + diheds 3 - L.M_PI,
    diheds 6 + diheds 7 + diheds 4 - L.M_PI,
    diheds 7 + diheds 8 + diheds 5 - L.M_PI]

/-- The volume block of the prism loop (ExaMesh.cxx 225-238): two tets and three pyramids
with the vertex centroid `middle` as apex. -/
def prismVolume (c : Fin 6 → Vec3 K) : K :=
  let coords0 := c 0
  let coords1 := c 1
  let coords2 := c 2
  let coords3 := c 3
  let coords4 := c 4
  let coords5 := c 5
  let middle : Vec3 K :=
    ⟨(coords0.c0 + coords1.c0 + coords2.c0 + coords3.c0 + coords4.c0 + coords5.c0) / 6,
      (coords0.c1 + coords1.c1 + coords2.c1 + coords3.c1 + coords4.c1 + coords5.c1) / 6,
      (coords0.c2 + coords1.c2 + coords2.c2 + coords3.c2 + coords4.c2 + coords5.c2) / 6⟩
  tetVolume coords0 coords1 coords2 middle
    + tetVolume coords5 coords4 coords3 middle
    + pyrVolume coords1 coords0 coords3 coords4 middle
    + pyrVolume coords2 coords1 coords4 coords5 middle
    + pyrVolume coords0 coords2 coords5 coords3 middle

/-- The dihedral block of the hex loop (ExaMesh.cxx 252-284). -/
def hexDiheds (L : Libm K) (c : Fin 8 → Vec3 K) : Fin 12 → K :=
  let coords0 := c 0
  let coords1 := c 1
  let coords2 := c 2
  let coords3 := c 3
  let coords4 := c 4
  let coords5 := c 5
  let coords6 := c 6
  let coords7 := c 7
  let norm1045 := quadUnitNormal L coords1 coords0 coords4 coords5
  let norm2156 := quadUnitNormal L coords2 coords1 coords5 coords6
  let norm3267 := quadUnitNormal L coords3 coords2 coords6 coords7
  let norm0374 := quadUnitNormal L coords0 coords3 coords7 coords4
  let norm0123 := quadUnitNormal L coords0 coords1 coords2 coords3
  let norm7654 := quadUnitNormal L coords7 coords6 coords5 coords4
  ![safe_acos L (-(DOT norm1045 norm0123)),
    safe_acos L (-(DOT norm2156 norm0123)),
    safe_acos L (-(DOT norm3267 norm0123)),
    safe_acos L (-(DOT norm0374 norm0123)),
    safe_acos L (-(DOT norm1045 norm0374)),
    safe_acos L (-(DOT norm2156 norm1045)),
    safe_acos L (-(DOT norm3267 norm2156)),
    safe_acos L (-(DOT norm0374 norm3267)),
    safe_acos L (-(DOT norm1045 norm7654)),
    safe_acos L (-(DOT norm2156 norm7654)),
    safe_acos L (-(DOT norm3267 norm7654)),
    safe_acos L (-(DOT norm0374 norm7654))]

/-- The solid-angle block of the hex loop (ExaMesh.cxx 287-296). -/
def hexSolids (L : Libm K) (diheds : Fin 12 → K) : Fin 8 → K :=
  ![diheds 3 + diheds 0 + diheds 4 - L.M_PI,
    diheds 0 + diheds 1 + diheds 5 - L.M_PI,
    diheds 1 + diheds 2 + diheds 6 - L.M_PI,
    diheds 2 + diheds 3 + diheds 7 - L.M_PI,
    diheds 11 + diheds 8 + diheds 4 - L.M_PI,
    diheds 8 + diheds 9 + diheds 5 - L.M_PI,
    diheds 9 + diheds 10 + diheds 6 - L.M_PI,
    diheds 10 + diheds 11 + diheds 7 - L.M_PI]

/-- The volume block of the hex loop (ExaMesh.cxx 298-312): six pyramids with the vertex
centroid `middle` as apex. -/
def hexVolume (c : Fin 8 → Vec3 K) : K :=
  let coords0 := c 0
  let coords1 := c 1
  let coords2 := c 2
  let coords3 := c 3
  let coords4 := c 4
  let coords5 := c 5
  let coords6 := c 6
  let coords7 := c 7
  let middle : Vec3 K :=
    ⟨(coords0.c0 + coords1.c0 + coords2.c0 + coords3.c0 + coords4.c0 + coords5.c0 + coords6.c0
        + coords7.c0) / 8,
      (coords0.c1 + coords1.c1 + coords2.c1 + coords3.c1 + coords4.c1 + coords5.c1 + coords6.c1
        + coords7.c1) / 8,
      (coords0.c2 + coords1.c2 + coords2.c2 + coords3.c2 + coords4.c2 + coords5.c2 + coords6.c2
        + coords7.c2) / 8⟩
  pyrVolume coords1 coords0 coords4 coords5 middle
    + pyrVolume coords2 coords1 coords5 coords6 middle
    + pyrVolume coords3 coords2 coords6 coords7 middle
    + pyrVolume coords0 coords3 coords7 coords4 middle
    + pyrVolume coords0 coords1 coords2 coords3 middle
    + pyrVolume coords7 coords6 coords5 coords4 middle

/-- The two running sums of `setupLengthScales`, `vertVolume` and `vertSolidAngle`, indexed
by vertex. -/
structure VertSums (K : Type) where
  vertVolume : Nat → K
  vertSolidAngle : Nat → K

/-- The update `a[v] += x` of a vertex-indexed array. -/
def addAt (a : Nat → K) (v : Nat) (x : K) : Nat → K :=
  fun w => if w = v then a w + x else a w

/-- The loop `for (int ii = 0; ii < n; ii++)` that closes every cell loop (for instance
ExaMesh.cxx 131-137), run over the pairs `(verts[ii], solids[ii])`: add `fabs(volume)`,
`assert(solids[ii] > 0)`, add `solids[ii]`. -/
def accumulate (volume : K) : List (Nat × K) → VertSums K → Option (VertSums K)
  | [], s => some s
  | (v, solid) :: rest, s =>
    let vertVolume := addAt s.vertVolume v |volume|
    if solid > 0 then
      accumulate volume rest ⟨vertVolume, addAt s.vertSolidAngle v solid⟩
    else none

/-- One iteration of the tet loop (ExaMesh.cxx 100-138), with `assert(volume > 0)`. -/
def tetCell (L : Libm K) (getCoords : Nat → Vec3 K) (tetVerts : Fin 4 → Nat)
    (s : VertSums K) : Option (VertSums K) :=
  let c : Fin 4 → Vec3 K := fun i => getCoords (tetVerts i)
  let diheds := tetDiheds L c
  let solids := tetSolids L diheds
  let volume := tetVolume (c 0) (c 1) (c 2) (c 3)
  if volume > 0 then accumulate volume (List.ofFn fun ii => (tetVerts ii, solids ii)) s
  else none

/-- One iteration of the pyramid loop (ExaMesh.cxx 141-184), with `assert(volume > 0)`. -/
def pyrCell (L : Libm K) (getCoords : Nat → Vec3 K) (pyrVerts : Fin 5 → Nat)
    (s : VertSums K) : Option (VertSums K) :=
  let c : Fin 5 → Vec3 K := fun i => getCoords (pyrVerts i)
  let diheds := pyrDiheds L c
  let solids := pyrSolids L diheds
  let volume := pyrVolume (c 0) (c 1) (c 2) (c 3) (c 4)
  if volume > 0 then accumulate volume (List.ofFn fun ii => (pyrVerts ii, solids ii)) s
  else none

/-- One iteration of the prism loop (ExaMesh.cxx 187-247); the volume assertion of line 239
is commented out in the source. -/
def prismCell (L : Libm K) (getCoords : Nat → Vec3 K) (prismVerts : Fin 6 → Nat)
    (s : VertSums K) : Option (VertSums K) :=
  let c : Fin 6 → Vec3 K := fun i => getCoords (prismVerts i)
  let diheds := prismDiheds L c
  let solids := prismSolids L diheds
  let volume := prismVolume c
  accumulate volume (List.ofFn fun ii => (prismVerts ii, solids ii)) s

/-- One iteration of the hex loop (ExaMesh.cxx 250-321); the volume assertion of line 313
is commented out in the source. -/
def hexCell (L : Libm K) (getCoords : Nat → Vec3 K) (hexVerts : Fin 8 → Nat)
    (s : VertSums K) : Option (VertSums K) :=
  let c : Fin 8 → Vec3 K := fun i => getCoords (hexVerts i)
  let diheds := hexDiheds L c
  let solids := hexSolids L diheds
  let volume := hexVolume c
  accumulate volume (List.ofFn fun ii => (hexVerts ii, solids ii)) s

/-- The last loop body of `setupLengthScales` (ExaMesh.cxx 324-330) for one vertex: the
assertion on the two sums, then the radius stored in `m_lenScale[vv]`. -/
def lengthScaleOf (L : Libm K) (vertVolume vertSolidAngle : K) : Option K :=
  if vertVolume > 0 ∧ vertSolidAngle > 0 then
    let volume := vertVolume * (4 * L.M_PI) / vertSolidAngle
    let radius := L.cbrt (volume / (4 * L.M_PI / 3))
    some radius
  else none

/-- The part of the `ExaMesh` accessor contract that `setupLengthScales` reads. -/
structure CoarseMesh (K : Type) where
  numVerts : Nat
  getCoords : Nat → Vec3 K
  tetConn : List (Fin 4 → Nat)
  pyrConn : List (Fin 5 → Nat)
  prismConn : List (Fin 6 → Nat)
  hexConn : List (Fin 8 → Nat)

/-- Source `ExaMesh::setupLengthScales` (ExaMesh.cxx 91-331): the four cell loops in order,
then the loop over the vertices; the result is the array `m_lenScale`. -/
def setupLengthScales (L : Libm K) (m : CoarseMesh K) : Option (List K) := do
  let s0 : VertSums K := ⟨fun _ => 0, fun _ => 0⟩
  let s1 ← m.tetConn.foldlM (fun s tet => tetCell L m.getCoords tet s) s0
  let s2 ← m.pyrConn.foldlM (fun s pyr => pyrCell L m.getCoords pyr s) s1
  let s3 ← m.prismConn.foldlM (fun s prism => prismCell L m.getCoords prism s) s2
  let s4 ← m.hexConn.foldlM (fun s hex => hexCell L m.getCoords hex s) s3
  (List.range m.numVerts).mapM (fun vv => lengthScaleOf L (s4.vertVolume vv) (s4.vertSolidAngle vv))

/-- The unit normal of a face given by the local indices of its corners, in the order in which
the source passes them to `triUnitNormal` (three corners) or `quadUnitNormal` (four). -/
def faceNormal {n : Nat} (L : Libm K) (c : Fin n → Vec3 K) :
    List (Fin n) → Vec3 K
  | [i, j, k] => triUnitNormal L (c i) (c j) (c k)
  | [i, j, k, l] => quadUnitNormal L (c i) (c j) (c k) (c l)
  | _ => ⟨0, 0, 0⟩

/-- The opposite vector. -/
def negVec (a : Vec3 K) : Vec3 K := ⟨-a.c0, -a.c1, -a.c2⟩

end Geometry

/-! ### Face, edge and slot tables of the four cell shapes -/

/-- The four faces whose normals the tet loop computes, in the order `normABC`, `normADB`,
`normBDC`, `normCDA`; each face lists its corners as they are passed to `triUnitNormal`. -/
def tetFaces : Fin 4 → List (Fin 4) := ![[0, 1, 2], [0, 3, 1], [1, 3, 2], [2, 3, 0]]

/-- The five faces of the pyramid loop, in the order `norm0123`, `norm014`, `norm124`,
`norm234`, `norm304`, corners as passed to the normal routines. -/
def pyrFaces : Fin 5 → List (Fin 5) := ![[0, 1, 2, 3], [1, 0, 4], [2, 1, 4], [3, 2, 4], [0, 3, 4]]

/-- The five faces of the prism loop, in the order `norm1034`, `norm2145`, `norm0253`,
`norm012`, `norm543`, corners as passed to the normal routines. -/
def prismFaces : Fin 5 → List (Fin 6) :=
  ![[1, 0, 3, 4], [2, 1, 4, 5], [0, 2, 5, 3], [0, 1, 2], [5, 4, 3]]

/-- The six faces of the hex loop, in the order `norm1045`, `norm2156`, `norm3267`,
`norm0374`, `norm0123`, `norm7654`, corners as passed to `quadUnitNormal`. -/
def hexFaces : Fin 6 → List (Fin 8) :=
  ![[1, 0, 4, 5], [2, 1, 5, 6], [3, 2, 6, 7], [0, 3, 7, 4], [0, 1, 2, 3], [7, 6, 5, 4]]

/-- The stated edge order of the tet dihedral slots: 01, 02, 03, 12, 13, 23. -/
def tetEdges : Fin 6 → Fin 4 × Fin 4 := ![(0, 1), (0, 2), (0, 3), (1, 2), (1, 3), (2, 3)]

/-- The stated edge order of the pyramid dihedral slots: 01, 04, 12, 14, 23, 24, 30, 34. -/
def pyrEdges : Fin 8 → Fin 5 × Fin 5 :=
  ![(0, 1), (0, 4), (1, 2), (1, 4), (2, 3), (2, 4), (3, 0), (3, 4)]

/-- The stated edge order of the prism dihedral slots: 01, 12, 20, 03, 14, 25, 34, 45, 53. -/
def prismEdges : Fin 9 → Fin 6 × Fin 6 :=
  ![(0, 1), (1, 2), (2, 0), (0, 3), (1, 4), (2, 5), (3, 4), (4, 5), (5, 3)]

/-- The stated edge order of the hex dihedral slots: 01, 12, 23, 30, 04, 15, 26, 37, 45, 56,
67, 74. -/
def hexEdges : Fin 12 → Fin 8 × Fin 8 :=
  ![(0, 1), (1, 2), (2, 3), (3, 0), (0, 4), (1, 5), (2, 6), (3, 7), (4, 5), (5, 6), (6, 7), (7, 4)]

/-- For each tet slot, the positions in `tetFaces` of the two normals of its `DOT`
(ExaMesh.cxx 115-120). -/
def tetDihedFaces : Fin 6 → Fin 4 × Fin 4 := ![(0, 1), (0, 3), (1, 3), (0, 2), (1, 2), (2, 3)]

/-- For each pyramid slot, the positions in `pyrFaces` of the two normals of its `DOT`
(ExaMesh.cxx 158-165). -/
def pyrDihedFaces : Fin 8 → Fin 5 × Fin 5 :=
  ![(0, 1), (1, 4), (0, 2), (2, 1), (0, 3), (3, 2), (0, 4), (4, 3)]

/-- For each prism slot, the positions in `prismFaces` of the two normals of its `DOT`
(ExaMesh.cxx 206-214). -/
def prismDihedFaces : Fin 9 → Fin 5 × Fin 5 :=
  ![(0, 3), (1, 3), (2, 3), (2, 0), (0, 1), (1, 2), (0, 4), (1, 4), (2, 4)]

/-- For each hex slot, the positions in `hexFaces` of the two normals of its `DOT`
(ExaMesh.cxx 273-284). -/
def hexDihedFaces : Fin 12 → Fin 6 × Fin 6 :=
  ![(0, 4), (1, 4), (2, 4), (3, 4), (0, 3), (1, 0), (2, 1), (3, 2), (0, 5), (1, 5), (2, 5), (3, 5)]

/-- The two faces `fa`, `fb` are exactly the faces of the table that contain both endpoints
of the edge `e`. -/
def facesOnEdge {n nf : Nat} (faces : Fin nf → List (Fin n)) (e : Fin n × Fin n)
    (fa fb : Fin nf) : Prop :=
  fa ≠ fb ∧ ∀ f, (e.1 ∈ faces f ∧ e.2 ∈ faces f) ↔ (f = fa ∨ f = fb)

instance {n nf : Nat} (faces : Fin nf → List (Fin n)) (e : Fin n × Fin n) (fa fb : Fin nf) :
    Decidable (facesOnEdge faces e fa fb) := by
  unfold facesOnEdge
  infer_instance

/-- The dihedral slots of the edges that have the local vertex `v` as an endpoint. -/
def slotsAt {m n : Nat} (edges : Fin m → Fin n × Fin n) (v : Fin n) : List (Fin m) :=
  (List.finRange m).filter (fun k => (edges k).1 = v ∨ (edges k).2 = v)

/-- A hex listed with its bottom quad (0-3) and its top quad (4-7) exchanged. -/
def hexReversed (hexVerts : Fin 8 → Nat) : Fin 8 → Nat :=
  ![hexVerts 4, hexVerts 5, hexVerts 6, hexVerts 7, hexVerts 0, hexVerts 1, hexVerts 2,
    hexVerts 3]

/-- A prism listed with its bottom triangle (0-2) and its top triangle (3-5) exchanged. -/
def prismReversed (prismVerts : Fin 6 → Nat) : Fin 6 → Nat :=
  ![prismVerts 3, prismVerts 4, prismVerts 5, prismVerts 0, prismVerts 1, prismVerts 2]

/-- The eight corners of the cube `[0,2]^3`, numbered like a hex: 0-3 around the bottom,
4-7 above them. -/
def cubeCoords {K : Type} [LinearOrderedField K] : Nat → Vec3 K
  | 0 => ⟨0, 0, 0⟩
  | 1 => ⟨2, 0, 0⟩
  | 2 => ⟨2, 2, 0⟩
  | 3 => ⟨0, 2, 0⟩
  | 4 => ⟨0, 0, 2⟩
  | 5 => ⟨2, 0, 2⟩
  | 6 => ⟨2, 2, 2⟩
  | _ => ⟨0, 2, 2⟩

/-- The corners `(0,0,0)`, `(1,0,0)`, `(0,1,0)`, `(0,0,1)` of the unit tet, vertices 0 to 3. -/
def unitTetCoords {K : Type} [LinearOrderedField K] : Nat → Vec3 K
  | 0 => ⟨0, 0, 0⟩
  | 1 => ⟨1, 0, 0⟩
  | 2 => ⟨0, 1, 0⟩
  | _ => ⟨0, 0, 1⟩

/-! ### Vector helpers used to state the geometric identities -/

section VectorHelpers

variable {K : Type} [LinearOrderedField K]

/-- Macro `SCALE(x, a, y)` of `exa-defs.h` (line 92); the result is `y`. -/
def SCALE (x : Vec3 K) (a : K) : Vec3 K := ⟨a * x.c0, a * x.c1, a * x.c2⟩

/-- The componentwise sum of two vectors. -/
def addVec (a b : Vec3 K) : Vec3 K := ⟨a.c0 + b.c0, a.c1 + b.c1, a.c2 + b.c2⟩

/-- The eight corners, in hex numbering, of the parallelepiped with corner `p0` and edge
vectors `e1`, `e2`, `e3`: `p1 = p0+e1`, `p2 = p0+e1+e2`, `p3 = p0+e2`, `p4 = p0+e3`,
`p5 = p0+e1+e3`, `p6 = p0+e1+e2+e3`, `p7 = p0+e2+e3`. -/
def parallelepiped (p0 e1 e2 e3 : Vec3 K) : Fin 8 → Vec3 K :=
  ![p0, addVec p0 e1, addVec (addVec p0 e1) e2, addVec p0 e2, addVec p0 e3,
    addVec (addVec p0 e1) e3, addVec (addVec (addVec p0 e1) e2) e3, addVec (addVec p0 e2) e3]

end VectorHelpers

/-! ### The listing of `WriteIdenticalVerts`, record by record -/

section Listing

variable {K : Type} [LinearOrderedField K]

/-- The test `a == b` on two buffer reads; a read outside the buffer compares unequal. -/
def eqAt (epsilon : K) : Option (vertsPartBdry K) → Option (vertsPartBdry K) → Bool
  | some a, some b => operatorEq epsilon a b
  | _, _ => false

/-- Record `x[j]` is `==` to its predecessor `x[j-1]` or to its successor `x[j+1]`. -/
def equalsNeighbour (epsilon : K) (x : List (vertsPartBdry K)) (j : Nat) : Bool :=
  (decide (0 < j) && eqAt epsilon x[j]? x[j - 1]?) || eqAt epsilon x[j]? x[j + 1]?

/-- The listing as the specification words it: in increasing buffer index, one line for every
record that is `==` to its predecessor or to its successor. -/
def neighbourListing (epsilon : K) (x : List (vertsPartBdry K)) : List (Nat × Nat × K × K × K) :=
  ((List.range x.length).filter (equalsNeighbour epsilon x)).filterMap
    (fun j => x[j]?.map lineOf)

/-- The same listing read off the buffer front to back, `p` being the record in front of the
part still to read. -/
def listingFrom (epsilon : K) :
    Option (vertsPartBdry K) → List (vertsPartBdry K) → List (Nat × Nat × K × K × K)
  | _, [] => []
  | p, b :: t =>
    (if eqAt epsilon (some b) p || eqAt epsilon (some b) t.head? then [lineOf b] else [])
      ++ listingFrom epsilon (some b) t

end Listing

/-! ### Class `Edge` -/

/-- Class `Edge` of `exa-defs.h` (112-139): the two private members `emInt v0, v1`. -/
structure Edge where
  v0 : Nat
  v1 : Nat
deriving DecidableEq

/-- Constructor `Edge(emInt vA, emInt vB)` (`exa-defs.h` 116-125). -/
def Edge.ctor (vA vB : Nat) : Edge :=
  if vA < vB then ⟨vA, vB⟩ else ⟨vB, vA⟩

/-- Source `Edge::operator<` (`exa-defs.h` 126-128). -/
def Edge.operatorLt (e E : Edge) : Bool :=
  decide (e.v0 < E.v0) || (decide (e.v0 = E.v0) && decide (e.v1 < E.v1))

/-- Source `Edge::operator==` (`exa-defs.h` 129-131). -/
def Edge.operatorEq (e E : Edge) : Bool :=
  decide (e.v0 = E.v0) && decide (e.v1 = E.v1)

/-- Source `Edge::getV0` (`exa-defs.h` 132-134). -/
def Edge.getV0 (e : Edge) : Nat := e.v0

/-- Source `Edge::getV1` (`exa-defs.h` 136-138). -/
def Edge.getV1 (e : Edge) : Nat := e.v1

/-- Source `std::hash<Edge>::operator()` (`exa-defs.h` 207-216): `h0 ^ (h1 << 1)` computed on
`size_t` (64 bits). -/
def Edge.hash (E : Edge) : Nat :=
  let h0 := E.getV0 % 2 ^ 64
  let h1 := E.getV1 % 2 ^ 64
  Nat.xor h0 ((h1 <<< 1) % 2 ^ 64)

/-! ### `computeFineMeshSize` -/

/-- The counts record `MeshSize`.  Its declaration is outside `src/`; the fields are the
eight that `computeFineMeshSize` assigns, which are the counts the specification lists. -/
structure MeshSize where
  nBdryVerts : Nat
  nVerts : Nat
  nBdryTris : Nat
  nBdryQuads : Nat
  nTets : Nat
  nPyrs : Nat
  nPrisms : Nat
  nHexes : Nat
deriving DecidableEq

/-- The count accessors of the `ExaMesh` contract that `computeFineMeshSize` calls. -/
structure MeshCounts where
  numVerts : Nat
  numBdryVerts : Nat
  numBdryTris : Nat
  numBdryQuads : Nat
  numTets : Nat
  numPyramids : Nat
  numPrisms : Nat
  numHexes : Nat

/-- Source `ExaMesh::computeFineMeshSize` (ExaMesh.cxx 333-347).  The callee
`::computeMeshSize(MSIn, nDivs, MSOut)` is defined outside `src/` and is a parameter: it
yields the flag it returns and the value it leaves in `MSOut`.  `exit(2)` is `Except.error 2`,
a normal return is `Except.ok`. -/
def computeFineMeshSize (computeMeshSize : MeshSize → Int → Bool × MeshSize)
    (mesh : MeshCounts) (nDivs : Int) : Except Nat MeshSize :=
  let MSIn : MeshSize :=
    { nBdryVerts := mesh.numBdryVerts
      nVerts := mesh.numVerts
      nBdryTris := mesh.numBdryTris
      nBdryQuads := mesh.numBdryQuads
      nTets := mesh.numTets
      nPyrs := mesh.numPyramids
      nPrisms := mesh.numPrisms
      nHexes := mesh.numHexes }
  let (sizesOK, MSOut) := computeMeshSize MSIn nDivs
  if !sizesOK then Except.error 2
  else Except.ok MSOut

/-! ### `TetDivider` -/

/-- The part of the `TetDivider` object that its constructor (TetDivider.h 17-97) fills in:
the lattice index and the reference coordinates (each `0` or `1`) of the four corners, the
four counts and the two reference tables. -/
structure TetDivider where
  vertIJK : Fin 4 → Fin 3 → Int
  uvwIJK : Fin 4 → Fin 3 → ℚ
  numVerts : Nat
  numEdges : Nat
  numTriFaces : Nat
  numQuadFaces : Nat
  edgeVertIndices : Fin 6 → Fin 2 → Nat
  faceVertIndices : Fin 4 → Fin 3 → Nat

/-- Constructor `TetDivider::TetDivider` (TetDivider.h 17-97), the assignments of lines 21-89.
`nDivs` is the member that the base-class constructor `CellDivider(pVolMesh,
segmentsPerEdge)`, which is outside `src/`, keeps from `segmentsPerEdge`. -/
def TetDivider.ctor (nDivs : Int) : TetDivider where
  vertIJK := ![![0, 0, nDivs], ![nDivs, 0, nDivs], ![0, nDivs, nDivs], ![0, 0, 0]]
  uvwIJK := ![![0, 0, 0], ![1, 0, 0], ![0, 1, 0], ![0, 0, 1]]
  numVerts := 4
  numEdges := 6
  numTriFaces := 4
  numQuadFaces := 0
  edgeVertIndices := ![![0, 1], ![0, 2], ![0, 3], ![1, 2], ![1, 3], ![2, 3]]
  faceVertIndices := ![![0, 1, 2], ![0, 3, 1], ![1, 3, 2], ![2, 3, 0]]

/-! ### Receive layout of `refineForMPI` -/

/-- The body of the coordinator loop of `ExaMesh::refineForMPI` (ExaMesh.cxx 613-616) at
counter `i`, on the state `(disps, totalLengthBuffer)`: `disps[i] = (i > 0) ? (disps[i-1] +
receiveCount[i-1]) : 0` and `totalLengthBuffer = totalLengthBuffer + receiveCount[i]`.  The
array entries and the total are `emInt` (32 bits). -/
def refineForMPI_step (receiveCount : Nat → Nat) (st : (Nat → Nat) × Nat) (i : Nat) :
    (Nat → Nat) × Nat :=
  let disps := st.1
  let totalLengthBuffer := st.2
  let d := if i > 0 then (disps (i - 1) + receiveCount (i - 1)) % 2 ^ 32 else 0
  (fun j => if j = i then d else disps j, (totalLengthBuffer + receiveCount i) % 2 ^ 32)

/-- The coordinator loop `for (int i = 0; i < nPart; i++)` of `ExaMesh::refineForMPI`
(ExaMesh.cxx 612-617): the final `(disps, totalLengthBuffer)`.  `disps0` is the content of the
freshly allocated array `disps`, which the source does not initialise; `totalLengthBuffer`
starts at 0.  The counter is an `int` in the source; it is modelled without wrap-around, which
is exact for fewer than `2^31` parts. -/
def refineForMPI_layout (nPart : Nat) (receiveCount : Nat → Nat) (disps0 : Nat → Nat) :
    (Nat → Nat) × Nat :=
  (List.range nPart).foldl (refineForMPI_step receiveCount) (disps0, 0)

/-- Record counts of three parts: 2, 0 and 5. -/
def exampleCounts : Nat → Nat
  | 0 => 2
  | 1 => 0
  | 2 => 5
  | _ => 0

/-! ### Reading the tet reference tables -/

/-- The triangle `face` runs from vertex `a` to vertex `b` along one of its three sides, taken
in the cyclic order `face[0] -> face[1] -> face[2] -> face[0]`. -/
def traverses (face : Fin 3 → Nat) (a b : Nat) : Bool :=
  (decide (face 0 = a) && decide (face 1 = b)) || (decide (face 1 = a) && decide (face 2 = b))
    || (decide (face 2 = a) && decide (face 0 = b))

/-- Vertex `v` is one of the three corners of the triangle `face`. -/
def onFace (face : Fin 3 → Nat) (v : Nat) : Bool :=
  decide (face 0 = v) || decide (face 1 = v) || decide (face 2 = v)

/-! ### Incident volume and incident solid angle of a vertex -/

section Incident

variable {K : Type} [LinearOrderedField K]

/-- A tet as the cell loop of `setupLengthScales` sees it: its signed volume and the list of
its corners `(vertex, solid angle at that corner)`. -/
def tetCorners (L : Libm K) (getCoords : Nat → Vec3 K) (tetVerts : Fin 4 → Nat) :
    K × List (Nat × K) :=
  (tetVolume (getCoords (tetVerts 0)) (getCoords (tetVerts 1)) (getCoords (tetVerts 2))
      (getCoords (tetVerts 3)),
    List.ofFn fun ii => (tetVerts ii, tetSolids L (tetDiheds L fun i => getCoords (tetVerts i)) ii))

/-- A pyramid: its signed volume and its corners with their solid angles. -/
def pyrCorners (L : Libm K) (getCoords : Nat → Vec3 K) (pyrVerts : Fin 5 → Nat) :
    K × List (Nat × K) :=
  (pyrVolume (getCoords (pyrVerts 0)) (getCoords (pyrVerts 1)) (getCoords (pyrVerts 2))
      (getCoords (pyrVerts 3)) (getCoords (pyrVerts 4)),
    List.ofFn fun ii => (pyrVerts ii, pyrSolids L (pyrDiheds L fun i => getCoords (pyrVerts i)) ii))

/-- A prism: its signed volume and its corners with their solid angles. -/
def prismCorners (L : Libm K) (getCoords : Nat → Vec3 K) (prismVerts : Fin 6 → Nat) :
    K × List (Nat × K) :=
  (prismVolume (fun i => getCoords (prismVerts i)),
    List.ofFn fun ii =>
      (prismVerts ii, prismSolids L (prismDiheds L fun i => getCoords (prismVerts i)) ii))

/-- A hex: its signed volume and its corners with their solid angles. -/
def hexCorners (L : Libm K) (getCoords : Nat → Vec3 K) (hexVerts : Fin 8 → Nat) :
    K × List (Nat × K) :=
  (hexVolume (fun i => getCoords (hexVerts i)),
    List.ofFn fun ii => (hexVerts ii, hexSolids L (hexDiheds L fun i => getCoords (hexVerts i)) ii))

/-- The cells of the mesh, tets first, then pyramids, prisms and hexes. -/
def cellCorners (L : Libm K) (m : CoarseMesh K) : List (K × List (Nat × K)) :=
  m.tetConn.map (tetCorners L m.getCoords) ++ m.pyrConn.map (pyrCorners L m.getCoords)
    ++ m.prismConn.map (prismCorners L m.getCoords) ++ m.hexConn.map (hexCorners L m.getCoords)

/-- The specification's `incidentVol[v]`: the sum, over the cells of the mesh and over the
corners of each cell that are the vertex `v`, of the absolute value of the cell's volume. -/
def incidentVol (L : Libm K) (m : CoarseMesh K) (v : Nat) : K :=
  ((cellCorners L m).map fun c =>
    ((c.2.filter fun p => decide (p.1 = v)).map fun _ => |c.1|).sum).sum

/-- The specification's `incidentSolid[v]`: the sum, over the cells of the mesh and over the
corners of each cell that are the vertex `v`, of the cell's solid angle at that corner. -/
def incidentSolid (L : Libm K) (m : CoarseMesh K) (v : Nat) : K :=
  ((cellCorners L m).map fun c =>
    ((c.2.filter fun p => decide (p.1 = v)).map fun p => p.2).sum).sum

/-- The mesh of one hex, the cube `[0,2]^3` with its eight corners listed in hex order. -/
def cubeMesh : CoarseMesh K where
  numVerts := 8
  getCoords := cubeCoords
  tetConn := []
  pyrConn := []
  prismConn := []
  hexConn := [![0, 1, 2, 3, 4, 5, 6, 7]]

end Incident

/-! ## Theorems -/

section RecordTheorems

variable {K : Type} [LinearOrderedField K]

/-! ### Helper lemmas on the sorting model and on `WriteIdenticalVerts` -/

theorem insertByM_perm {α : Type} (comp : α → α → Option Bool) (e : α) :
    ∀ ys zs : List α, insertByM comp e ys = some zs → zs.Perm (e :: ys) := by
  intro ys
  induction ys with
  | nil =>
    intro zs h
    simp [insertByM] at h
    subst h
    exact List.Perm.refl _
  | cons y ys ih =>
    intro zs h
    unfold insertByM at h
    split at h
    · exact absurd h (by simp)
    · rw [Option.map_eq_some'] at h
      obtain ⟨r, hr, rfl⟩ := h
      exact ((ih r hr).cons y).trans (List.Perm.swap e y ys)
    · simp at h
      subst h
      exact List.Perm.refl _

theorem stable_sort_perm {α : Type} (comp : α → α → Option Bool) :
    ∀ l ys : List α, stable_sort comp l = some ys → ys.Perm l := by
  intro l
  induction l with
  | nil =>
    intro ys h
    simp [stable_sort] at h
    subst h
    exact List.Perm.refl _
  | cons e es ih =>
    intro ys h
    unfold stable_sort at h
    rw [Option.bind_eq_some] at h
    obtain ⟨s, hs, hi⟩ := h
    exact (insertByM_perm comp e s ys hi).trans ((ih s hs).cons e)

theorem insertByM_total {α : Type} (comp : α → α → Option Bool) (e : α) :
    ∀ ys : List α, (∀ y ∈ ys, comp y e ≠ none) → ∃ zs, insertByM comp e ys = some zs := by
  intro ys
  induction ys with
  | nil => intro _; exact ⟨[e], rfl⟩
  | cons y ys ih =>
    intro h
    have hy := h y (List.mem_cons_self y ys)
    obtain ⟨zs, hzs⟩ := ih (fun w hw => h w (List.mem_cons_of_mem y hw))
    unfold insertByM
    split
    · rename_i hc; exact absurd hc hy
    · exact ⟨y :: zs, by simp [hzs]⟩
    · exact ⟨_, rfl⟩

theorem stable_sort_total {α : Type} (comp : α → α → Option Bool) :
    ∀ l : List α, l.Pairwise (fun a b => comp b a ≠ none) →
      ∃ ys, stable_sort comp l = some ys := by
  intro l
  induction l with
  | nil => intro _; exact ⟨[], rfl⟩
  | cons e es ih =>
    intro h
    rw [List.pairwise_cons] at h
    obtain ⟨s, hs⟩ := ih h.2
    have hp := stable_sort_perm comp es s hs
    obtain ⟨zs, hzs⟩ := insertByM_total comp e s (fun y hy => h.1 y (hp.mem_iff.mp hy))
    exact ⟨zs, by simp [stable_sort, hs, hzs]⟩

theorem keyComparator_ne_none {α : Type} {k : α → K} {comp : α → α → Option Bool}
    (hc : keyComparator k comp) (a b : α) : comp a b ≠ none ↔ k a ≠ k b := by
  rw [hc a b]
  rcases lt_trichotomy (k a) (k b) with h | h | h
  · simp [h, h.ne]
  · simp [h]
  · simp [h, h.ne', not_lt_of_gt h]

theorem insertByM_sorted {α : Type} {k : α → K} {comp : α → α → Option Bool}
    (hc : keyComparator k comp) (e : α) :
    ∀ ys zs : List α, insertByM comp e ys = some zs →
      ys.Pairwise (fun a b => k a < k b) → zs.Pairwise (fun a b => k a < k b) := by
  intro ys
  induction ys with
  | nil =>
    intro zs h _
    simp [insertByM] at h
    subst h
    simp
  | cons y ys ih =>
    intro zs h hs
    rw [List.pairwise_cons] at hs
    unfold insertByM at h
    split at h
    · exact absurd h (by simp)
    · rename_i hy
      rw [Option.map_eq_some'] at h
      obtain ⟨r, hr, rfl⟩ := h
      have hlt : k y < k e := by
        rw [hc y e] at hy
        by_contra hn
        simp only [hn, if_false] at hy
        split at hy <;> simp at hy
      rw [List.pairwise_cons]
      refine ⟨?_, ih r hr hs.2⟩
      intro w hw
      rcases List.mem_cons.mp ((insertByM_perm comp e ys r hr).mem_iff.mp hw) with rfl | hw
      · exact hlt
      · exact hs.1 w hw
    · rename_i hy
      simp at h
      subst h
      have hlt : k e < k y := by
        rw [hc y e] at hy
        by_cases h1 : k y < k e
        · simp [h1] at hy
        · simp only [h1, if_false] at hy
          by_contra hn
          simp [hn] at hy
      rw [List.pairwise_cons]
      refine ⟨?_, List.pairwise_cons.mpr hs⟩
      intro w hw
      rcases List.mem_cons.mp hw with rfl | hw
      · exact hlt
      · exact lt_trans hlt (hs.1 w hw)

theorem stable_sort_sorted {α : Type} {k : α → K} {comp : α → α → Option Bool}
    (hc : keyComparator k comp) :
    ∀ l ys : List α, stable_sort comp l = some ys → ys.Pairwise (fun a b => k a < k b) := by
  intro l
  induction l with
  | nil =>
    intro ys h
    simp [stable_sort] at h
    subst h
    simp
  | cons e es ih =>
    intro ys h
    unfold stable_sort at h
    rw [Option.bind_eq_some] at h
    obtain ⟨s, hs, hi⟩ := h
    exact insertByM_sorted hc e s ys hi (ih s hs)

theorem stable_sort_defined_iff {α : Type} {k : α → K} {comp : α → α → Option Bool}
    (hc : keyComparator k comp) (l : List α) :
    (∃ ys, stable_sort comp l = some ys) ↔ l.Pairwise (fun a b => k a ≠ k b) := by
  constructor
  · rintro ⟨ys, h⟩
    have hs := stable_sort_sorted hc l ys h
    have hp := stable_sort_perm comp l ys h
    have hne : ys.Pairwise (fun a b => k a ≠ k b) := hs.imp (fun h => ne_of_lt h)
    exact (hp.pairwise_iff (fun {a b} (h : k a ≠ k b) => h.symm)).mp hne
  · intro h
    apply stable_sort_total
    exact h.imp (fun {a b} hab => (keyComparator_ne_none hc b a).mpr hab.symm)

theorem compX_key : keyComparator (fun r : vertsPartBdry K => r.coord.c0) compX :=
  fun _ _ => rfl
theorem compY_key : keyComparator (fun r : vertsPartBdry K => r.coord.c1) compY :=
  fun _ _ => rfl
theorem compZ_key : keyComparator (fun r : vertsPartBdry K => r.coord.c2) compZ :=
  fun _ _ => rfl

theorem sortBuffer_some_iff (x ys : List (vertsPartBdry K)) :
    sortBuffer x = some ys ↔
      ∃ x1 x2, stable_sort compZ x = some x1 ∧ stable_sort compY x1 = some x2 ∧
        stable_sort compX x2 = some ys := by
  simp [sortBuffer, sort, Option.bind_eq_some]

theorem sortBuffer_perm_sorted (x ys : List (vertsPartBdry K)) (h : sortBuffer x = some ys) :
    ys.Perm x ∧ ys.Pairwise (fun a b => a.coord.c0 < b.coord.c0) := by
  rw [sortBuffer_some_iff] at h
  obtain ⟨x1, x2, h1, h2, h3⟩ := h
  refine ⟨?_, stable_sort_sorted compX_key x2 ys h3⟩
  exact ((stable_sort_perm _ _ _ h3).trans (stable_sort_perm _ _ _ h2)).trans
    (stable_sort_perm _ _ _ h1)

omit [LinearOrderedField K] in
theorem noTies_iff (x : List (vertsPartBdry K)) :
    noTies x ↔ x.Pairwise (fun a b => a.coord.c0 ≠ b.coord.c0) ∧
      x.Pairwise (fun a b => a.coord.c1 ≠ b.coord.c1) ∧
      x.Pairwise (fun a b => a.coord.c2 ≠ b.coord.c2) := by
  unfold noTies
  rw [List.pairwise_and_iff, List.pairwise_and_iff]

theorem sortBuffer_defined_iff (x : List (vertsPartBdry K)) :
    (∃ ys, sortBuffer x = some ys) ↔ noTies x := by
  have symm0 : ∀ {a b : vertsPartBdry K}, a.coord.c0 ≠ b.coord.c0 → b.coord.c0 ≠ a.coord.c0 :=
    fun h => h.symm
  have symm1 : ∀ {a b : vertsPartBdry K}, a.coord.c1 ≠ b.coord.c1 → b.coord.c1 ≠ a.coord.c1 :=
    fun h => h.symm
  rw [noTies_iff]
  constructor
  · rintro ⟨ys, h⟩
    rw [sortBuffer_some_iff] at h
    obtain ⟨x1, x2, h1, h2, h3⟩ := h
    have p1 := stable_sort_perm _ _ _ h1
    have p2 := stable_sort_perm _ _ _ h2
    have d1 := (stable_sort_defined_iff compZ_key x).mp ⟨x1, h1⟩
    have d2 := (stable_sort_defined_iff compY_key x1).mp ⟨x2, h2⟩
    have d3 := (stable_sort_defined_iff compX_key x2).mp ⟨ys, h3⟩
    exact ⟨((p2.trans p1).pairwise_iff symm0).mp d3, (p1.pairwise_iff symm1).mp d2, d1⟩
  · rintro ⟨d0, d1, d2⟩
    obtain ⟨x1, h1⟩ := (stable_sort_defined_iff compZ_key x).mpr d2
    have p1 := stable_sort_perm _ _ _ h1
    obtain ⟨x2, h2⟩ := (stable_sort_defined_iff compY_key x1).mpr
      ((p1.pairwise_iff symm1).mpr d1)
    have p2 := stable_sort_perm _ _ _ h2
    obtain ⟨ys, h3⟩ := (stable_sort_defined_iff compX_key x2).mpr
      (((p2.trans p1).pairwise_iff symm0).mpr d0)
    exact ⟨ys, (sortBuffer_some_iff x ys).mpr ⟨x1, x2, h1, h2, h3⟩⟩

theorem loop_eq_windowLines (epsilon : K) (x : List (vertsPartBdry K))
    (hmax : x.length ≤ 2 ^ 31) :
    ∀ n j : Nat, j + n + 2 = x.length →
      WriteIdenticalVerts.loop epsilon x n (j + 1) = some (windowLines epsilon (x.drop j)) := by
  intro n
  induction n with
  | zero =>
    intro j hj
    have h1 : j < x.length := by omega
    have h2 : j + 1 < x.length := by omega
    have h3 : x.drop (j + 1 + 1) = [] := List.drop_eq_nil_of_le (by omega)
    rw [List.drop_eq_getElem_cons h1, List.drop_eq_getElem_cons h2, h3]
    simp [WriteIdenticalVerts.loop, windowLines]
  | succ n ih =>
    intro j hj
    have h1 : j < x.length := by omega
    have h2 : j + 1 < x.length := by omega
    have h3 : j + 1 + 1 < x.length := by omega
    have hrec := ih (j + 1) (by omega)
    rw [List.drop_eq_getElem_cons h1, List.drop_eq_getElem_cons h2,
      List.drop_eq_getElem_cons h3]
    rw [List.drop_eq_getElem_cons h2, List.drop_eq_getElem_cons h3] at hrec
    have hint : j + 1 + 1 < 2 ^ 31 := by omega
    unfold WriteIdenticalVerts.loop
    rw [if_pos hint, hrec]
    simp only [windowLines, List.getElem?_eq_getElem h2, List.getElem?_eq_getElem h3,
      Nat.add_sub_cancel, List.getElem?_eq_getElem h1]
    by_cases hbc : operatorEq epsilon x[j + 1] x[j + 1 + 1] = true
    · by_cases hba : operatorEq epsilon x[j + 1] x[j] = true
      · simp [hbc, hba]
      · simp [hbc, hba]
    · simp [hbc]

theorem size_minus_one_wrap (n : Nat) (h1 : 1 ≤ n) (hmax : n < 2 ^ 64) :
    (n + 2 ^ 64 - 1) % 2 ^ 64 = n - 1 := by
  have e : n + 2 ^ 64 - 1 = (n - 1) + 2 ^ 64 := by omega
  rw [e, Nat.add_mod_right, Nat.mod_eq_of_lt (by omega)]

theorem WriteIdenticalVerts_eq (epsilon : K) (x : List (vertsPartBdry K))
    (h2 : 2 ≤ x.length) (hmax : x.length ≤ 2 ^ 31) :
    WriteIdenticalVerts epsilon x = some (headLines epsilon x ++ windowLines epsilon x) := by
  have hb := size_minus_one_wrap x.length (by omega) (by omega)
  have hl := loop_eq_windowLines epsilon x hmax (x.length - 1 - 1) 0 (by omega)
  obtain ⟨a, b, t, rfl⟩ : ∃ a b t, x = a :: b :: t := by
    cases x with
    | nil => simp at h2
    | cons a x =>
      cases x with
      | nil => simp at h2
      | cons b t => exact ⟨a, b, t, rfl⟩
  unfold WriteIdenticalVerts
  rw [hb]
  simp only [Nat.zero_add, List.drop_zero] at hl
  simp only [hl, headLines, List.getElem?_cons_zero, List.getElem?_cons_succ, Option.some_bind,
    Option.bind_eq_bind, Option.pure_def]

theorem loop_overflow (epsilon : K) (x : List (vertsPartBdry K)) :
    ∀ n i : Nat, 2 ^ 31 ≤ i + n + 1 → WriteIdenticalVerts.loop epsilon x (n + 1) i = none := by
  intro n
  induction n with
  | zero =>
    intro i hi
    unfold WriteIdenticalVerts.loop
    rw [if_neg (by omega)]
  | succ n ih =>
    intro i hi
    unfold WriteIdenticalVerts.loop
    by_cases hlt : i + 1 < 2 ^ 31
    · rw [if_pos hlt, ih (i + 1) (by omega)]
      cases x[i]? with
      | none => rfl
      | some xi =>
        cases x[i + 1]? with
        | none => rfl
        | some xi1 =>
          cases x[i - 1]? with
          | none => simp
          | some xim =>
            by_cases h1 : operatorEq epsilon xi xi1 = true
            · by_cases h2 : operatorEq epsilon xi xim = true
              · simp [h1, h2]
              · simp [h1, h2]
            · simp [h1]
    · rw [if_neg hlt]

theorem WriteIdenticalVerts_overflow (epsilon : K) (x : List (vertsPartBdry K))
    (h : 2 ^ 31 < x.length) (hmax : x.length < 2 ^ 64) :
    WriteIdenticalVerts epsilon x = none := by
  have hb := size_minus_one_wrap x.length (by omega) hmax
  have hl := loop_overflow epsilon x (x.length - 3) 1 (by omega)
  have e : x.length - 3 + 1 = x.length - 1 - 1 := by omega
  rw [e] at hl
  unfold WriteIdenticalVerts
  rw [hb]
  simp only [hl]
  cases x[0]? with
  | none => rfl
  | some x0 =>
    cases x[1]? with
    | none => rfl
    | some x1 => rfl
theorem operatorEq_eq_true_iff (epsilon : K) (p q : vertsPartBdry K) :
    operatorEq epsilon p q = true ↔
      p.Part ≠ q.Part ∧ |p.coord.c0 - q.coord.c0| < epsilon ∧
        |p.coord.c1 - q.coord.c1| < epsilon ∧ |p.coord.c2 - q.coord.c2| < epsilon := by
  unfold operatorEq
  by_cases hp : p.Part = q.Part
  · simp [hp]
  · simp [hp, and_assoc]

theorem operatorEq_comm (epsilon : K) (p q : vertsPartBdry K) :
    operatorEq epsilon p q = operatorEq epsilon q p := by
  rw [Bool.eq_iff_iff, operatorEq_eq_true_iff, operatorEq_eq_true_iff,
    abs_sub_comm p.coord.c0, abs_sub_comm p.coord.c1, abs_sub_comm p.coord.c2]
  constructor
  · rintro ⟨h, r⟩
    exact ⟨fun e => h e.symm, r⟩
  · rintro ⟨h, r⟩
    exact ⟨fun e => h e.symm, r⟩

omit [LinearOrderedField K] in
theorem pair_infix_cons (p q a : vertsPartBdry K) (xs : List (vertsPartBdry K)) :
    [p, q] <:+: a :: xs ↔ (p = a ∧ ∃ t, xs = q :: t) ∨ [p, q] <:+: xs := by
  rw [List.infix_cons_iff]
  constructor
  · rintro (h | h)
    · left
      obtain ⟨t, ht⟩ := h
      simp only [List.cons_append, List.nil_append, List.cons.injEq] at ht
      exact ⟨ht.1, t, ht.2.symm⟩
    · exact Or.inr h
  · rintro (⟨rfl, t, rfl⟩ | h)
    · exact Or.inl ⟨t, rfl⟩
    · exact Or.inr h

theorem mem_headLines_iff (epsilon : K) (a : vertsPartBdry K) (xs : List (vertsPartBdry K))
    (l : Nat × Nat × K × K × K) :
    l ∈ headLines epsilon (a :: xs) ↔
      ∃ q, (∃ t, xs = q :: t) ∧ operatorEq epsilon a q = true ∧ (l = lineOf a ∨ l = lineOf q) := by
  match xs with
  | [] => simp [headLines]
  | b :: t =>
    by_cases hab : operatorEq epsilon a b = true
    · simp only [headLines, hab, if_true, List.mem_cons, List.mem_singleton, List.not_mem_nil,
        or_false]
      constructor
      · intro h
        exact ⟨b, ⟨t, rfl⟩, hab, h⟩
      · rintro ⟨q, ⟨t', ht'⟩, _, h⟩
        rw [List.cons.injEq] at ht'
        rw [ht'.1]
        exact h
    · simp only [headLines, hab, Bool.false_eq_true, if_false, List.not_mem_nil, false_iff,
        not_exists, not_and]
      rintro q ⟨t', ht'⟩ hq
      rw [List.cons.injEq] at ht'
      rw [← ht'.1] at hq
      exact absurd hq hab

theorem mem_lines_iff (epsilon : K) :
    ∀ (x : List (vertsPartBdry K)) (l : Nat × Nat × K × K × K),
      l ∈ headLines epsilon x ++ windowLines epsilon x ↔
        ∃ a b, [a, b] <:+: x ∧ operatorEq epsilon a b = true ∧ (l = lineOf a ∨ l = lineOf b) := by
  intro x
  induction x with
  | nil =>
    intro l
    simp [headLines, windowLines]
  | cons a xs ih =>
    intro l
    have hstep : l ∈ headLines epsilon (a :: xs) ++ windowLines epsilon (a :: xs) ↔
        l ∈ headLines epsilon (a :: xs) ∨ l ∈ headLines epsilon xs ++ windowLines epsilon xs := by
      match xs with
      | [] => simp [headLines, windowLines]
      | [b] => simp [headLines, windowLines]
      | b :: c :: t =>
        simp only [headLines, windowLines, List.mem_append]
        by_cases hab : operatorEq epsilon a b = true
        · have hba : operatorEq epsilon b a = true := by rw [operatorEq_comm]; exact hab
          by_cases hbc : operatorEq epsilon b c = true
          · simp only [hab, hba, hbc, if_true, List.mem_cons, List.mem_singleton,
              List.not_mem_nil, or_false, Bool.true_eq_false, beq_iff_eq, if_false]
            tauto
          · simp [hab, hbc]
        · have hba : operatorEq epsilon b a = false := by
            rw [operatorEq_comm]; simpa using hab
          by_cases hbc : operatorEq epsilon b c = true
          · simp [hab, hba, hbc]
          · simp [hab, hbc]
    rw [hstep, ih l, mem_headLines_iff]
    constructor
    · rintro (⟨q, hq, he, hl⟩ | ⟨p, q, hi, he, hl⟩)
      · exact ⟨a, q, (pair_infix_cons a q a xs).mpr (Or.inl ⟨rfl, hq⟩), he, hl⟩
      · exact ⟨p, q, (pair_infix_cons p q a xs).mpr (Or.inr hi), he, hl⟩
    · rintro ⟨p, q, hi, he, hl⟩
      rcases (pair_infix_cons p q a xs).mp hi with ⟨rfl, hq⟩ | hi
      · exact Or.inl ⟨q, hq, he, hl⟩
      · exact Or.inr ⟨p, q, hi, he, hl⟩


/-! ### Claims on the reconciliation records -/

/-- C2: `a == b` holds exactly when the partitions differ and each of the three coordinates
agrees within `epsilon`; the relation is symmetric; so two records that compare equal lie
in different partitions with coordinates within `epsilon`. -/
theorem operatorEq_iff_and_symm (epsilon : K) (a b : vertsPartBdry K) :
    (operatorEq epsilon a b = true ↔
        a.Part ≠ b.Part ∧ |a.coord.c0 - b.coord.c0| < epsilon ∧
          |a.coord.c1 - b.coord.c1| < epsilon ∧ |a.coord.c2 - b.coord.c2| < epsilon) ∧
      (operatorEq epsilon a b = true ↔ operatorEq epsilon b a = true) :=
  ⟨operatorEq_eq_true_iff epsilon a b, by rw [operatorEq_comm epsilon a b]⟩

/-- C3 (amended): for a gathered buffer of at least two and at most `2^31` records in which no
two records share an x-, a y- or a z-coordinate, `sortBuffer` returns the records in strictly
increasing x, and the listing of `WriteIdenticalVerts` on that buffer holds exactly the
records that are `==` to the record right before or right after them in that order.  Every
listed record therefore has a cross-partition duplicate in the buffer. -/
theorem reconciliation_lists_adjacent_duplicates (epsilon : K) (x : List (vertsPartBdry K))
    (h2 : 2 ≤ x.length) (hmax : x.length ≤ 2 ^ 31) (hties : noTies x) :
    ∃ ys out, sortBuffer x = some ys ∧ WriteIdenticalVerts epsilon ys = some out ∧
      ys.Perm x ∧ ys.Pairwise (fun a b => a.coord.c0 < b.coord.c0) ∧
      (∀ l, l ∈ out ↔
        ∃ a b, [a, b] <:+: ys ∧ operatorEq epsilon a b = true ∧ (l = lineOf a ∨ l = lineOf b)) ∧
      (∀ l ∈ out, ∃ r ∈ x, ∃ s ∈ x, l = lineOf r ∧ operatorEq epsilon r s = true) := by
  obtain ⟨ys, hys⟩ := (sortBuffer_defined_iff x).mpr hties
  obtain ⟨hperm, hsorted⟩ := sortBuffer_perm_sorted x ys hys
  have hlen : ys.length = x.length := hperm.length_eq
  have hw := WriteIdenticalVerts_eq epsilon ys (by omega) (by omega)
  refine ⟨ys, _, hys, hw, hperm, hsorted, mem_lines_iff epsilon ys, ?_⟩
  intro l hl
  obtain ⟨a, b, hi, he, hab⟩ := (mem_lines_iff epsilon ys l).mp hl
  have ha : a ∈ x := hperm.mem_iff.mp (hi.subset (by simp))
  have hb : b ∈ x := hperm.mem_iff.mp (hi.subset (by simp))
  rcases hab with h | h
  · exact ⟨a, ha, b, hb, h, he⟩
  · exact ⟨b, hb, a, ha, h, by rw [operatorEq_comm]; exact he⟩

end RecordTheorems

/-- C1 (failing input): the buffer holding the vertex `(1/2, 0, 0)` once for part 0 and once
for part 1.  The first pass calls `compZ` on two equal z-coordinates, the comparator reaches
its end without a `return`, and `sortBuffer` yields no sorted buffer at all. -/
theorem sortBuffer_undefined_on_equal_coordinate :
    sortBuffer [(⟨7, 0, ⟨1 / 2, 0, 0⟩⟩ : vertsPartBdry ℚ), ⟨3, 1, ⟨1 / 2, 0, 0⟩⟩] = none := by
  simp [sortBuffer, sort, stable_sort, insertByM, compZ]

/-- C3 (counterexample): the buffer `separatedDuplicate` meets the precondition, its records
4 and 6 are `==` (parts 0 and 1, all coordinates within `1e-6`), and yet `sortBuffer`
followed by `WriteIdenticalVerts` lists nothing: record 9 sits between the two in x-order. -/
theorem reconciliation_misses_separated_duplicate :
    clustered (1 / 10 ^ 6) separatedDuplicate ∧ 2 ≤ separatedDuplicate.length ∧
      (∃ r ∈ separatedDuplicate, ∃ s ∈ separatedDuplicate, operatorEq (1 / 10 ^ 6) r s = true) ∧
      (sortBuffer separatedDuplicate).bind (WriteIdenticalVerts (1 / 10 ^ 6)) = some [] := by
  refine ⟨?_, by simp [separatedDuplicate], ?_, ?_⟩
  · constructor
    · simp only [separatedDuplicate, within, List.mem_cons, List.mem_singleton, List.not_mem_nil,
        or_false, forall_eq_or_imp, forall_eq]
      norm_num [abs_lt]
    · simp only [separatedDuplicate, within, List.pairwise_cons]
      norm_num [abs_lt]
  · refine ⟨⟨4, 0, ⟨1 / 2, 1 / 4, 1 / 8⟩⟩, by simp [separatedDuplicate],
      ⟨6, 1, ⟨1 / 2 + 2 / 10 ^ 9, 1 / 4 + 1 / 10 ^ 9, 1 / 8 + 1 / 10 ^ 9⟩⟩,
      by simp [separatedDuplicate], ?_⟩
    rw [operatorEq_eq_true_iff]
    norm_num [abs_lt]
  · have hs : sortBuffer separatedDuplicate = some
        [⟨4, 0, ⟨1 / 2, 1 / 4, 1 / 8⟩⟩, ⟨9, 0, ⟨1 / 2 + 1 / 10 ^ 9, 3 / 4, 5 / 8⟩⟩,
          ⟨6, 1, ⟨1 / 2 + 2 / 10 ^ 9, 1 / 4 + 1 / 10 ^ 9, 1 / 8 + 1 / 10 ^ 9⟩⟩] := by
      norm_num [separatedDuplicate, sortBuffer, sort, stable_sort, insertByM, compZ, compY, compX]
    rw [hs]
    simp only [Option.some_bind]
    rw [WriteIdenticalVerts_eq _ _ (by simp) (by simp)]
    norm_num [headLines, windowLines, operatorEq, abs_lt]

/-- C3 (witness of the amended claim): the buffer `adjacentDuplicate` has three records and no
shared coordinate, so the amended claim applies to it. -/
theorem reconciliation_lists_adjacent_duplicates_witness :
    2 ≤ adjacentDuplicate.length ∧ adjacentDuplicate.length ≤ 2 ^ 31 ∧
      noTies adjacentDuplicate ∧
      ∃ ys out, sortBuffer adjacentDuplicate = some ys ∧
        WriteIdenticalVerts (1 / 10 ^ 6) ys = some out ∧
        ys.Perm adjacentDuplicate ∧ ys.Pairwise (fun a b => a.coord.c0 < b.coord.c0) ∧
        (∀ l, l ∈ out ↔
          ∃ a b, [a, b] <:+: ys ∧ operatorEq (1 / 10 ^ 6) a b = true ∧
            (l = lineOf a ∨ l = lineOf b)) ∧
        (∀ l ∈ out, ∃ r ∈ adjacentDuplicate, ∃ s ∈ adjacentDuplicate,
          l = lineOf r ∧ operatorEq (1 / 10 ^ 6) r s = true) :=
  have h2 : 2 ≤ adjacentDuplicate.length := by simp [adjacentDuplicate]
  have hmax : adjacentDuplicate.length ≤ 2 ^ 31 := by simp [adjacentDuplicate]
  have hties : noTies adjacentDuplicate := by
    simp only [noTies, adjacentDuplicate, List.pairwise_cons]
    norm_num
  ⟨h2, hmax, hties, reconciliation_lists_adjacent_duplicates (1 / 10 ^ 6) adjacentDuplicate
    h2 hmax hties⟩

/-! ### Claim on the partition count -/

/-- C4 (failing input): 1000 coarse cells, `numDivs = 1`, `maxCellsPerPart = 250`.  The policy
of lines 390-396 gives 4 parts, but `partitionCells` is called with `nParts = 2`. -/
theorem refineForParallel_forces_two_parts :
    nPartsFromPolicy 1000 0 0 0 1 250 = some 4 ∧
      refineForParallel_nParts 1000 0 0 0 1 250 = some 2 := by
  constructor
  · simp [nPartsFromPolicy]
  · simp [refineForParallel_nParts, nPartsFromPolicy]

/-! ### Helper lemmas on the estimator -/

theorem cons_val_five {α : Type} {m : Nat} (x : α) (u : Fin (m + 5) → α) :
    Matrix.vecCons x u 5 = u 4 := rfl

theorem cons_val_six {α : Type} {m : Nat} (x : α) (u : Fin (m + 6) → α) :
    Matrix.vecCons x u 6 = u 5 := rfl

theorem cons_val_seven {α : Type} {m : Nat} (x : α) (u : Fin (m + 7) → α) :
    Matrix.vecCons x u 7 = u 6 := rfl

theorem cons_val_eight {α : Type} {m : Nat} (x : α) (u : Fin (m + 8) → α) :
    Matrix.vecCons x u 8 = u 7 := rfl

theorem cons_val_nine {α : Type} {m : Nat} (x : α) (u : Fin (m + 9) → α) :
    Matrix.vecCons x u 9 = u 8 := rfl

theorem cons_val_ten {α : Type} {m : Nat} (x : α) (u : Fin (m + 10) → α) :
    Matrix.vecCons x u 10 = u 9 := rfl

theorem cons_val_eleven {α : Type} {m : Nat} (x : α) (u : Fin (m + 11) → α) :
    Matrix.vecCons x u 11 = u 10 := rfl

theorem ofFn_six {α : Type} (f : Fin 6 → α) :
    List.ofFn f = [f 0, f 1, f 2, f 3, f 4, f 5] := rfl

theorem ofFn_eight {α : Type} (f : Fin 8 → α) :
    List.ofFn f = [f 0, f 1, f 2, f 3, f 4, f 5, f 6, f 7] := rfl

theorem tet_tables :
    ∀ k, facesOnEdge tetFaces (tetEdges k) (tetDihedFaces k).1 (tetDihedFaces k).2 := by
  decide

theorem pyr_tables :
    ∀ k, facesOnEdge pyrFaces (pyrEdges k) (pyrDihedFaces k).1 (pyrDihedFaces k).2 := by
  decide

theorem prism_tables :
    ∀ k, facesOnEdge prismFaces (prismEdges k) (prismDihedFaces k).1 (prismDihedFaces k).2 := by
  decide

theorem hex_tables :
    ∀ k, facesOnEdge hexFaces (hexEdges k) (hexDihedFaces k).1 (hexDihedFaces k).2 := by
  decide

theorem slot_counts :
    (∀ v, (slotsAt tetEdges v).length = 3) ∧
      (∀ v, (slotsAt pyrEdges v).length = if v = 4 then 4 else 3) ∧
      (∀ v, (slotsAt prismEdges v).length = 3) ∧ (∀ v, (slotsAt hexEdges v).length = 3) := by
  decide

theorem real_cbrt_spec (x : ℝ) (hx : 0 < x) :
    0 < (fun x : ℝ => if 0 ≤ x then x ^ ((3 : ℝ)⁻¹) else -((-x) ^ ((3 : ℝ)⁻¹))) x ∧
      (fun x : ℝ => if 0 ≤ x then x ^ ((3 : ℝ)⁻¹) else -((-x) ^ ((3 : ℝ)⁻¹))) x ^ 3 = x := by
  simp only [hx.le, if_true]
  refine ⟨Real.rpow_pos_of_pos hx _, ?_⟩
  rw [← Real.rpow_natCast, ← Real.rpow_mul hx.le]
  norm_num

section EstimatorTheorems

variable {K : Type} [LinearOrderedField K]

theorem accumulate_eq_none_iff (volume : K) :
    ∀ (l : List (Nat × K)) (s : VertSums K),
      accumulate volume l s = none ↔ ∃ p ∈ l, p.2 ≤ 0 := by
  intro l
  induction l with
  | nil => intro s; simp [accumulate]
  | cons p rest ih =>
    intro s
    obtain ⟨v, solid⟩ := p
    unfold accumulate
    by_cases h : solid > 0
    · simp only [h, if_true, ih, List.mem_cons, exists_eq_or_imp]
      constructor
      · intro hr; exact Or.inr hr
      · rintro (hl | hr)
        · exact absurd hl (not_le.mpr h)
        · exact hr
    · simp only [h, if_false, List.mem_cons, exists_eq_or_imp, true_iff]
      exact Or.inl (not_lt.mp h)

theorem accumulate_ofFn_eq_none_iff {n : Nat} (volume : K) (verts : Fin n → Nat)
    (solids : Fin n → K) (s : VertSums K) :
    accumulate volume (List.ofFn fun ii => (verts ii, solids ii)) s = none ↔
      ∃ v, solids v ≤ 0 := by
  rw [accumulate_eq_none_iff]
  constructor
  · rintro ⟨p, hp, hle⟩
    obtain ⟨i, rfl⟩ := (List.mem_ofFn _ _).mp hp
    exact ⟨i, hle⟩
  · rintro ⟨i, hi⟩
    exact ⟨(verts i, solids i), (List.mem_ofFn _ _).mpr ⟨i, rfl⟩, hi⟩

theorem quadUnitNormal_of_unit (L : Libm K) (hs : L.sqrt 1 = 1) (p0 p1 p2 p3 n : Vec3 K)
    (hn : CROSS
        (⟨0.25 * (p0.c0 + p3.c0 - p1.c0 - p2.c0), 0.25 * (p0.c1 + p3.c1 - p1.c1 - p2.c1),
          0.25 * (p0.c2 + p3.c2 - p1.c2 - p2.c2)⟩ : Vec3 K)
        ⟨0.25 * (p0.c0 + p1.c0 - p3.c0 - p2.c0), 0.25 * (p0.c1 + p1.c1 - p3.c1 - p2.c1),
          0.25 * (p0.c2 + p1.c2 - p3.c2 - p2.c2)⟩ = n)
    (h1 : DOT n n = 1) : quadUnitNormal L p0 p1 p2 p3 = n := by
  unfold quadUnitNormal
  simp only [hn, NORMALIZE, h1, hs]
  simp

theorem reversedCube_diheds (L : Libm K) (hs : L.sqrt 1 = 1) (ha : L.acos 0 = L.M_PI / 2)
    (k : Fin 12) :
    hexDiheds L (fun i => cubeCoords ((![4, 5, 6, 7, 0, 1, 2, 3] : Fin 8 → Nat) i)) k
      = L.M_PI / 2 := by
  have n1045 : quadUnitNormal L (cubeCoords 5) (cubeCoords 4) (cubeCoords 0) (cubeCoords 1)
      = (⟨0, -1, 0⟩ : Vec3 K) := by
    apply quadUnitNormal_of_unit L hs
    · simp [CROSS, cubeCoords]; norm_num
    · simp [DOT]
  have n2156 : quadUnitNormal L (cubeCoords 6) (cubeCoords 5) (cubeCoords 1) (cubeCoords 2)
      = (⟨1, 0, 0⟩ : Vec3 K) := by
    apply quadUnitNormal_of_unit L hs
    · simp [CROSS, cubeCoords]; norm_num
    · simp [DOT]
  have n3267 : quadUnitNormal L (cubeCoords 7) (cubeCoords 6) (cubeCoords 2) (cubeCoords 3)
      = (⟨0, 1, 0⟩ : Vec3 K) := by
    apply quadUnitNormal_of_unit L hs
    · simp [CROSS, cubeCoords]; norm_num
    · simp [DOT]
  have n0374 : quadUnitNormal L (cubeCoords 4) (cubeCoords 7) (cubeCoords 3) (cubeCoords 0)
      = (⟨-1, 0, 0⟩ : Vec3 K) := by
    apply quadUnitNormal_of_unit L hs
    · simp [CROSS, cubeCoords]; norm_num
    · simp [DOT]
  have n0123 : quadUnitNormal L (cubeCoords 4) (cubeCoords 5) (cubeCoords 6) (cubeCoords 7)
      = (⟨0, 0, 1⟩ : Vec3 K) := by
    apply quadUnitNormal_of_unit L hs
    · simp [CROSS, cubeCoords]; norm_num
    · simp [DOT]
  have n7654 : quadUnitNormal L (cubeCoords 3) (cubeCoords 2) (cubeCoords 1) (cubeCoords 0)
      = (⟨0, 0, -1⟩ : Vec3 K) := by
    apply quadUnitNormal_of_unit L hs
    · simp [CROSS, cubeCoords]; norm_num
    · simp [DOT]
  have hacos : safe_acos L (0 : K) = L.M_PI / 2 := by
    norm_num [safe_acos, ha]
  fin_cases k <;>
    simp only [hexDiheds, Matrix.cons_val_zero, Matrix.cons_val_one, Matrix.cons_val_two,
      Matrix.cons_val_three, Matrix.cons_val_four, Matrix.head_cons, Matrix.tail_cons,
      cons_val_five, cons_val_six, cons_val_seven, cons_val_eight, cons_val_nine, cons_val_ten,
      cons_val_eleven, n1045, n2156, n3267, n0374, n0123, n7654] <;>
    norm_num [DOT, hacos]

theorem reversedCube_accepted (L : Libm K) (hs : L.sqrt 1 = 1) (ha : L.acos 0 = L.M_PI / 2)
    (hpi : 0 < L.M_PI) (s : VertSums K) :
    hexCell L cubeCoords ![4, 5, 6, 7, 0, 1, 2, 3] s ≠ none := by
  unfold hexCell
  rw [Ne, accumulate_ofFn_eq_none_iff]
  push_neg
  intro v
  have hd : hexDiheds L (fun i => cubeCoords ((![4, 5, 6, 7, 0, 1, 2, 3] : Fin 8 → Nat) i))
      = fun _ => L.M_PI / 2 := funext (reversedCube_diheds L hs ha)
  have hv : hexSolids L (hexDiheds L fun i =>
      cubeCoords ((![4, 5, 6, 7, 0, 1, 2, 3] : Fin 8 → Nat) i)) v = L.M_PI / 2 := by
    rw [hd]
    fin_cases v <;> simp [hexSolids, cons_val_five, cons_val_six, cons_val_seven]
  rw [hv]
  positivity

theorem DOT_negVec (a b : Vec3 K) : DOT (negVec a) (negVec b) = DOT a b := by
  simp only [DOT, negVec]
  ring

theorem NORMALIZE_negVec (L : Libm K) (a : Vec3 K) :
    NORMALIZE L (negVec a) = negVec (NORMALIZE L a) := by
  simp only [NORMALIZE, DOT_negVec]
  simp only [negVec]
  ext <;> simp only <;> ring

theorem quadUnitNormal_rev (L : Libm K) (p0 p1 p2 p3 : Vec3 K) :
    quadUnitNormal L p3 p2 p1 p0 = negVec (quadUnitNormal L p0 p1 p2 p3) := by
  unfold quadUnitNormal
  simp only
  rw [← NORMALIZE_negVec]
  congr 1
  simp only [CROSS, negVec]
  ext <;> simp only <;> ring

theorem triUnitNormal_rev (L : Libm K) (p0 p1 p2 : Vec3 K) :
    triUnitNormal L p2 p1 p0 = negVec (triUnitNormal L p0 p1 p2) := by
  unfold triUnitNormal
  simp only
  rw [← NORMALIZE_negVec]
  congr 1
  simp only [CROSS, DIFF, negVec]
  ext <;> simp only <;> ring

theorem pyrVolume_rev (p0 p1 p2 p3 a : Vec3 K) :
    pyrVolume p3 p2 p1 p0 a = -pyrVolume p0 p1 p2 p3 a := by
  simp only [pyrVolume, CROSS, DOT]
  ring

theorem tetVolume_rev (p0 p1 p2 a : Vec3 K) :
    tetVolume p2 p1 p0 a = -tetVolume p0 p1 p2 a := by
  simp only [tetVolume, CROSS, DOT, DIFF]
  ring

theorem addAt_comm (a : Nat → K) (v w : Nat) (x y : K) :
    addAt (addAt a v x) w y = addAt (addAt a w y) v x := by
  funext u
  simp only [addAt]
  split_ifs <;> ring

theorem accumulate_perm (volume : K) {l₁ l₂ : List (Nat × K)} (h : l₁.Perm l₂) :
    ∀ s : VertSums K, accumulate volume l₁ s = accumulate volume l₂ s := by
  induction h with
  | nil => intro s; rfl
  | cons p _ ih =>
    intro s
    obtain ⟨v, solid⟩ := p
    simp only [accumulate]
    split_ifs
    · exact ih _
    · rfl
  | swap p q l =>
    intro s
    obtain ⟨v, x⟩ := p
    obtain ⟨w, y⟩ := q
    simp only [accumulate]
    by_cases hx : x > 0 <;> by_cases hy : y > 0 <;> simp only [hx, hy, if_true, if_false]
    rw [addAt_comm s.vertVolume, addAt_comm s.vertSolidAngle]
  | trans _ _ ih₁ ih₂ => intro s; rw [ih₁, ih₂]

theorem accumulate_neg (volume : K) (l : List (Nat × K)) :
    ∀ s : VertSums K, accumulate (-volume) l s = accumulate volume l s := by
  induction l with
  | nil => intro s; rfl
  | cons p rest ih =>
    intro s
    obtain ⟨v, solid⟩ := p
    simp only [accumulate, abs_neg, ih]

theorem hexVolume_reversed (c : Fin 8 → Vec3 K) :
    hexVolume ![c 4, c 5, c 6, c 7, c 0, c 1, c 2, c 3] = -hexVolume c := by
  simp only [hexVolume, Matrix.cons_val_zero, Matrix.cons_val_one, Matrix.cons_val_two,
      Matrix.cons_val_three, Matrix.cons_val_four, Matrix.head_cons, Matrix.tail_cons,
      cons_val_five, cons_val_six, cons_val_seven]
  simp only [pyrVolume, CROSS, DOT]
  ring

theorem hexDiheds_reversed (L : Libm K) (c : Fin 8 → Vec3 K) :
    hexDiheds L ![c 4, c 5, c 6, c 7, c 0, c 1, c 2, c 3] =
      ![hexDiheds L c 8, hexDiheds L c 9, hexDiheds L c 10, hexDiheds L c 11,
        hexDiheds L c 4, hexDiheds L c 5, hexDiheds L c 6, hexDiheds L c 7,
        hexDiheds L c 0, hexDiheds L c 1, hexDiheds L c 2, hexDiheds L c 3] := by
  simp only [hexDiheds, Matrix.cons_val_zero, Matrix.cons_val_one, Matrix.cons_val_two,
      Matrix.cons_val_three, Matrix.cons_val_four, Matrix.head_cons, Matrix.tail_cons,
      cons_val_five, cons_val_six, cons_val_seven, cons_val_eight, cons_val_nine, cons_val_ten,
      cons_val_eleven]
  rw [quadUnitNormal_rev L (c 1) (c 0) (c 4) (c 5), quadUnitNormal_rev L (c 2) (c 1) (c 5) (c 6),
    quadUnitNormal_rev L (c 3) (c 2) (c 6) (c 7), quadUnitNormal_rev L (c 0) (c 3) (c 7) (c 4),
    quadUnitNormal_rev L (c 7) (c 6) (c 5) (c 4), quadUnitNormal_rev L (c 0) (c 1) (c 2) (c 3)]
  simp only [DOT_negVec]

theorem hexSolids_reversed (L : Libm K) (d : Fin 12 → K) :
    hexSolids L ![d 8, d 9, d 10, d 11, d 4, d 5, d 6, d 7, d 0, d 1, d 2, d 3] =
      ![hexSolids L d 4, hexSolids L d 5, hexSolids L d 6, hexSolids L d 7,
        hexSolids L d 0, hexSolids L d 1, hexSolids L d 2, hexSolids L d 3] := by
  simp only [hexSolids, Matrix.cons_val_zero, Matrix.cons_val_one, Matrix.cons_val_two,
      Matrix.cons_val_three, Matrix.cons_val_four, Matrix.head_cons, Matrix.tail_cons,
      cons_val_five, cons_val_six, cons_val_seven, cons_val_eight, cons_val_nine, cons_val_ten,
      cons_val_eleven]

theorem hexCell_reversed (L : Libm K) (getCoords : Nat → Vec3 K) (hexVerts : Fin 8 → Nat)
    (s : VertSums K) :
    hexCell L getCoords (hexReversed hexVerts) s = hexCell L getCoords hexVerts s := by
  have hc : (fun i => getCoords (hexReversed hexVerts i)) =
      ![getCoords (hexVerts 4), getCoords (hexVerts 5), getCoords (hexVerts 6),
        getCoords (hexVerts 7), getCoords (hexVerts 0), getCoords (hexVerts 1),
        getCoords (hexVerts 2), getCoords (hexVerts 3)] := by
    funext i
    fin_cases i <;> rfl
  unfold hexCell
  simp only [hc]
  rw [hexVolume_reversed (fun i => getCoords (hexVerts i)),
    hexDiheds_reversed L (fun i => getCoords (hexVerts i)), hexSolids_reversed, accumulate_neg]
  apply accumulate_perm
  rw [ofFn_eight, ofFn_eight]
  simp only [hexReversed, Matrix.cons_val_zero, Matrix.cons_val_one, Matrix.cons_val_two,
      Matrix.cons_val_three, Matrix.cons_val_four, Matrix.head_cons, Matrix.tail_cons,
      cons_val_five, cons_val_six, cons_val_seven]
  exact @List.perm_append_comm _ [_, _, _, _] [_, _, _, _]

theorem prismVolume_reversed (c : Fin 6 → Vec3 K) :
    prismVolume ![c 3, c 4, c 5, c 0, c 1, c 2] = -prismVolume c := by
  simp only [prismVolume, Matrix.cons_val_zero, Matrix.cons_val_one, Matrix.cons_val_two,
      Matrix.cons_val_three, Matrix.cons_val_four, Matrix.head_cons, Matrix.tail_cons,
      cons_val_five]
  simp only [pyrVolume, tetVolume, CROSS, DOT, DIFF]
  ring

theorem prismDiheds_reversed (L : Libm K) (c : Fin 6 → Vec3 K) :
    prismDiheds L ![c 3, c 4, c 5, c 0, c 1, c 2] =
      ![prismDiheds L c 6, prismDiheds L c 7, prismDiheds L c 8, prismDiheds L c 3,
        prismDiheds L c 4, prismDiheds L c 5, prismDiheds L c 0, prismDiheds L c 1,
        prismDiheds L c 2] := by
  simp only [prismDiheds, Matrix.cons_val_zero, Matrix.cons_val_one, Matrix.cons_val_two,
      Matrix.cons_val_three, Matrix.cons_val_four, Matrix.head_cons, Matrix.tail_cons,
      cons_val_five, cons_val_six, cons_val_seven, cons_val_eight]
  rw [quadUnitNormal_rev L (c 1) (c 0) (c 3) (c 4), quadUnitNormal_rev L (c 2) (c 1) (c 4) (c 5),
    quadUnitNormal_rev L (c 0) (c 2) (c 5) (c 3), triUnitNormal_rev L (c 5) (c 4) (c 3),
    triUnitNormal_rev L (c 0) (c 1) (c 2)]
  simp only [DOT_negVec]

theorem prismSolids_reversed (L : Libm K) (d : Fin 9 → K) :
    prismSolids L ![d 6, d 7, d 8, d 3, d 4, d 5, d 0, d 1, d 2] =
      ![prismSolids L d 3, prismSolids L d 4, prismSolids L d 5,
        prismSolids L d 0, prismSolids L d 1, prismSolids L d 2] := by
  simp only [prismSolids, Matrix.cons_val_zero, Matrix.cons_val_one, Matrix.cons_val_two,
      Matrix.cons_val_three, Matrix.cons_val_four, Matrix.head_cons, Matrix.tail_cons,
      cons_val_five, cons_val_six, cons_val_seven, cons_val_eight]

theorem prismCell_reversed (L : Libm K) (getCoords : Nat → Vec3 K) (prismVerts : Fin 6 → Nat)
    (s : VertSums K) :
    prismCell L getCoords (prismReversed prismVerts) s = prismCell L getCoords prismVerts s := by
  have hc : (fun i => getCoords (prismReversed prismVerts i)) =
      ![getCoords (prismVerts 3), getCoords (prismVerts 4), getCoords (prismVerts 5),
        getCoords (prismVerts 0), getCoords (prismVerts 1), getCoords (prismVerts 2)] := by
    funext i
    fin_cases i <;> rfl
  unfold prismCell
  simp only [hc]
  rw [prismVolume_reversed (fun i => getCoords (prismVerts i)),
    prismDiheds_reversed L (fun i => getCoords (prismVerts i)), prismSolids_reversed,
    accumulate_neg]
  apply accumulate_perm
  rw [ofFn_six, ofFn_six]
  simp only [prismReversed, Matrix.cons_val_zero, Matrix.cons_val_one, Matrix.cons_val_two,
      Matrix.cons_val_three, Matrix.cons_val_four, Matrix.head_cons, Matrix.tail_cons,
      cons_val_five]
  exact @List.perm_append_comm _ [_, _, _] [_, _, _]

omit [LinearOrderedField K] in
theorem foldlM_reversed_cell {β : Type} (f : VertSums K → β → Option (VertSums K))
    (r : β → β) (hr : ∀ s b, f s (r b) = f s b) (pre post : List β) (b : β) (s : VertSums K) :
    (pre ++ r b :: post).foldlM f s = (pre ++ b :: post).foldlM f s := by
  simp only [List.foldlM_append, List.foldlM_cons, hr]

theorem tetDiheds_eq (L : Libm K) (c : Fin 4 → Vec3 K) (k : Fin 6) :
    tetDiheds L c k = safe_acos L (-(DOT (faceNormal L c (tetFaces (tetDihedFaces k).1))
      (faceNormal L c (tetFaces (tetDihedFaces k).2)))) := by
  fin_cases k <;> rfl

theorem pyrDiheds_eq (L : Libm K) (c : Fin 5 → Vec3 K) (k : Fin 8) :
    pyrDiheds L c k = safe_acos L (-(DOT (faceNormal L c (pyrFaces (pyrDihedFaces k).1))
      (faceNormal L c (pyrFaces (pyrDihedFaces k).2)))) := by
  fin_cases k <;> rfl

theorem prismDiheds_eq (L : Libm K) (c : Fin 6 → Vec3 K) (k : Fin 9) :
    prismDiheds L c k = safe_acos L (-(DOT (faceNormal L c (prismFaces (prismDihedFaces k).1))
      (faceNormal L c (prismFaces (prismDihedFaces k).2)))) := by
  fin_cases k <;> rfl

theorem hexDiheds_eq (L : Libm K) (c : Fin 8 → Vec3 K) (k : Fin 12) :
    hexDiheds L c k = safe_acos L (-(DOT (faceNormal L c (hexFaces (hexDihedFaces k).1))
      (faceNormal L c (hexFaces (hexDihedFaces k).2)))) := by
  fin_cases k <;> rfl

theorem tetSolids_eq (L : Libm K) (d : Fin 6 → K) (v : Fin 4) :
    tetSolids L d v = ((slotsAt tetEdges v).map d).sum - L.M_PI := by
  fin_cases v
  · show d 0 + d 1 + d 2 - L.M_PI = (List.map d [0, 1, 2]).sum - L.M_PI
    simp only [List.map, List.sum_cons, List.sum_nil]
    ring
  · show d 0 + d 3 + d 4 - L.M_PI = (List.map d [0, 3, 4]).sum - L.M_PI
    simp only [List.map, List.sum_cons, List.sum_nil]
    ring
  · show d 1 + d 3 + d 5 - L.M_PI = (List.map d [1, 3, 5]).sum - L.M_PI
    simp only [List.map, List.sum_cons, List.sum_nil]
    ring
  · show d 2 + d 4 + d 5 - L.M_PI = (List.map d [2, 4, 5]).sum - L.M_PI
    simp only [List.map, List.sum_cons, List.sum_nil]
    ring

theorem pyrSolids_eq (L : Libm K) (d : Fin 8 → K) (v : Fin 5) :
    pyrSolids L d v = ((slotsAt pyrEdges v).map d).sum - (if v = 4 then 2 * L.M_PI else L.M_PI) := by
  fin_cases v
  · show d 0 + d 1 + d 6 - L.M_PI = (List.map d [0, 1, 6]).sum - L.M_PI
    simp only [List.map, List.sum_cons, List.sum_nil]
    ring
  · show d 0 + d 2 + d 3 - L.M_PI = (List.map d [0, 2, 3]).sum - L.M_PI
    simp only [List.map, List.sum_cons, List.sum_nil]
    ring
  · show d 2 + d 4 + d 5 - L.M_PI = (List.map d [2, 4, 5]).sum - L.M_PI
    simp only [List.map, List.sum_cons, List.sum_nil]
    ring
  · show d 4 + d 6 + d 7 - L.M_PI = (List.map d [4, 6, 7]).sum - L.M_PI
    simp only [List.map, List.sum_cons, List.sum_nil]
    ring
  · show d 1 + d 3 + d 5 + d 7 - 2 * L.M_PI = (List.map d [1, 3, 5, 7]).sum - 2 * L.M_PI
    simp only [List.map, List.sum_cons, List.sum_nil]
    ring

theorem prismSolids_eq (L : Libm K) (d : Fin 9 → K) (v : Fin 6) :
    prismSolids L d v = ((slotsAt prismEdges v).map d).sum - L.M_PI := by
  fin_cases v
  · show d 0 + d 2 + d 3 - L.M_PI = (List.map d [0, 2, 3]).sum - L.M_PI
    simp only [List.map, List.sum_cons, List.sum_nil]
    ring
  · show d 0 + d 1 + d 4 - L.M_PI = (List.map d [0, 1, 4]).sum - L.M_PI
    simp only [List.map, List.sum_cons, List.sum_nil]
    ring
  · show d 1 + d 2 + d 5 - L.M_PI = (List.map d [1, 2, 5]).sum - L.M_PI
    simp only [List.map, List.sum_cons, List.sum_nil]
    ring
  · show d 6 + d 8 + d 3 - L.M_PI = (List.map d [3, 6, 8]).sum - L.M_PI
    simp only [List.map, List.sum_cons, List.sum_nil]
    ring
  · show d 6 + d 7 + d 4 - L.M_PI = (List.map d [4, 6, 7]).sum - L.M_PI
    simp only [List.map, List.sum_cons, List.sum_nil]
    ring
  · show d 7 + d 8 + d 5 - L.M_PI = (List.map d [5, 7, 8]).sum - L.M_PI
    simp only [List.map, List.sum_cons, List.sum_nil]
    ring

theorem hexSolids_eq (L : Libm K) (d : Fin 12 → K) (v : Fin 8) :
    hexSolids L d v = ((slotsAt hexEdges v).map d).sum - L.M_PI := by
  fin_cases v
  · show d 3 + d 0 + d 4 - L.M_PI = (List.map d [0, 3, 4]).sum - L.M_PI
    simp only [List.map, List.sum_cons, List.sum_nil]
    ring
  · show d 0 + d 1 + d 5 - L.M_PI = (List.map d [0, 1, 5]).sum - L.M_PI
    simp only [List.map, List.sum_cons, List.sum_nil]
    ring
  · show d 1 + d 2 + d 6 - L.M_PI = (List.map d [1, 2, 6]).sum - L.M_PI
    simp only [List.map, List.sum_cons, List.sum_nil]
    ring
  · show d 2 + d 3 + d 7 - L.M_PI = (List.map d [2, 3, 7]).sum - L.M_PI
    simp only [List.map, List.sum_cons, List.sum_nil]
    ring
  · show d 11 + d 8 + d 4 - L.M_PI = (List.map d [4, 8, 11]).sum - L.M_PI
    simp only [List.map, List.sum_cons, List.sum_nil]
    ring
  · show d 8 + d 9 + d 5 - L.M_PI = (List.map d [5, 8, 9]).sum - L.M_PI
    simp only [List.map, List.sum_cons, List.sum_nil]
    ring
  · show d 9 + d 10 + d 6 - L.M_PI = (List.map d [6, 9, 10]).sum - L.M_PI
    simp only [List.map, List.sum_cons, List.sum_nil]
    ring
  · show d 10 + d 11 + d 7 - L.M_PI = (List.map d [7, 10, 11]).sum - L.M_PI
    simp only [List.map, List.sum_cons, List.sum_nil]
    ring

/-! ### Claims on the length-scale estimator -/

/-- The last loop body on its own: for accumulated sums `Vol` and `Omega` that are both
positive it stores `lenScale = cbrt((Vol * 4*pi / Omega) / (4*pi/3))`, whose cube is
`3 * Vol / Omega`, and `lenScale > 0`. -/
theorem lengthScaleOf_cubed (L : Libm K) (hpi : 0 < L.M_PI)
    (hcbrt : ∀ x : K, 0 < x → 0 < L.cbrt x ∧ L.cbrt x ^ 3 = x)
    (Vol Omega : K) (hV : 0 < Vol) (hO : 0 < Omega) :
    ∃ lenScale, lengthScaleOf L Vol Omega = some lenScale ∧
      lenScale = L.cbrt ((Vol * (4 * L.M_PI) / Omega) / (4 * L.M_PI / 3)) ∧
      lenScale ^ 3 = 3 * Vol / Omega ∧ 0 < lenScale := by
  have harg : (Vol * (4 * L.M_PI) / Omega) / (4 * L.M_PI / 3) = 3 * Vol / Omega := by
    field_simp
    ring
  have hpos : 0 < 3 * Vol / Omega := by positivity
  refine ⟨L.cbrt ((Vol * (4 * L.M_PI) / Omega) / (4 * L.M_PI / 3)), ?_, rfl, ?_, ?_⟩
  · simp [lengthScaleOf, hV, hO]
  · rw [harg]; exact (hcbrt _ hpos).2
  · rw [harg]; exact (hcbrt _ hpos).1

/-- The last loop body on its own: the value it stores is `cbrt(3 * V / (4 * pi))` with
`V = Vol * 4*pi / Omega` whenever the assertion on `Vol` and `Omega` holds (and there is no
length scale otherwise). -/
theorem lengthScaleOf_sphere_radius (L : Libm K) (Vol Omega : K) :
    lengthScaleOf L Vol Omega =
      if 0 < Vol ∧ 0 < Omega then
        some (L.cbrt (3 * (Vol * (4 * L.M_PI) / Omega) / (4 * L.M_PI)))
      else none := by
  unfold lengthScaleOf
  simp only [gt_iff_lt, div_div_eq_mul_div, mul_comm (Vol * (4 * L.M_PI) / Omega) 3]

/-- C7: for each of the four cell shapes and each dihedral slot `k`, there are two distinct
faces of the cell which are exactly the faces containing both endpoints of the `k`-th edge of
the stated edge order, and slot `k` is `safe_acos(-n_a . n_b)` for the unit normals of these
two faces as the source computes them. -/
theorem dihedral_slots (L : Libm K) :
    (∀ (c : Fin 4 → Vec3 K) (k : Fin 6), ∃ fa fb, facesOnEdge tetFaces (tetEdges k) fa fb ∧
      tetDiheds L c k =
        safe_acos L (-(DOT (faceNormal L c (tetFaces fa)) (faceNormal L c (tetFaces fb))))) ∧
    (∀ (c : Fin 5 → Vec3 K) (k : Fin 8), ∃ fa fb, facesOnEdge pyrFaces (pyrEdges k) fa fb ∧
      pyrDiheds L c k =
        safe_acos L (-(DOT (faceNormal L c (pyrFaces fa)) (faceNormal L c (pyrFaces fb))))) ∧
    (∀ (c : Fin 6 → Vec3 K) (k : Fin 9), ∃ fa fb, facesOnEdge prismFaces (prismEdges k) fa fb ∧
      prismDiheds L c k =
        safe_acos L (-(DOT (faceNormal L c (prismFaces fa)) (faceNormal L c (prismFaces fb))))) ∧
    (∀ (c : Fin 8 → Vec3 K) (k : Fin 12), ∃ fa fb, facesOnEdge hexFaces (hexEdges k) fa fb ∧
      hexDiheds L c k =
        safe_acos L (-(DOT (faceNormal L c (hexFaces fa)) (faceNormal L c (hexFaces fb))))) :=
  ⟨fun c k => ⟨_, _, tet_tables k, tetDiheds_eq L c k⟩,
    fun c k => ⟨_, _, pyr_tables k, pyrDiheds_eq L c k⟩,
    fun c k => ⟨_, _, prism_tables k, prismDiheds_eq L c k⟩,
    fun c k => ⟨_, _, hex_tables k, hexDiheds_eq L c k⟩⟩

/-- C8: for each cell shape and each local vertex `v`, `solids[v]` is the sum of the dihedral
slots of exactly the edges with endpoint `v`, minus `pi` where three edges meet (all vertices
of a tet, prism and hex, the four base vertices of a pyramid) and minus `2*pi` at the pyramid
apex, local vertex 4, where four edges meet. -/
theorem solid_angle_sums (L : Libm K) :
    (∀ (d : Fin 6 → K) (v : Fin 4), (slotsAt tetEdges v).length = 3 ∧
      tetSolids L d v = ((slotsAt tetEdges v).map d).sum - L.M_PI) ∧
    (∀ (d : Fin 8 → K) (v : Fin 5), (slotsAt pyrEdges v).length = (if v = 4 then 4 else 3) ∧
      pyrSolids L d v =
        ((slotsAt pyrEdges v).map d).sum - (if v = 4 then 2 * L.M_PI else L.M_PI)) ∧
    (∀ (d : Fin 9 → K) (v : Fin 6), (slotsAt prismEdges v).length = 3 ∧
      prismSolids L d v = ((slotsAt prismEdges v).map d).sum - L.M_PI) ∧
    (∀ (d : Fin 12 → K) (v : Fin 8), (slotsAt hexEdges v).length = 3 ∧
      hexSolids L d v = ((slotsAt hexEdges v).map d).sum - L.M_PI) :=
  ⟨fun d v => ⟨slot_counts.1 v, tetSolids_eq L d v⟩,
    fun d v => ⟨slot_counts.2.1 v, pyrSolids_eq L d v⟩,
    fun d v => ⟨slot_counts.2.2.1 v, prismSolids_eq L d v⟩,
    fun d v => ⟨slot_counts.2.2.2 v, hexSolids_eq L d v⟩⟩

/-- C9 (amended): a tet or a pyramid fails an assertion exactly when its signed volume is not
positive or one of its corner solid angles is not positive; a prism or a hex fails an assertion
exactly when one of its corner solid angles is not positive (its volume is not asserted). -/
theorem cell_assertions (L : Libm K) (getCoords : Nat → Vec3 K) (s : VertSums K) :
    (∀ tetVerts : Fin 4 → Nat, tetCell L getCoords tetVerts s = none ↔
        (tetVolume (getCoords (tetVerts 0)) (getCoords (tetVerts 1)) (getCoords (tetVerts 2))
            (getCoords (tetVerts 3)) ≤ 0 ∨
          ∃ v, tetSolids L (tetDiheds L fun i => getCoords (tetVerts i)) v ≤ 0)) ∧
      (∀ pyrVerts : Fin 5 → Nat, pyrCell L getCoords pyrVerts s = none ↔
        (pyrVolume (getCoords (pyrVerts 0)) (getCoords (pyrVerts 1)) (getCoords (pyrVerts 2))
            (getCoords (pyrVerts 3)) (getCoords (pyrVerts 4)) ≤ 0 ∨
          ∃ v, pyrSolids L (pyrDiheds L fun i => getCoords (pyrVerts i)) v ≤ 0)) ∧
      (∀ prismVerts : Fin 6 → Nat, prismCell L getCoords prismVerts s = none ↔
        ∃ v, prismSolids L (prismDiheds L fun i => getCoords (prismVerts i)) v ≤ 0) ∧
      (∀ hexVerts : Fin 8 → Nat, hexCell L getCoords hexVerts s = none ↔
        ∃ v, hexSolids L (hexDiheds L fun i => getCoords (hexVerts i)) v ≤ 0) := by
  refine ⟨?_, ?_, ?_, ?_⟩
  · intro tetVerts
    unfold tetCell
    by_cases h : tetVolume (getCoords (tetVerts 0)) (getCoords (tetVerts 1))
        (getCoords (tetVerts 2)) (getCoords (tetVerts 3)) > 0
    · simp only [h, if_true, accumulate_ofFn_eq_none_iff, not_le.mpr h, false_or]
    · simp only [h, if_false, not_lt.mp h, true_or]
  · intro pyrVerts
    unfold pyrCell
    by_cases h : pyrVolume (getCoords (pyrVerts 0)) (getCoords (pyrVerts 1))
        (getCoords (pyrVerts 2)) (getCoords (pyrVerts 3)) (getCoords (pyrVerts 4)) > 0
    · simp only [h, if_true, accumulate_ofFn_eq_none_iff, not_le.mpr h, false_or]
    · simp only [h, if_false, not_lt.mp h, true_or]
  · intro prismVerts
    unfold prismCell
    simp only [accumulate_ofFn_eq_none_iff]
  · intro hexVerts
    unfold hexCell
    simp only [accumulate_ofFn_eq_none_iff]

/-- C10 (amended): exchanging the bottom and top faces of a hex or of a prism negates the
signed volume, and the cell loop treats the reversed cell exactly like the original one: same
outcome of the assertions, same `|V|` and solid angles added to the same vertices, hence the
same length scales for the whole mesh.  A tet or a pyramid is processed only when its signed
volume is positive. -/
theorem reversed_cells_same_scales (L : Libm K) (numVerts : Nat) (getCoords : Nat → Vec3 K)
    (tets : List (Fin 4 → Nat)) (pyrs : List (Fin 5 → Nat)) :
    (∀ (hexVerts : Fin 8 → Nat) (s : VertSums K),
        hexVolume (fun i => getCoords (hexReversed hexVerts i)) =
          -hexVolume (fun i => getCoords (hexVerts i)) ∧
        hexCell L getCoords (hexReversed hexVerts) s = hexCell L getCoords hexVerts s) ∧
      (∀ (prismVerts : Fin 6 → Nat) (s : VertSums K),
        prismVolume (fun i => getCoords (prismReversed prismVerts i)) =
          -prismVolume (fun i => getCoords (prismVerts i)) ∧
        prismCell L getCoords (prismReversed prismVerts) s =
          prismCell L getCoords prismVerts s) ∧
      (∀ (prisms : List (Fin 6 → Nat)) (pre post : List (Fin 8 → Nat)) (hexVerts : Fin 8 → Nat),
        setupLengthScales L ⟨numVerts, getCoords, tets, pyrs, prisms,
            pre ++ hexReversed hexVerts :: post⟩ =
          setupLengthScales L ⟨numVerts, getCoords, tets, pyrs, prisms,
            pre ++ hexVerts :: post⟩) ∧
      (∀ (pre post : List (Fin 6 → Nat)) (prismVerts : Fin 6 → Nat) (hexes : List (Fin 8 → Nat)),
        setupLengthScales L ⟨numVerts, getCoords, tets, pyrs,
            pre ++ prismReversed prismVerts :: post, hexes⟩ =
          setupLengthScales L ⟨numVerts, getCoords, tets, pyrs,
            pre ++ prismVerts :: post, hexes⟩) ∧
      (∀ (tetVerts : Fin 4 → Nat) (s : VertSums K),
        tetCell L getCoords tetVerts s = none ∨
          0 < tetVolume (getCoords (tetVerts 0)) (getCoords (tetVerts 1))
            (getCoords (tetVerts 2)) (getCoords (tetVerts 3))) ∧
      (∀ (pyrVerts : Fin 5 → Nat) (s : VertSums K),
        pyrCell L getCoords pyrVerts s = none ∨
          0 < pyrVolume (getCoords (pyrVerts 0)) (getCoords (pyrVerts 1))
            (getCoords (pyrVerts 2)) (getCoords (pyrVerts 3)) (getCoords (pyrVerts 4))) := by
  refine ⟨?_, ?_, ?_, ?_, ?_, ?_⟩
  · intro hexVerts s
    refine ⟨?_, hexCell_reversed L getCoords hexVerts s⟩
    rw [← hexVolume_reversed (fun i => getCoords (hexVerts i))]
    congr 1
    funext i
    fin_cases i <;> rfl
  · intro prismVerts s
    refine ⟨?_, prismCell_reversed L getCoords prismVerts s⟩
    rw [← prismVolume_reversed (fun i => getCoords (prismVerts i))]
    congr 1
    funext i
    fin_cases i <;> rfl
  · intro prisms pre post hexVerts
    simp only [setupLengthScales]
    congr 1
    funext s1
    congr 1
    funext s2
    congr 1
    funext s3
    rw [foldlM_reversed_cell (fun s hex => hexCell L getCoords hex s) hexReversed
      (fun s b => hexCell_reversed L getCoords b s)]
  · intro pre post prismVerts hexes
    simp only [setupLengthScales]
    congr 1
    funext s1
    congr 1
    funext s2
    rw [foldlM_reversed_cell (fun s prism => prismCell L getCoords prism s) prismReversed
      (fun s b => prismCell_reversed L getCoords b s)]
  · intro tetVerts s
    unfold tetCell
    by_cases h : tetVolume (getCoords (tetVerts 0)) (getCoords (tetVerts 1))
        (getCoords (tetVerts 2)) (getCoords (tetVerts 3)) > 0
    · exact Or.inr h
    · exact Or.inl (by simp only [h, if_false])
  · intro pyrVerts s
    unfold pyrCell
    by_cases h : pyrVolume (getCoords (pyrVerts 0)) (getCoords (pyrVerts 1))
        (getCoords (pyrVerts 2)) (getCoords (pyrVerts 3)) (getCoords (pyrVerts 4)) > 0
    · exact Or.inr h
    · exact Or.inl (by simp only [h, if_false])

end EstimatorTheorems

/-- C6 (counterexample): with `Vol = 1` and `Omega = 1` (so `V = 4*pi`) the stored length scale
is the cube root of 3, not `cbrt(3 * V / pi)`, the cube root of 12. -/
theorem lengthScale_differs_from_spec_formula :
    ∃ lenScale, lengthScaleOf (K := ℝ)
        ⟨Real.sqrt, Real.arccos, fun x => if 0 ≤ x then x ^ ((3 : ℝ)⁻¹) else -((-x) ^ ((3 : ℝ)⁻¹)),
          Real.pi⟩ 1 1 = some lenScale ∧
      lenScale ≠ (fun x : ℝ => if 0 ≤ x then x ^ ((3 : ℝ)⁻¹) else -((-x) ^ ((3 : ℝ)⁻¹)))
        (3 * ((1 : ℝ) * (4 * Real.pi) / 1) / Real.pi) := by
  have hpi : Real.pi ≠ 0 := Real.pi_ne_zero
  have h3 : ((1 : ℝ) * (4 * Real.pi) / 1) / (4 * Real.pi / 3) = 3 := by
    field_simp
  have h12 : 3 * ((1 : ℝ) * (4 * Real.pi) / 1) / Real.pi = 12 := by
    field_simp
    ring
  refine ⟨(fun x : ℝ => if 0 ≤ x then x ^ ((3 : ℝ)⁻¹) else -((-x) ^ ((3 : ℝ)⁻¹)))
    (((1 : ℝ) * (4 * Real.pi) / 1) / (4 * Real.pi / 3)), ?_, ?_⟩
  · simp only [lengthScaleOf, gt_iff_lt, zero_lt_one, and_self, if_true]
  rw [h3, h12]
  intro h
  have c3 := (real_cbrt_spec 3 (by norm_num)).2
  have c12 := (real_cbrt_spec 12 (by norm_num)).2
  rw [h, c12] at c3
  norm_num at c3

/-- C9 (counterexample): the cube `[0,2]^3` listed with its top quad first has signed volume
`-8`, all its corner solid angles are `pi/2`, and the hex loop accepts it. -/
theorem negative_volume_hex_accepted :
    hexVolume (K := ℝ) (fun i => cubeCoords ((![4, 5, 6, 7, 0, 1, 2, 3] : Fin 8 → Nat) i)) ≤ 0 ∧
      hexCell (K := ℝ) ⟨Real.sqrt, Real.arccos,
          fun x => if 0 ≤ x then x ^ ((3 : ℝ)⁻¹) else -((-x) ^ ((3 : ℝ)⁻¹)), Real.pi⟩
        cubeCoords ![4, 5, 6, 7, 0, 1, 2, 3] ⟨fun _ => 0, fun _ => 0⟩ ≠ none := by
  constructor
  · simp [hexVolume, pyrVolume, CROSS, DOT, cubeCoords, cons_val_five, cons_val_six,
      cons_val_seven]
    norm_num
  · exact reversedCube_accepted _ Real.sqrt_one Real.arccos_zero Real.pi_pos _

/-- C10 (counterexample): the unit tet has signed volume `1/6`; listed with vertices 1 and 2
swapped its signed volume is `-1/6` and the tet loop stops at `assert(volume > 0)`. -/
theorem reversed_tet_rejected :
    (0 : ℝ) < tetVolume (unitTetCoords 0) (unitTetCoords 1) (unitTetCoords 2) (unitTetCoords 3) ∧
      tetVolume (K := ℝ) (unitTetCoords 0) (unitTetCoords 2) (unitTetCoords 1) (unitTetCoords 3)
        < 0 ∧
      tetCell (K := ℝ) ⟨Real.sqrt, Real.arccos,
          fun x => if 0 ≤ x then x ^ ((3 : ℝ)⁻¹) else -((-x) ^ ((3 : ℝ)⁻¹)), Real.pi⟩
        unitTetCoords ![0, 2, 1, 3] ⟨fun _ => 0, fun _ => 0⟩ = none := by
  refine ⟨?_, ?_, ?_⟩
  · norm_num [tetVolume, CROSS, DOT, DIFF, unitTetCoords]
  · norm_num [tetVolume, CROSS, DOT, DIFF, unitTetCoords]
  · have h : ¬ (tetVolume (K := ℝ) (unitTetCoords 0) (unitTetCoords 2) (unitTetCoords 1)
        (unitTetCoords 3) > 0) := by
      norm_num [tetVolume, CROSS, DOT, DIFF, unitTetCoords]
    unfold tetCell
    simp only [Matrix.cons_val_zero, Matrix.cons_val_one, Matrix.cons_val_two,
      Matrix.cons_val_three, Matrix.head_cons, Matrix.tail_cons, h, if_false]

/-! ### Claims on the geometry primitives -/

section GeometryTheorems

variable {K : Type} [LinearOrderedField K]

/-- The hex volume of `setupLengthScales` on the parallelepiped with edge vectors `e1`, `e2`,
`e3` is their triple product. -/
theorem hexVolume_of_edges (p0 e1 e2 e3 : Vec3 K) :
    hexVolume (parallelepiped p0 e1 e2 e3) = DOT (CROSS e1 e2) e3 := by
  simp only [hexVolume, parallelepiped, Matrix.cons_val_zero, Matrix.cons_val_one,
    Matrix.cons_val_two, Matrix.cons_val_three, Matrix.cons_val_four, Matrix.head_cons,
    Matrix.tail_cons, cons_val_five, cons_val_six, cons_val_seven]
  simp only [pyrVolume, CROSS, DOT, addVec]
  norm_num
  ring

/-- C11 (amended): for every tet `A B C D` with strictly positive signed volume, each of the
four face normals that the estimator computes (`normABC`, `normADB`, `normBDC`, `normCDA`) is
the normalised cross product written below, and this unnormalised normal has a strictly
positive dot product, equal to six times the volume, with the vector from a face vertex to
the opposite vertex: all four normals point into the tet. -/
theorem tet_normals_point_inward (L : Libm K) (A B C D : Vec3 K)
    (hvol : 0 < tetVolume A B C D) :
    (triUnitNormal L A B C = NORMALIZE L (CROSS (DIFF B A) (DIFF C A)) ∧
        DOT (CROSS (DIFF B A) (DIFF C A)) (DIFF D A) = 6 * tetVolume A B C D ∧
        0 < DOT (CROSS (DIFF B A) (DIFF C A)) (DIFF D A)) ∧
      (triUnitNormal L A D B = NORMALIZE L (CROSS (DIFF D A) (DIFF B A)) ∧
        DOT (CROSS (DIFF D A) (DIFF B A)) (DIFF C A) = 6 * tetVolume A B C D ∧
        0 < DOT (CROSS (DIFF D A) (DIFF B A)) (DIFF C A)) ∧
      (triUnitNormal L B D C = NORMALIZE L (CROSS (DIFF D B) (DIFF C B)) ∧
        DOT (CROSS (DIFF D B) (DIFF C B)) (DIFF A B) = 6 * tetVolume A B C D ∧
        0 < DOT (CROSS (DIFF D B) (DIFF C B)) (DIFF A B)) ∧
      (triUnitNormal L C D A = NORMALIZE L (CROSS (DIFF D C) (DIFF A C)) ∧
        DOT (CROSS (DIFF D C) (DIFF A C)) (DIFF B C) = 6 * tetVolume A B C D ∧
        0 < DOT (CROSS (DIFF D C) (DIFF A C)) (DIFF B C)) := by
  have h1 : DOT (CROSS (DIFF B A) (DIFF C A)) (DIFF D A) = 6 * tetVolume A B C D := by
    simp only [tetVolume, CROSS, DOT, DIFF]
    ring
  have h2 : DOT (CROSS (DIFF D A) (DIFF B A)) (DIFF C A) = 6 * tetVolume A B C D := by
    simp only [tetVolume, CROSS, DOT, DIFF]
    ring
  have h3 : DOT (CROSS (DIFF D B) (DIFF C B)) (DIFF A B) = 6 * tetVolume A B C D := by
    simp only [tetVolume, CROSS, DOT, DIFF]
    ring
  have h4 : DOT (CROSS (DIFF D C) (DIFF A C)) (DIFF B C) = 6 * tetVolume A B C D := by
    simp only [tetVolume, CROSS, DOT, DIFF]
    ring
  have hpos : 0 < 6 * tetVolume A B C D := by linarith
  exact ⟨⟨rfl, h1, h1 ▸ hpos⟩, ⟨rfl, h2, h2 ▸ hpos⟩, ⟨rfl, h3, h3 ▸ hpos⟩, ⟨rfl, h4, h4 ▸ hpos⟩⟩

/-- C12: `tetVolume(p0,p1,p2,p3)` is `((p1-p0) x (p2-p0)) . (p3-p0) / 6`, which is one sixth of
the determinant of the matrix with rows `p1-p0`, `p2-p0`, `p3-p0`; it is `1/6` on the tet
`(0,0,0),(1,0,0),(0,1,0),(0,0,1)` and it can be negative (`-1/6` when two corners are
swapped). -/
theorem tetVolume_eq_det (p0 p1 p2 p3 : Vec3 K) :
    tetVolume p0 p1 p2 p3 = DOT (CROSS (DIFF p1 p0) (DIFF p2 p0)) (DIFF p3 p0) / 6 ∧
      tetVolume p0 p1 p2 p3 =
        Matrix.det !![p1.c0 - p0.c0, p1.c1 - p0.c1, p1.c2 - p0.c2;
                      p2.c0 - p0.c0, p2.c1 - p0.c1, p2.c2 - p0.c2;
                      p3.c0 - p0.c0, p3.c1 - p0.c1, p3.c2 - p0.c2] / 6 ∧
      tetVolume (⟨0, 0, 0⟩ : Vec3 K) ⟨1, 0, 0⟩ ⟨0, 1, 0⟩ ⟨0, 0, 1⟩ = 1 / 6 ∧
      tetVolume (⟨0, 0, 0⟩ : Vec3 K) ⟨0, 1, 0⟩ ⟨1, 0, 0⟩ ⟨0, 0, 1⟩ = -(1 / 6) := by
  refine ⟨rfl, ?_, ?_, ?_⟩
  · rw [Matrix.det_fin_three]
    simp [tetVolume, CROSS, DOT, DIFF, Matrix.vecHead, Matrix.vecTail]
    ring
  · norm_num [tetVolume, CROSS, DOT, DIFF]
  · norm_num [tetVolume, CROSS, DOT, DIFF]

/-- C13: `pyrVolume(p0,p1,p2,p3,a)` is `(B x C) . E * 4/3` with `B = (p0+p3-p1-p2)/4`,
`C = (p0+p1-p3-p2)/4` and `E = a - (p0+p1+p2+p3)/4`.  This is one third of the dot product of
the area vector `(p2-p0) x (p3-p1) / 2` of the base with `E` (base area times height for a
planar base), and it is `h/3` for the unit-square base with apex `(x,y,h)`. -/
theorem pyrVolume_formula (p0 p1 p2 p3 a : Vec3 K) :
    pyrVolume p0 p1 p2 p3 a =
        DOT (CROSS (SCALE (DIFF (addVec p0 p3) (addVec p1 p2)) (1 / 4))
            (SCALE (DIFF (addVec p0 p1) (addVec p3 p2)) (1 / 4)))
          (DIFF a (SCALE (addVec (addVec p0 p1) (addVec p2 p3)) (1 / 4))) * (4 / 3) ∧
      pyrVolume p0 p1 p2 p3 a =
        DOT (SCALE (CROSS (DIFF p2 p0) (DIFF p3 p1)) (1 / 2))
          (DIFF a (SCALE (addVec (addVec p0 p1) (addVec p2 p3)) (1 / 4))) / 3 ∧
      ∀ x y h : K,
        pyrVolume (⟨0, 0, 0⟩ : Vec3 K) ⟨1, 0, 0⟩ ⟨1, 1, 0⟩ ⟨0, 1, 0⟩ ⟨x, y, h⟩ = h / 3 := by
  refine ⟨?_, ?_, ?_⟩
  · simp only [pyrVolume, CROSS, DOT, DIFF, SCALE, addVec]
    norm_num
    ring
  · simp only [pyrVolume, CROSS, DOT, DIFF, SCALE, addVec]
    norm_num
    ring
  · intro x y h
    simp only [pyrVolume, CROSS, DOT]
    norm_num
    ring

theorem DOT_self_pos (a : Vec3 K) (ha : a ≠ ⟨0, 0, 0⟩) : 0 < DOT a a := by
  have s0 := mul_self_nonneg a.c0
  have s1 := mul_self_nonneg a.c1
  have s2 := mul_self_nonneg a.c2
  have h0 : 0 ≤ DOT a a := by
    simp only [DOT]
    linarith
  rcases lt_or_eq_of_le h0 with h | h
  · exact h
  · exfalso
    apply ha
    simp only [DOT] at h
    have e0 : a.c0 * a.c0 = 0 := by linarith
    have e1 : a.c1 * a.c1 = 0 := by linarith
    have e2 : a.c2 * a.c2 = 0 := by linarith
    ext
    · exact mul_self_eq_zero.mp e0
    · exact mul_self_eq_zero.mp e1
    · exact mul_self_eq_zero.mp e2

theorem NORMALIZE_unit (L : Libm K)
    (hsqrt : ∀ x : K, 0 < x → 0 < L.sqrt x ∧ L.sqrt x * L.sqrt x = x)
    (a : Vec3 K) (ha : 0 < DOT a a) :
    NORMALIZE L a = SCALE a (1 / L.sqrt (DOT a a)) ∧ 0 < 1 / L.sqrt (DOT a a) ∧
      DOT (NORMALIZE L a) (NORMALIZE L a) = 1 := by
  obtain ⟨hp, hsq⟩ := hsqrt _ ha
  refine ⟨?_, by positivity, ?_⟩
  · simp only [NORMALIZE, SCALE]
    ext <;> simp only <;> ring
  · have hne : L.sqrt (DOT a a) ≠ 0 := ne_of_gt hp
    have e : DOT (NORMALIZE L a) (NORMALIZE L a) =
        DOT a a / (L.sqrt (DOT a a) * L.sqrt (DOT a a)) := by
      simp only [NORMALIZE, DOT]
      field_simp
    rw [e, hsq]
    exact div_self (ne_of_gt ha)

theorem quadUnitNormal_oriented (L : Libm K)
    (hsqrt : ∀ x : K, 0 < x → 0 < L.sqrt x ∧ L.sqrt x * L.sqrt x = x)
    (p0 p1 p2 p3 : Vec3 K) (hne : CROSS (DIFF p2 p0) (DIFF p3 p1) ≠ ⟨0, 0, 0⟩) :
    DOT (quadUnitNormal L p0 p1 p2 p3) (quadUnitNormal L p0 p1 p2 p3) = 1 ∧
      ∃ t, 0 < t ∧
        quadUnitNormal L p0 p1 p2 p3 = SCALE (CROSS (DIFF p2 p0) (DIFF p3 p1)) t := by
  have hq : quadUnitNormal L p0 p1 p2 p3 =
      NORMALIZE L (SCALE (CROSS (DIFF p2 p0) (DIFF p3 p1)) (1 / 8)) := by
    unfold quadUnitNormal
    simp only
    congr 1
    simp only [CROSS, DIFF, SCALE]
    ext <;> simp only <;> norm_num <;> ring
  have hD := DOT_self_pos _ hne
  have hv : 0 < DOT (SCALE (CROSS (DIFF p2 p0) (DIFF p3 p1)) (1 / 8))
      (SCALE (CROSS (DIFF p2 p0) (DIFF p3 p1)) (1 / 8)) := by
    have e : DOT (SCALE (CROSS (DIFF p2 p0) (DIFF p3 p1)) (1 / 8))
        (SCALE (CROSS (DIFF p2 p0) (DIFF p3 p1)) (1 / 8)) =
        DOT (CROSS (DIFF p2 p0) (DIFF p3 p1)) (CROSS (DIFF p2 p0) (DIFF p3 p1)) / 64 := by
      simp only [DOT, SCALE]
      ring
    rw [e]
    positivity
  obtain ⟨h1, h2, h3⟩ := NORMALIZE_unit L hsqrt _ hv
  obtain ⟨u, hu⟩ : ∃ u, u = 1 / L.sqrt (DOT (SCALE (CROSS (DIFF p2 p0) (DIFF p3 p1)) (1 / 8))
      (SCALE (CROSS (DIFF p2 p0) (DIFF p3 p1)) (1 / 8))) := ⟨_, rfl⟩
  rw [← hu] at h1 h2
  rw [hq]
  refine ⟨h3, 1 / 8 * u, ?_, ?_⟩
  · exact mul_pos (by norm_num) h2
  · rw [h1]
    simp only [SCALE]
    ext <;> simp only <;> ring
/-- C14: for every quad `p0 p1 p2 p3`, `quadUnitNormal` normalises `B x C` with
`B = (p0+p3-p1-p2)/4` and `C = (p0+p1-p3-p2)/4`; this vector is `(p2-p0) x (p3-p1) / 8`, which
is one quarter of the sum of the two triangle area vectors of the split along the diagonal
`p0 p2`, and also of the split along the diagonal `p1 p3`.  When that vector is not zero (and
`sqrt` of a positive number is its positive square root), the returned normal has unit length
and is a positive multiple of `(p2-p0) x (p3-p1)` (right-hand oriented) and of the sum of the
two triangle area vectors of either split. -/
theorem quadNormal_averages_splits (L : Libm K) (p0 p1 p2 p3 : Vec3 K) :
    quadUnitNormal L p0 p1 p2 p3 =
        NORMALIZE L (CROSS (SCALE (DIFF (addVec p0 p3) (addVec p1 p2)) (1 / 4))
          (SCALE (DIFF (addVec p0 p1) (addVec p3 p2)) (1 / 4))) ∧
      CROSS (SCALE (DIFF (addVec p0 p3) (addVec p1 p2)) (1 / 4))
          (SCALE (DIFF (addVec p0 p1) (addVec p3 p2)) (1 / 4)) =
        SCALE (CROSS (DIFF p2 p0) (DIFF p3 p1)) (1 / 8) ∧
      SCALE (CROSS (DIFF p2 p0) (DIFF p3 p1)) (1 / 8) =
        SCALE (addVec (SCALE (CROSS (DIFF p1 p0) (DIFF p2 p0)) (1 / 2))
          (SCALE (CROSS (DIFF p2 p0) (DIFF p3 p0)) (1 / 2))) (1 / 4) ∧
      SCALE (CROSS (DIFF p2 p0) (DIFF p3 p1)) (1 / 8) =
        SCALE (addVec (SCALE (CROSS (DIFF p1 p0) (DIFF p3 p0)) (1 / 2))
          (SCALE (CROSS (DIFF p2 p1) (DIFF p3 p1)) (1 / 2))) (1 / 4) ∧
      ((∀ x : K, 0 < x → 0 < L.sqrt x ∧ L.sqrt x * L.sqrt x = x) →
        CROSS (DIFF p2 p0) (DIFF p3 p1) ≠ ⟨0, 0, 0⟩ →
        DOT (quadUnitNormal L p0 p1 p2 p3) (quadUnitNormal L p0 p1 p2 p3) = 1 ∧
          ∃ t, 0 < t ∧
            quadUnitNormal L p0 p1 p2 p3 = SCALE (CROSS (DIFF p2 p0) (DIFF p3 p1)) t ∧
            quadUnitNormal L p0 p1 p2 p3 =
              SCALE (addVec (SCALE (CROSS (DIFF p1 p0) (DIFF p2 p0)) (1 / 2))
                (SCALE (CROSS (DIFF p2 p0) (DIFF p3 p0)) (1 / 2))) (2 * t) ∧
            quadUnitNormal L p0 p1 p2 p3 =
              SCALE (addVec (SCALE (CROSS (DIFF p1 p0) (DIFF p3 p0)) (1 / 2))
                (SCALE (CROSS (DIFF p2 p1) (DIFF p3 p1)) (1 / 2))) (2 * t)) := by
  refine ⟨?_, ?_, ?_, ?_, ?_⟩
  · unfold quadUnitNormal
    simp only
    congr 1
    simp only [CROSS, DIFF, SCALE, addVec]
    ext <;> simp only <;> norm_num <;> ring
  · simp only [CROSS, DIFF, SCALE, addVec]
    ext <;> simp only <;> ring
  · simp only [CROSS, DIFF, SCALE, addVec]
    ext <;> simp only <;> ring
  · simp only [CROSS, DIFF, SCALE, addVec]
    ext <;> simp only <;> ring
  · intro hsqrt hne
    obtain ⟨hunit, t, ht, hn⟩ := quadUnitNormal_oriented L hsqrt p0 p1 p2 p3 hne
    refine ⟨hunit, t, ht, hn, ?_, ?_⟩
    · rw [hn]
      simp only [CROSS, DIFF, SCALE, addVec]
      ext <;> simp only <;> ring
    · rw [hn]
      simp only [CROSS, DIFF, SCALE, addVec]
      ext <;> simp only <;> ring

/-- C15: `safe_acos(x)` is `acos(max(-1, min(1, x)))`: `M_PI` for `x < -1`, `0` for `x > 1`
and `acos(x)` otherwise, so the result lies in `[0, M_PI]`.  The library facts used are
`acos(-1) = M_PI`, `acos(1) = 0` and that `acos` takes its values in `[0, M_PI]`. -/
theorem safe_acos_clamps (L : Libm K) (hlo : L.acos (-1) = L.M_PI) (hhi : L.acos 1 = 0)
    (hrange : ∀ y : K, 0 ≤ L.acos y ∧ L.acos y ≤ L.M_PI) (x : K) :
    safe_acos L x = L.acos (max (-1) (min 1 x)) ∧
      safe_acos L x = (if x < -1 then L.M_PI else if x > 1 then 0 else L.acos x) ∧
      0 ≤ safe_acos L x ∧ safe_acos L x ≤ L.M_PI := by
  have hpi : 0 ≤ L.M_PI := le_trans (hrange 0).1 (hrange 0).2
  unfold safe_acos
  by_cases h1 : x < -1
  · have hm : max (-1) (min 1 x) = -1 := by
      rw [min_eq_right (by linarith), max_eq_left h1.le]
    simp only [h1, if_true, hm, hlo, true_and, le_refl, and_true]
    exact hpi
  · by_cases h2 : x > 1
    · have hm : max (-1) (min 1 x) = 1 := by
        rw [min_eq_left h2.le, max_eq_right (by norm_num)]
      simp only [h1, if_false, h2, if_true, hm, hhi, true_and, le_refl, true_and]
      exact hpi
    · have hm : max (-1) (min 1 x) = x := by
        rw [min_eq_right (not_lt.mp h2), max_eq_right (not_lt.mp h1)]
      simp only [h1, if_false, h2, hm, true_and]
      exact hrange x

/-- C20: on every parallelepiped with corner `p0` and edge vectors `e1`, `e2`, `e3` the hex
volume of `setupLengthScales` (the six `pyrVolume` terms around the vertex centroid) is the
triple product `(e1 x e2) . e3`; it is `a*b*c` on the box `[0,a]x[0,b]x[0,c]` and `1` on the
unit cube. -/
theorem hexVolume_parallelepiped (p0 e1 e2 e3 : Vec3 K) :
    hexVolume (parallelepiped p0 e1 e2 e3) = DOT (CROSS e1 e2) e3 ∧
      (∀ a b c : K,
        hexVolume (parallelepiped ⟨0, 0, 0⟩ ⟨a, 0, 0⟩ ⟨0, b, 0⟩ ⟨0, 0, c⟩) = a * b * c) ∧
      hexVolume (parallelepiped (⟨0, 0, 0⟩ : Vec3 K) ⟨1, 0, 0⟩ ⟨0, 1, 0⟩ ⟨0, 0, 1⟩) = 1 := by
  refine ⟨hexVolume_of_edges p0 e1 e2 e3, ?_, ?_⟩
  · intro a b c
    rw [hexVolume_of_edges]
    simp [CROSS, DOT]
  · rw [hexVolume_of_edges]
    simp [CROSS, DOT]

end GeometryTheorems

/-- C11 (counterexample): the unit tet has positive signed volume, yet the raw normal of each
of its four faces has dot product `1`, which is not negative, with the vector from a face
vertex to the opposite vertex. -/
theorem tet_normal_not_outward :
    (0 : ℚ) < tetVolume (unitTetCoords 0) (unitTetCoords 1) (unitTetCoords 2) (unitTetCoords 3) ∧
      ¬ (DOT (K := ℚ) (CROSS (DIFF (unitTetCoords 1) (unitTetCoords 0))
          (DIFF (unitTetCoords 2) (unitTetCoords 0)))
        (DIFF (unitTetCoords 3) (unitTetCoords 0)) < 0) ∧
      ¬ (DOT (K := ℚ) (CROSS (DIFF (unitTetCoords 3) (unitTetCoords 0))
          (DIFF (unitTetCoords 1) (unitTetCoords 0)))
        (DIFF (unitTetCoords 2) (unitTetCoords 0)) < 0) ∧
      ¬ (DOT (K := ℚ) (CROSS (DIFF (unitTetCoords 3) (unitTetCoords 1))
          (DIFF (unitTetCoords 2) (unitTetCoords 1)))
        (DIFF (unitTetCoords 0) (unitTetCoords 1)) < 0) ∧
      ¬ (DOT (K := ℚ) (CROSS (DIFF (unitTetCoords 3) (unitTetCoords 2))
          (DIFF (unitTetCoords 0) (unitTetCoords 2)))
        (DIFF (unitTetCoords 1) (unitTetCoords 2)) < 0) := by
  refine ⟨?_, ?_, ?_, ?_, ?_⟩ <;> norm_num [tetVolume, CROSS, DOT, DIFF, unitTetCoords]

/-- C11 (witness of the amended claim): the unit tet, with the real-number `sqrt`, `arccos`,
cube root and `pi`. -/
theorem tet_normals_point_inward_witness :
    (0 : ℝ) < tetVolume ⟨0, 0, 0⟩ ⟨1, 0, 0⟩ ⟨0, 1, 0⟩ ⟨0, 0, 1⟩ ∧
      (0 : ℝ) < DOT (CROSS (DIFF ⟨1, 0, 0⟩ ⟨0, 0, 0⟩) (DIFF ⟨0, 1, 0⟩ ⟨0, 0, 0⟩))
        (DIFF ⟨0, 0, 1⟩ ⟨0, 0, 0⟩) :=
  have hvol : (0 : ℝ) < tetVolume ⟨0, 0, 0⟩ ⟨1, 0, 0⟩ ⟨0, 1, 0⟩ ⟨0, 0, 1⟩ := by
    norm_num [tetVolume, CROSS, DOT, DIFF]
  ⟨hvol, (tet_normals_point_inward (K := ℝ) ⟨Real.sqrt, Real.arccos,
    fun x => if 0 ≤ x then x ^ ((3 : ℝ)⁻¹) else -((-x) ^ ((3 : ℝ)⁻¹)), Real.pi⟩
    ⟨0, 0, 0⟩ ⟨1, 0, 0⟩ ⟨0, 1, 0⟩ ⟨0, 0, 1⟩ hvol).1.2.2⟩

/-- C14 (witness): the square `(0,0,0), (2,0,0), (2,2,0), (0,2,0)` with the real-number
`sqrt`, `arccos`, cube root and `pi`: the returned normal has unit length and is a positive
multiple of `(p2-p0) x (p3-p1) = (0,0,8)`. -/
theorem quadNormal_averages_splits_witness :
    (∀ x : ℝ, 0 < x → 0 < Real.sqrt x ∧ Real.sqrt x * Real.sqrt x = x) ∧
      CROSS (DIFF (⟨2, 2, 0⟩ : Vec3 ℝ) ⟨0, 0, 0⟩) (DIFF ⟨0, 2, 0⟩ ⟨2, 0, 0⟩) = ⟨0, 0, 8⟩ ∧
      DOT (quadUnitNormal (K := ℝ) ⟨Real.sqrt, Real.arccos,
            fun x => if 0 ≤ x then x ^ ((3 : ℝ)⁻¹) else -((-x) ^ ((3 : ℝ)⁻¹)), Real.pi⟩
            ⟨0, 0, 0⟩ ⟨2, 0, 0⟩ ⟨2, 2, 0⟩ ⟨0, 2, 0⟩)
          (quadUnitNormal (K := ℝ) ⟨Real.sqrt, Real.arccos,
            fun x => if 0 ≤ x then x ^ ((3 : ℝ)⁻¹) else -((-x) ^ ((3 : ℝ)⁻¹)), Real.pi⟩
            ⟨0, 0, 0⟩ ⟨2, 0, 0⟩ ⟨2, 2, 0⟩ ⟨0, 2, 0⟩) = 1 := by
  have hsq : ∀ x : ℝ, 0 < x → 0 < Real.sqrt x ∧ Real.sqrt x * Real.sqrt x = x :=
    fun x hx => ⟨Real.sqrt_pos.mpr hx, Real.mul_self_sqrt hx.le⟩
  have hval : CROSS (DIFF (⟨2, 2, 0⟩ : Vec3 ℝ) ⟨0, 0, 0⟩) (DIFF ⟨0, 2, 0⟩ ⟨2, 0, 0⟩) =
      ⟨0, 0, 8⟩ := by
    simp only [CROSS, DIFF]
    ext <;> simp only <;> norm_num
  have hne : CROSS (DIFF (⟨2, 2, 0⟩ : Vec3 ℝ) ⟨0, 0, 0⟩) (DIFF ⟨0, 2, 0⟩ ⟨2, 0, 0⟩) ≠
      ⟨0, 0, 0⟩ := by
    rw [hval]
    intro h
    have h2 := congrArg Vec3.c2 h
    norm_num at h2
  exact ⟨hsq, hval, ((quadNormal_averages_splits (K := ℝ) ⟨Real.sqrt, Real.arccos,
    fun x => if 0 ≤ x then x ^ ((3 : ℝ)⁻¹) else -((-x) ^ ((3 : ℝ)⁻¹)), Real.pi⟩
    ⟨0, 0, 0⟩ ⟨2, 0, 0⟩ ⟨2, 2, 0⟩ ⟨0, 2, 0⟩).2.2.2.2 hsq hne).1⟩

/-- C15 (witness): `x = 2` with the real-number `sqrt`, `arccos`, cube root and `pi`. -/
theorem safe_acos_clamps_witness :
    Real.arccos (-1) = Real.pi ∧ Real.arccos 1 = 0 ∧
      (∀ y : ℝ, 0 ≤ Real.arccos y ∧ Real.arccos y ≤ Real.pi) ∧
      safe_acos (K := ℝ) ⟨Real.sqrt, Real.arccos,
          fun x => if 0 ≤ x then x ^ ((3 : ℝ)⁻¹) else -((-x) ^ ((3 : ℝ)⁻¹)), Real.pi⟩ 2 =
        Real.arccos (max (-1) (min 1 2)) ∧
      safe_acos (K := ℝ) ⟨Real.sqrt, Real.arccos,
          fun x => if 0 ≤ x then x ^ ((3 : ℝ)⁻¹) else -((-x) ^ ((3 : ℝ)⁻¹)), Real.pi⟩ 2 =
        (if (2 : ℝ) < -1 then Real.pi else if (2 : ℝ) > 1 then 0 else Real.arccos 2) ∧
      0 ≤ safe_acos (K := ℝ) ⟨Real.sqrt, Real.arccos,
          fun x => if 0 ≤ x then x ^ ((3 : ℝ)⁻¹) else -((-x) ^ ((3 : ℝ)⁻¹)), Real.pi⟩ 2 ∧
      safe_acos (K := ℝ) ⟨Real.sqrt, Real.arccos,
          fun x => if 0 ≤ x then x ^ ((3 : ℝ)⁻¹) else -((-x) ^ ((3 : ℝ)⁻¹)), Real.pi⟩ 2 ≤ Real.pi :=
  ⟨Real.arccos_neg_one, Real.arccos_one,
    fun y => ⟨Real.arccos_nonneg y, Real.arccos_le_pi y⟩,
    safe_acos_clamps (K := ℝ) ⟨Real.sqrt, Real.arccos,
      fun x => if 0 ≤ x then x ^ ((3 : ℝ)⁻¹) else -((-x) ^ ((3 : ℝ)⁻¹)), Real.pi⟩
      Real.arccos_neg_one Real.arccos_one
      (fun y => ⟨Real.arccos_nonneg y, Real.arccos_le_pi y⟩) 2⟩

/-! ### Claims on `Edge`, `computeFineMeshSize` and `TetDivider` -/

/-- C16 (amended): for all vertex indices `a`, `b` the `Edge` built from `(a,b)` stores
`getV0() = min(a,b)` and `getV1() = max(a,b)`, so `v0 <= v1`, with `v0 < v1` exactly when
`a` and `b` differ; `Edge(a,b) == Edge(b,a)`, the two have the same hash, and
`Edge(a,b) == Edge(c,d)` holds exactly when `(a,b)` and `(c,d)` are the same unordered pair. -/
theorem Edge_canonical (a b c d : Nat) :
    (Edge.ctor a b).getV0 = min a b ∧ (Edge.ctor a b).getV1 = max a b ∧
      (Edge.ctor a b).getV0 ≤ (Edge.ctor a b).getV1 ∧
      ((Edge.ctor a b).getV0 < (Edge.ctor a b).getV1 ↔ a ≠ b) ∧
      (Edge.ctor a b).operatorEq (Edge.ctor b a) = true ∧
      (Edge.ctor a b).hash = (Edge.ctor b a).hash ∧
      ((Edge.ctor a b).operatorEq (Edge.ctor c d) = true ↔
        (a = c ∧ b = d) ∨ (a = d ∧ b = c)) := by
  have hab : Edge.ctor a b = ⟨min a b, max a b⟩ := by
    unfold Edge.ctor
    split_ifs with h
    · rw [min_eq_left h.le, max_eq_right h.le]
    · rw [min_eq_right (not_lt.mp h), max_eq_left (not_lt.mp h)]
  have hcd : Edge.ctor c d = ⟨min c d, max c d⟩ := by
    unfold Edge.ctor
    split_ifs with h
    · rw [min_eq_left h.le, max_eq_right h.le]
    · rw [min_eq_right (not_lt.mp h), max_eq_left (not_lt.mp h)]
  have hba : Edge.ctor b a = Edge.ctor a b := by
    unfold Edge.ctor
    split_ifs with h1 h2 h2
    · omega
    · rfl
    · rfl
    · have : a = b := by omega
      rw [this]
  refine ⟨?_, ?_, ?_, ?_, ?_, ?_, ?_⟩
  · rw [hab]
    rfl
  · rw [hab]
    rfl
  · rw [hab]
    exact le_trans (min_le_left a b) (le_max_left a b)
  · rw [hab]
    simp only [Edge.getV0, Edge.getV1]
    omega
  · rw [hba]
    simp [Edge.operatorEq]
  · rw [hba]
  · rw [hab, hcd]
    simp only [Edge.operatorEq, Bool.and_eq_true, decide_eq_true_eq]
    omega

/-- C16 (counterexample): the edge built from `(5,5)` stores `v0 = v1 = 5`, so `v0 < v1` does
not hold for it. -/
theorem Edge_degenerate :
    (Edge.ctor 5 5).getV0 = min 5 5 ∧ (Edge.ctor 5 5).getV1 = max 5 5 ∧
      ¬ ((Edge.ctor 5 5).getV0 < (Edge.ctor 5 5).getV1) := by
  decide

/-- C17: `computeFineMeshSize(nDivs)` calls `computeMeshSize` on the record holding the eight
coarse counts, each from its accessor, and on `nDivs`; it returns the `MSOut` of that call
when the flag is true, and it exits with code 2 exactly when the flag is false.  It always
does one of the two. -/
theorem computeFineMeshSize_contract (computeMeshSize : MeshSize → Int → Bool × MeshSize)
    (mesh : MeshCounts) (nDivs : Int) :
    computeFineMeshSize computeMeshSize mesh nDivs =
        (if (computeMeshSize
              { nVerts := mesh.numVerts, nBdryVerts := mesh.numBdryVerts,
                nBdryTris := mesh.numBdryTris, nBdryQuads := mesh.numBdryQuads,
                nTets := mesh.numTets, nPyrs := mesh.numPyramids,
                nPrisms := mesh.numPrisms, nHexes := mesh.numHexes } nDivs).1 = true
          then Except.ok (computeMeshSize
              { nVerts := mesh.numVerts, nBdryVerts := mesh.numBdryVerts,
                nBdryTris := mesh.numBdryTris, nBdryQuads := mesh.numBdryQuads,
                nTets := mesh.numTets, nPyrs := mesh.numPyramids,
                nPrisms := mesh.numPrisms, nHexes := mesh.numHexes } nDivs).2
          else Except.error 2) ∧
      (computeFineMeshSize computeMeshSize mesh nDivs = Except.error 2 ↔
        (computeMeshSize
              { nVerts := mesh.numVerts, nBdryVerts := mesh.numBdryVerts,
                nBdryTris := mesh.numBdryTris, nBdryQuads := mesh.numBdryQuads,
                nTets := mesh.numTets, nPyrs := mesh.numPyramids,
                nPrisms := mesh.numPrisms, nHexes := mesh.numHexes } nDivs).1 = false) ∧
      (computeFineMeshSize computeMeshSize mesh nDivs = Except.error 2 ∨
        ∃ out, computeFineMeshSize computeMeshSize mesh nDivs = Except.ok out) := by
  unfold computeFineMeshSize
  cases h : (computeMeshSize
      { nVerts := mesh.numVerts, nBdryVerts := mesh.numBdryVerts,
        nBdryTris := mesh.numBdryTris, nBdryQuads := mesh.numBdryQuads,
        nTets := mesh.numTets, nPyrs := mesh.numPyramids,
        nPrisms := mesh.numPrisms, nHexes := mesh.numHexes } nDivs) with
  | mk ok out =>
    cases ok <;> simp [h]

/-- C18 (amended): for every subdivision factor `N >= 1`, the lattice index `(i,j,k)` that the
`TetDivider` constructor assigns to each of the four corners satisfies `0 <= i`, `0 <= j`,
`i + j <= k` and `k <= N` (so `0 <= k` as well): the corners are `(0,0,N)`, `(N,0,N)`,
`(0,N,N)` and `(0,0,0)`. -/
theorem tet_corner_lattice (N : Int) (hN : 1 ≤ N) (c : Fin 4) :
    0 ≤ (TetDivider.ctor N).vertIJK c 0 ∧ 0 ≤ (TetDivider.ctor N).vertIJK c 1 ∧
      (TetDivider.ctor N).vertIJK c 0 + (TetDivider.ctor N).vertIJK c 1 ≤
        (TetDivider.ctor N).vertIJK c 2 ∧
      (TetDivider.ctor N).vertIJK c 2 ≤ N ∧
      (TetDivider.ctor N).vertIJK =
        ![![0, 0, N], ![N, 0, N], ![0, N, N], ![0, 0, 0]] := by
  refine ⟨?_, ?_, ?_, ?_, rfl⟩ <;>
    fin_cases c <;> simp [TetDivider.ctor, Matrix.vecHead, Matrix.vecTail] <;> omega

/-- C18 (witness of the amended claim): `N = 2`, corner 1. -/
theorem tet_corner_lattice_witness :
    (1 : Int) ≤ 2 ∧
    0 ≤ (TetDivider.ctor 2).vertIJK 1 0 ∧ 0 ≤ (TetDivider.ctor 2).vertIJK 1 1 ∧
      (TetDivider.ctor 2).vertIJK 1 0 + (TetDivider.ctor 2).vertIJK 1 1 ≤
        (TetDivider.ctor 2).vertIJK 1 2 ∧
      (TetDivider.ctor 2).vertIJK 1 2 ≤ 2 ∧
      (TetDivider.ctor 2).vertIJK =
        ![![0, 0, 2], ![2, 0, 2], ![0, 2, 2], ![0, 0, 0]] :=
  ⟨by decide, tet_corner_lattice 2 (by decide) 1⟩

/-- C18 (counterexample): for `N = 1` the constructor gives corner 1 the index `(1,0,1)`,
whose sum `i + j + k = 2` exceeds `N`. -/
theorem tet_corner_outside_spec_lattice :
    (1 : Int) ≤ 1 ∧
      (TetDivider.ctor 1).vertIJK 1 = ![1, 0, 1] ∧
      ¬ ((TetDivider.ctor 1).vertIJK 1 0 + (TetDivider.ctor 1).vertIJK 1 1 +
        (TetDivider.ctor 1).vertIJK 1 2 ≤ 1) := by
  refine ⟨le_refl 1, rfl, ?_⟩
  simp [TetDivider.ctor]

/-! ### Claim on the listing of `WriteIdenticalVerts` -/

section ListingTheorems

variable {K : Type} [LinearOrderedField K]

theorem windowLines_eq_listingFrom (epsilon : K) :
    ∀ (t : List (vertsPartBdry K)) (a b : vertsPartBdry K),
      (if operatorEq epsilon a b then [lineOf b] else []) ++ windowLines epsilon (a :: b :: t) =
        listingFrom epsilon (some a) (b :: t) := by
  intro t
  induction t with
  | nil =>
    intro a b
    simp [windowLines, listingFrom, eqAt, operatorEq_comm epsilon b a]
  | cons c t ih =>
    intro a b
    rw [listingFrom, ← ih b c]
    simp only [windowLines, eqAt, List.head?_cons, operatorEq_comm epsilon b a]
    by_cases hab : operatorEq epsilon a b = true <;>
      by_cases hbc : operatorEq epsilon b c = true <;> simp [hab, hbc]

theorem lines_eq_listingFrom (epsilon : K) (x : List (vertsPartBdry K)) :
    headLines epsilon x ++ windowLines epsilon x = listingFrom epsilon none x := by
  match x with
  | [] => simp [headLines, windowLines, listingFrom]
  | [a] => simp [headLines, windowLines, listingFrom, eqAt]
  | a :: b :: t =>
    rw [listingFrom, ← windowLines_eq_listingFrom]
    simp only [headLines, eqAt, List.head?_cons, Bool.false_or]
    by_cases hab : operatorEq epsilon a b = true <;> simp [hab]

theorem listingFrom_eq_range (epsilon : K) :
    ∀ (x pre : List (vertsPartBdry K)),
      ((List.range' pre.length x.length).filter (equalsNeighbour epsilon (pre ++ x))).filterMap
          (fun j => (pre ++ x)[j]?.map lineOf) =
        listingFrom epsilon pre.getLast? x := by
  intro x
  induction x with
  | nil =>
    intro pre
    simp [listingFrom]
  | cons b t ih =>
    intro pre
    have hrec := ih (pre ++ [b])
    simp only [List.append_assoc, List.singleton_append, List.length_append, List.length_singleton,
      List.getLast?_append, List.getLast?_singleton, Option.or] at hrec
    have hb : (pre ++ b :: t)[pre.length]? = some b := by
      rw [List.getElem?_append_right (le_refl _)]
      simp
    have hnext : (pre ++ b :: t)[pre.length + 1]? = t.head? := by
      rw [List.getElem?_append_right (by omega)]
      simp [List.head?_eq_getElem?]
    have hprev : (decide (0 < pre.length) && eqAt epsilon (some b) (pre ++ b :: t)[pre.length - 1]?)
        = eqAt epsilon (some b) pre.getLast? := by
      cases pre with
      | nil => simp [eqAt]
      | cons p ps =>
        have h1 : (p :: ps ++ b :: t)[(p :: ps).length - 1]? = (p :: ps).getLast? := by
          rw [List.getElem?_append_left (by simp), List.getLast?_eq_getElem?]
        rw [h1]
        simp
    rw [List.length_cons, List.range'_succ, List.filter_cons, listingFrom, ← hrec]
    have hcond : equalsNeighbour epsilon (pre ++ b :: t) pre.length =
        (eqAt epsilon (some b) pre.getLast? || eqAt epsilon (some b) t.head?) := by
      unfold equalsNeighbour
      rw [hb, hnext, hprev]
    rw [hcond]
    by_cases hc : (eqAt epsilon (some b) pre.getLast? || eqAt epsilon (some b) t.head?) = true
    · simp [hc, hb]
    · simp [hc]

/-- C19 (amended): for every buffer `x` of at least two and at most `2^31` records,
`WriteIdenticalVerts` returns, and the lines it writes are, in increasing buffer index, one
line `(partition, vertex ID, x, y, z)` for each record `x[j]` that is `==` to its predecessor
`x[j-1]` or to its successor `x[j+1]`, and nothing else.  For a larger buffer (below the
`2^64` of `size_t`) the `int` loop counter overflows and there is no defined result. -/
theorem WriteIdenticalVerts_lists_neighbours (epsilon : K) (x : List (vertsPartBdry K))
    (h2 : 2 ≤ x.length) (hmax : x.length < 2 ^ 64) :
    WriteIdenticalVerts epsilon x =
      if x.length ≤ 2 ^ 31 then some (neighbourListing epsilon x) else none := by
  by_cases hle : x.length ≤ 2 ^ 31
  · rw [if_pos hle, WriteIdenticalVerts_eq epsilon x h2 hle, lines_eq_listingFrom]
    have h := listingFrom_eq_range epsilon x []
    simp only [List.nil_append, List.length_nil, List.getLast?_nil] at h
    rw [← h, neighbourListing, List.range_eq_range']
  · rw [if_neg hle]
    exact WriteIdenticalVerts_overflow epsilon x (by omega) hmax

end ListingTheorems

/-- C19 (witness of the amended claim): the buffer `adjacentDuplicate` has three records;
records 1 and 2 are each other's neighbour and `==`, so the listing has their two lines, in
buffer order. -/
theorem WriteIdenticalVerts_lists_neighbours_witness :
    2 ≤ adjacentDuplicate.length ∧ adjacentDuplicate.length < 2 ^ 64 ∧
      WriteIdenticalVerts (1 / 10 ^ 6) adjacentDuplicate =
        some (neighbourListing (1 / 10 ^ 6) adjacentDuplicate) ∧
      neighbourListing (1 / 10 ^ 6) adjacentDuplicate =
        [(1, 6, 1 / 2 + 2 / 10 ^ 9, 1 / 4 + 1 / 10 ^ 9, 1 / 8 + 1 / 10 ^ 9),
         (0, 4, 1 / 2, 1 / 4, 1 / 8)] :=
  have h2 : 2 ≤ adjacentDuplicate.length := by simp [adjacentDuplicate]
  have hmax : adjacentDuplicate.length < 2 ^ 64 := by simp [adjacentDuplicate]
  have hle : adjacentDuplicate.length ≤ 2 ^ 31 := by simp [adjacentDuplicate]
  have hval : neighbourListing (1 / 10 ^ 6) adjacentDuplicate =
      [(1, 6, 1 / 2 + 2 / 10 ^ 9, 1 / 4 + 1 / 10 ^ 9, 1 / 8 + 1 / 10 ^ 9),
       (0, 4, 1 / 2, 1 / 4, 1 / 8)] := by
    simp only [neighbourListing, adjacentDuplicate, List.length_cons, List.length_nil]
    norm_num [List.range_succ, List.filter_cons, equalsNeighbour, eqAt, operatorEq, abs_lt]
    simp [List.filterMap_cons, lineOf]
  ⟨h2, hmax,
    (WriteIdenticalVerts_lists_neighbours (1 / 10 ^ 6) adjacentDuplicate h2 hmax).trans
      (if_pos hle), hval⟩

/-- C19 (counterexample): on a buffer of `2^31 + 1` records the loop reaches `i = INT_MAX`,
where `i + 1` overflows, so `WriteIdenticalVerts` has no defined result. -/
theorem WriteIdenticalVerts_undefined_on_large_buffer :
    2 ≤ (List.replicate (2 ^ 31 + 1) (⟨0, 0, ⟨0, 0, 0⟩⟩ : vertsPartBdry ℚ)).length ∧
      WriteIdenticalVerts (1 / 10 ^ 6)
        (List.replicate (2 ^ 31 + 1) (⟨0, 0, ⟨0, 0, 0⟩⟩ : vertsPartBdry ℚ)) = none :=
  ⟨by rw [List.length_replicate]; omega,
    WriteIdenticalVerts_overflow _ _ (by rw [List.length_replicate]; omega)
      (by rw [List.length_replicate]; omega)⟩

/-! ### Claim on the receive layout of `refineForMPI` -/

theorem countSum_mono (receiveCount : Nat → Nat) {i j : Nat} (h : i ≤ j) :
    ∑ k ∈ Finset.range i, receiveCount k ≤ ∑ k ∈ Finset.range j, receiveCount k :=
  Finset.sum_le_sum_of_subset (Finset.range_mono h)

theorem refineForMPI_layout_sums (receiveCount : Nat → Nat) (disps0 : Nat → Nat) :
    ∀ n : Nat, ∑ k ∈ Finset.range n, receiveCount k < 2 ^ 32 →
      (refineForMPI_layout n receiveCount disps0).2 = ∑ k ∈ Finset.range n, receiveCount k ∧
        (∀ i, i < n → (refineForMPI_layout n receiveCount disps0).1 i =
          ∑ k ∈ Finset.range i, receiveCount k) ∧
        (∀ i, n ≤ i → (refineForMPI_layout n receiveCount disps0).1 i = disps0 i) := by
  intro n
  induction n with
  | zero =>
    intro _
    simp [refineForMPI_layout]
  | succ n ih =>
    intro hfit
    have hle : ∑ k ∈ Finset.range n, receiveCount k ≤ ∑ k ∈ Finset.range (n + 1), receiveCount k :=
      countSum_mono receiveCount (Nat.le_succ n)
    obtain ⟨ht, hd, hrest⟩ := ih (lt_of_le_of_lt hle hfit)
    have hstep : refineForMPI_layout (n + 1) receiveCount disps0 =
        refineForMPI_step receiveCount (refineForMPI_layout n receiveCount disps0) n := by
      simp [refineForMPI_layout, List.range_succ, List.foldl_append]
    rw [hstep]
    refine ⟨?_, ?_, ?_⟩
    · simp only [refineForMPI_step]
      rw [ht, ← Finset.sum_range_succ]
      exact Nat.mod_eq_of_lt hfit
    · intro i hi
      simp only [refineForMPI_step]
      by_cases hin : i = n
      · subst hin
        simp only [if_true]
        by_cases h0 : i > 0
        · have hp : i - 1 < i := by omega
          have hs : ∑ k ∈ Finset.range (i - 1), receiveCount k + receiveCount (i - 1) =
              ∑ k ∈ Finset.range i, receiveCount k := by
            rw [← Finset.sum_range_succ]
            congr 2
            omega
          rw [if_pos h0, hd (i - 1) hp, hs]
          exact Nat.mod_eq_of_lt (lt_of_le_of_lt hle hfit)
        · have : i = 0 := by omega
          subst this
          simp
      · rw [if_neg hin]
        exact hd i (by omega)
    · intro i hi
      simp only [refineForMPI_step]
      rw [if_neg (by omega)]
      exact hrest i (by omega)

theorem countSum_tile (receiveCount : Nat → Nat) :
    ∀ (n s : Nat), s < ∑ k ∈ Finset.range n, receiveCount k →
      ∃ i, i < n ∧ ∑ k ∈ Finset.range i, receiveCount k ≤ s ∧
        s < ∑ k ∈ Finset.range i, receiveCount k + receiveCount i := by
  intro n
  induction n with
  | zero =>
    intro s hs
    simp at hs
  | succ n ih =>
    intro s hs
    by_cases h : s < ∑ k ∈ Finset.range n, receiveCount k
    · obtain ⟨i, hi, h1, h2⟩ := ih s h
      exact ⟨i, by omega, h1, h2⟩
    · rw [Finset.sum_range_succ] at hs
      exact ⟨n, by omega, not_lt.mp h, hs⟩

/-- C21: on the coordinator, for every `nPart >= 1` and all record counts whose sum fits the
32-bit index type, `disps[i]` is the sum of `receiveCount[j]` for `j < i` and
`totalLengthBuffer` is the sum of all counts.  So `disps[0] = 0`, each segment starts where the
previous one stops, the last one stops at `totalLengthBuffer`, a segment of a lower rank lies
before that of a higher rank, and every slot below `totalLengthBuffer` lies in exactly one
segment `[disps[i], disps[i] + receiveCount[i])`. -/
theorem gather_segments_tile (nPart : Nat) (receiveCount disps0 : Nat → Nat)
    (hN : 1 ≤ nPart) (hfit : ∑ k ∈ Finset.range nPart, receiveCount k < 2 ^ 32) :
    (∀ i, i < nPart → (refineForMPI_layout nPart receiveCount disps0).1 i =
        ∑ k ∈ Finset.range i, receiveCount k) ∧
      (refineForMPI_layout nPart receiveCount disps0).2 =
        ∑ k ∈ Finset.range nPart, receiveCount k ∧
      (refineForMPI_layout nPart receiveCount disps0).1 0 = 0 ∧
      (∀ i, i + 1 < nPart → (refineForMPI_layout nPart receiveCount disps0).1 (i + 1) =
        (refineForMPI_layout nPart receiveCount disps0).1 i + receiveCount i) ∧
      (refineForMPI_layout nPart receiveCount disps0).1 (nPart - 1) + receiveCount (nPart - 1) =
        (refineForMPI_layout nPart receiveCount disps0).2 ∧
      (∀ i j, i < j → j < nPart →
        (refineForMPI_layout nPart receiveCount disps0).1 i + receiveCount i ≤
          (refineForMPI_layout nPart receiveCount disps0).1 j) ∧
      (∀ s, s < (refineForMPI_layout nPart receiveCount disps0).2 →
        ∃! i, i < nPart ∧ (refineForMPI_layout nPart receiveCount disps0).1 i ≤ s ∧
          s < (refineForMPI_layout nPart receiveCount disps0).1 i + receiveCount i) := by
  obtain ⟨ht, hd, _⟩ := refineForMPI_layout_sums receiveCount disps0 nPart hfit
  have hend : ∀ i j, i < j → j < nPart →
      (refineForMPI_layout nPart receiveCount disps0).1 i + receiveCount i ≤
        (refineForMPI_layout nPart receiveCount disps0).1 j := by
    intro i j hij hj
    rw [hd i (by omega), hd j hj, ← Finset.sum_range_succ]
    exact countSum_mono receiveCount hij
  refine ⟨hd, ht, ?_, ?_, ?_, hend, ?_⟩
  · rw [hd 0 (by omega)]
    simp
  · intro i hi
    rw [hd (i + 1) hi, hd i (by omega), Finset.sum_range_succ]
  · rw [hd (nPart - 1) (by omega), ht, ← Finset.sum_range_succ]
    congr 2
    omega
  · intro s hs
    rw [ht] at hs
    obtain ⟨i, hi, h1, h2⟩ := countSum_tile receiveCount nPart s hs
    refine ⟨i, ⟨hi, by rw [hd i hi]; exact h1, by rw [hd i hi]; exact h2⟩, ?_⟩
    rintro j ⟨hj, hj1, hj2⟩
    by_contra hne
    rcases Nat.lt_or_gt_of_ne hne with hlt | hgt
    · have := hend j i hlt hi
      rw [hd i hi] at this
      omega
    · have := hend i j hgt hj
      rw [hd i hi] at this
      omega

/-- C21 (witness): three parts with 2, 0 and 5 records; the displacements are 0, 2, 2 and the
buffer has 7 slots. -/
theorem gather_segments_tile_witness :
    1 ≤ 3 ∧ ∑ k ∈ Finset.range 3, exampleCounts k < 2 ^ 32 ∧
      (refineForMPI_layout 3 exampleCounts (fun _ => 99)).2 =
        ∑ k ∈ Finset.range 3, exampleCounts k ∧
      ((refineForMPI_layout 3 exampleCounts (fun _ => 99)).1 0,
        (refineForMPI_layout 3 exampleCounts (fun _ => 99)).1 1,
        (refineForMPI_layout 3 exampleCounts (fun _ => 99)).1 2,
        (refineForMPI_layout 3 exampleCounts (fun _ => 99)).2) = (0, 2, 2, 7) :=
  ⟨by decide, by simp [Finset.sum_range_succ, exampleCounts],
    (gather_segments_tile 3 exampleCounts (fun _ => 99) (by decide)
      (by simp [Finset.sum_range_succ, exampleCounts])).2.1,
    by decide⟩

/-! ### Claims on the tet reference tables, the comparators and `Edge::operator<` -/

/-- C22: the `TetDivider` constructor sets `numVerts = 4`, `numEdges = 6`, `numTriFaces = 4`,
`numQuadFaces = 0`; `edgeVertIndices` is `01, 02, 03, 12, 13, 23`, first index below second,
and holds every pair `a < b` of local vertices once; each row of `faceVertIndices` has three
distinct vertices below 4 and each local vertex is left out by exactly one face; every edge
lies on exactly two faces, one of which runs along it from its first to its second vertex and
the other from its second to its first. -/
theorem TetDivider_tables_consistent (nDivs : Int) :
    ((TetDivider.ctor nDivs).numVerts = 4 ∧ (TetDivider.ctor nDivs).numEdges = 6 ∧
        (TetDivider.ctor nDivs).numTriFaces = 4 ∧ (TetDivider.ctor nDivs).numQuadFaces = 0) ∧
      List.ofFn (fun e => ((TetDivider.ctor nDivs).edgeVertIndices e 0,
          (TetDivider.ctor nDivs).edgeVertIndices e 1)) =
        [(0, 1), (0, 2), (0, 3), (1, 2), (1, 3), (2, 3)] ∧
      (∀ e, (TetDivider.ctor nDivs).edgeVertIndices e 0 <
          (TetDivider.ctor nDivs).edgeVertIndices e 1 ∧
        (TetDivider.ctor nDivs).edgeVertIndices e 1 < 4) ∧
      (∀ a b : Fin 4, a < b →
        ((List.finRange 6).filter (fun e =>
          decide ((TetDivider.ctor nDivs).edgeVertIndices e 0 = a.val) &&
            decide ((TetDivider.ctor nDivs).edgeVertIndices e 1 = b.val))).length = 1) ∧
      (∀ f, (TetDivider.ctor nDivs).faceVertIndices f 0 ≠
          (TetDivider.ctor nDivs).faceVertIndices f 1 ∧
        (TetDivider.ctor nDivs).faceVertIndices f 1 ≠
          (TetDivider.ctor nDivs).faceVertIndices f 2 ∧
        (TetDivider.ctor nDivs).faceVertIndices f 0 ≠
          (TetDivider.ctor nDivs).faceVertIndices f 2 ∧
        ∀ k, (TetDivider.ctor nDivs).faceVertIndices f k < 4) ∧
      (∀ v : Fin 4,
        ((List.finRange 4).filter (fun f =>
          !(onFace ((TetDivider.ctor nDivs).faceVertIndices f) v.val))).length = 1) ∧
      (∀ e,
        ((List.finRange 4).filter (fun f =>
          onFace ((TetDivider.ctor nDivs).faceVertIndices f)
              ((TetDivider.ctor nDivs).edgeVertIndices e 0) &&
            onFace ((TetDivider.ctor nDivs).faceVertIndices f)
              ((TetDivider.ctor nDivs).edgeVertIndices e 1))).length = 2 ∧
        ((List.finRange 4).filter (fun f =>
          traverses ((TetDivider.ctor nDivs).faceVertIndices f)
            ((TetDivider.ctor nDivs).edgeVertIndices e 0)
            ((TetDivider.ctor nDivs).edgeVertIndices e 1))).length = 1 ∧
        ((List.finRange 4).filter (fun f =>
          traverses ((TetDivider.ctor nDivs).faceVertIndices f)
            ((TetDivider.ctor nDivs).edgeVertIndices e 1)
            ((TetDivider.ctor nDivs).edgeVertIndices e 0))).length = 1) := by
  have he : (TetDivider.ctor nDivs).edgeVertIndices =
      ![![0, 1], ![0, 2], ![0, 3], ![1, 2], ![1, 3], ![2, 3]] := rfl
  have hf : (TetDivider.ctor nDivs).faceVertIndices =
      ![![0, 1, 2], ![0, 3, 1], ![1, 3, 2], ![2, 3, 0]] := rfl
  rw [he, hf]
  refine ⟨⟨rfl, rfl, rfl, rfl⟩, ?_, ?_, ?_, ?_, ?_, ?_⟩ <;> decide

section RelationTheorems

variable {K : Type} [LinearOrderedField K]

/-- C23: for all base points and every apex, `pyrVolume` is the mean of the two tet
decompositions of the pyramid (along the diagonal `p0 p2` and along the diagonal `p1 p3`).
The two decompositions differ by `tetVolume(p0,p1,p2,p3)`, so when the base is planar (that
volume is zero) `pyrVolume` equals each of them. -/
theorem pyrVolume_mean_of_splits (p0 p1 p2 p3 a : Vec3 K) :
    pyrVolume p0 p1 p2 p3 a =
        ((tetVolume p0 p1 p2 a + tetVolume p0 p2 p3 a) +
          (tetVolume p0 p1 p3 a + tetVolume p1 p2 p3 a)) / 2 ∧
      (tetVolume p0 p1 p2 a + tetVolume p0 p2 p3 a) -
          (tetVolume p0 p1 p3 a + tetVolume p1 p2 p3 a) = tetVolume p0 p1 p2 p3 ∧
      (tetVolume p0 p1 p2 p3 = 0 →
        pyrVolume p0 p1 p2 p3 a = tetVolume p0 p1 p2 a + tetVolume p0 p2 p3 a ∧
          pyrVolume p0 p1 p2 p3 a = tetVolume p0 p1 p3 a + tetVolume p1 p2 p3 a) := by
  have h1 : pyrVolume p0 p1 p2 p3 a =
      ((tetVolume p0 p1 p2 a + tetVolume p0 p2 p3 a) +
        (tetVolume p0 p1 p3 a + tetVolume p1 p2 p3 a)) / 2 := by
    simp only [pyrVolume, tetVolume, CROSS, DOT, DIFF]
    norm_num
    ring
  have h2 : (tetVolume p0 p1 p2 a + tetVolume p0 p2 p3 a) -
      (tetVolume p0 p1 p3 a + tetVolume p1 p2 p3 a) = tetVolume p0 p1 p2 p3 := by
    simp only [tetVolume, CROSS, DOT, DIFF]
    ring
  refine ⟨h1, h2, ?_⟩
  intro hp
  rw [hp] at h2
  constructor
  · rw [h1]
    linarith
  · rw [h1]
    linarith

/-- C24 (divergence): each of `compX`, `compY`, `compZ` returns `true` exactly when the
coordinate of `a` is strictly less, `false` exactly when it is strictly greater, and reaches
the end of the function without a `return` exactly when the two coordinates are equal; in
particular comparing a record with itself gives no value. -/
theorem comparators_undefined_on_ties (a b : vertsPartBdry K) :
    ((compX a b = some true ↔ a.coord.c0 < b.coord.c0) ∧
        (compX a b = some false ↔ a.coord.c0 > b.coord.c0) ∧
        (compX a b = none ↔ a.coord.c0 = b.coord.c0)) ∧
      ((compY a b = some true ↔ a.coord.c1 < b.coord.c1) ∧
        (compY a b = some false ↔ a.coord.c1 > b.coord.c1) ∧
        (compY a b = none ↔ a.coord.c1 = b.coord.c1)) ∧
      ((compZ a b = some true ↔ a.coord.c2 < b.coord.c2) ∧
        (compZ a b = some false ↔ a.coord.c2 > b.coord.c2) ∧
        (compZ a b = none ↔ a.coord.c2 = b.coord.c2)) ∧
      compX a a = none ∧ compY a a = none ∧ compZ a a = none := by
  have key : ∀ (u v : K) (r : Option Bool),
      r = (if u < v then some true else if u > v then some false else none) →
        ((r = some true ↔ u < v) ∧ (r = some false ↔ u > v) ∧ (r = none ↔ u = v)) := by
    intro u v r hr
    subst hr
    rcases lt_trichotomy u v with h | h | h
    · simp [h, not_lt_of_gt h, ne_of_lt h]
    · simp [h]
    · simp [h, not_lt_of_gt h, ne_of_gt h]
  exact ⟨key _ _ _ rfl, key _ _ _ rfl, key _ _ _ rfl, by simp [compX], by simp [compY],
    by simp [compZ]⟩

/-- C25: for a positive tolerance `epsilon`, `operator==` is irreflexive (`a == a` is false
for every record) and not transitive: records at the same coordinates with partitions 0, 1, 0
satisfy `a == b` and `b == c` but not `a == c`. -/
theorem operatorEq_not_equivalence (epsilon : K) (hpos : 0 < epsilon) :
    (∀ a : vertsPartBdry K, operatorEq epsilon a a = false) ∧
      (∀ (p : Vec3 K) (i j k : Nat),
        operatorEq epsilon ⟨i, 0, p⟩ ⟨j, 1, p⟩ = true ∧
          operatorEq epsilon ⟨j, 1, p⟩ ⟨k, 0, p⟩ = true ∧
          operatorEq epsilon ⟨i, 0, p⟩ ⟨k, 0, p⟩ = false) ∧
      ¬ (∀ a b c : vertsPartBdry K, operatorEq epsilon a b = true →
        operatorEq epsilon b c = true → operatorEq epsilon a c = true) := by
  have hex : ∀ (p : Vec3 K) (i j k : Nat),
      operatorEq epsilon ⟨i, 0, p⟩ ⟨j, 1, p⟩ = true ∧
        operatorEq epsilon ⟨j, 1, p⟩ ⟨k, 0, p⟩ = true ∧
        operatorEq epsilon ⟨i, 0, p⟩ ⟨k, 0, p⟩ = false := by
    intro p i j k
    simp [operatorEq, hpos]
  refine ⟨?_, hex, ?_⟩
  · intro a
    simp [operatorEq]
  · intro htrans
    obtain ⟨h1, h2, h3⟩ := hex ⟨0, 0, 0⟩ 0 0 0
    rw [htrans _ _ _ h1 h2] at h3
    exact Bool.noConfusion h3

/-- C26 (amended): for a buffer of fewer than `2^64` records (the range of `size_t`),
`WriteIdenticalVerts` reads only valid indices exactly when the buffer holds at least two and
at most `2^31` records.  The read of `x[1]` is out of range exactly for a buffer of at most one
record, so the function has no defined result on the empty and on a one-record buffer; for
the empty buffer the loop bound `x.size() - 1` wraps to `2^64 - 1`.  Above `2^31` records the
`int` counter reaches `INT_MAX` and `x[i+1]` is no valid index. -/
theorem WriteIdenticalVerts_reads_in_range_iff (epsilon : K) (x : List (vertsPartBdry K))
    (hmax : x.length < 2 ^ 64) :
    ((WriteIdenticalVerts epsilon x).isSome = true ↔ 2 ≤ x.length ∧ x.length ≤ 2 ^ 31) ∧
      (x[1]? = none ↔ x.length ≤ 1) ∧
      WriteIdenticalVerts epsilon ([] : List (vertsPartBdry K)) = none ∧
      (∀ r : vertsPartBdry K, WriteIdenticalVerts epsilon [r] = none) ∧
      (([] : List (vertsPartBdry K)).length + 2 ^ 64 - 1) % 2 ^ 64 = 2 ^ 64 - 1 := by
  refine ⟨?_, ?_, ?_, ?_, ?_⟩
  · constructor
    · intro h
      constructor
      · by_contra hlen
        have h1 : x[1]? = none := List.getElem?_eq_none (by omega)
        cases h0 : x[0]? with
        | none => simp [WriteIdenticalVerts, h0] at h
        | some r => simp [WriteIdenticalVerts, h0, h1] at h
      · by_contra hbig
        rw [WriteIdenticalVerts_overflow epsilon x (by omega) hmax] at h
        exact Bool.noConfusion h
    · rintro ⟨h2, hle⟩
      rw [WriteIdenticalVerts_eq epsilon x h2 hle]
      rfl
  · rw [List.getElem?_eq_none_iff]
  · rfl
  · intro r
    rfl
  · rw [List.length_nil, Nat.zero_add]
    exact Nat.mod_eq_of_lt (by omega)
end RelationTheorems

/-- C27: `Edge::operator<` is the lexicographic order on `(v0, v1)`, `operator==` is equality
of edges, exactly one of `a < b`, `a == b`, `b < a` holds, and `<` is transitive. -/
theorem Edge_operatorLt_strict_total (a b c : Edge) :
    (a.operatorLt b = true ↔ a.v0 < b.v0 ∨ (a.v0 = b.v0 ∧ a.v1 < b.v1)) ∧
      (a.operatorLt b = true ↔
        Prod.Lex (fun x y : Nat => x < y) (fun x y : Nat => x < y)
          (a.getV0, a.getV1) (b.getV0, b.getV1)) ∧
      (a.operatorEq b = true ↔ a = b) ∧
      ((a.operatorLt b = true ∧ a.operatorEq b = false ∧ b.operatorLt a = false) ∨
        (a.operatorLt b = false ∧ a.operatorEq b = true ∧ b.operatorLt a = false) ∨
        (a.operatorLt b = false ∧ a.operatorEq b = false ∧ b.operatorLt a = true)) ∧
      (a.operatorLt b = true → b.operatorLt c = true → a.operatorLt c = true) := by
  obtain ⟨a0, a1⟩ := a
  obtain ⟨b0, b1⟩ := b
  obtain ⟨c0, c1⟩ := c
  refine ⟨?_, ?_, ?_, ?_, ?_⟩
  · simp [Edge.operatorLt]
  · simp [Edge.operatorLt, Prod.lex_def, Edge.getV0, Edge.getV1]
  · simp [Edge.operatorEq]
  · simp only [Edge.operatorLt, Edge.operatorEq, Bool.or_eq_true, Bool.and_eq_true,
      decide_eq_true_eq, Bool.or_eq_false_iff, Bool.and_eq_false_imp, decide_eq_false_iff_not]
    omega
  · simp only [Edge.operatorLt, Bool.or_eq_true, Bool.and_eq_true, decide_eq_true_eq]
    omega

/-- C28: for every `N >= 1` and each corner `c`, with `(i,j,k) = vertIJK[c]`, the reference
coordinates are `uvwIJK[c] = (i/N, j/N, 1 - k/N)`, and `0 <= i`, `0 <= j`, `i + j <= k <= N`. -/
theorem tet_corner_reference_coords (N : Int) (hN : 1 ≤ N) (c : Fin 4) :
    (TetDivider.ctor N).uvwIJK c 0 = ((TetDivider.ctor N).vertIJK c 0 : ℚ) / (N : ℚ) ∧
      (TetDivider.ctor N).uvwIJK c 1 = ((TetDivider.ctor N).vertIJK c 1 : ℚ) / (N : ℚ) ∧
      (TetDivider.ctor N).uvwIJK c 2 = 1 - ((TetDivider.ctor N).vertIJK c 2 : ℚ) / (N : ℚ) ∧
      0 ≤ (TetDivider.ctor N).vertIJK c 0 ∧ 0 ≤ (TetDivider.ctor N).vertIJK c 1 ∧
      (TetDivider.ctor N).vertIJK c 0 + (TetDivider.ctor N).vertIJK c 1 ≤
        (TetDivider.ctor N).vertIJK c 2 ∧
      (TetDivider.ctor N).vertIJK c 2 ≤ N := by
  have hne : (N : ℚ) ≠ 0 := by
    have : (0 : ℚ) < N := by exact_mod_cast (by omega : 0 < N)
    exact ne_of_gt this
  refine ⟨?_, ?_, ?_, ?_, ?_, ?_, ?_⟩ <;>
    fin_cases c <;> simp [TetDivider.ctor, Matrix.vecHead, Matrix.vecTail, hne] <;> omega

/-- C23 (witness): the unit-square base is planar; with apex `(1/3, 1/5, 2)` the pyramid
volume equals each of the two tet decompositions. -/
theorem pyrVolume_mean_of_splits_witness :
    tetVolume (⟨0, 0, 0⟩ : Vec3 ℚ) ⟨1, 0, 0⟩ ⟨1, 1, 0⟩ ⟨0, 1, 0⟩ = 0 ∧
      pyrVolume (⟨0, 0, 0⟩ : Vec3 ℚ) ⟨1, 0, 0⟩ ⟨1, 1, 0⟩ ⟨0, 1, 0⟩ ⟨1 / 3, 1 / 5, 2⟩ =
          tetVolume (⟨0, 0, 0⟩ : Vec3 ℚ) ⟨1, 0, 0⟩ ⟨1, 1, 0⟩ ⟨1 / 3, 1 / 5, 2⟩ +
            tetVolume (⟨0, 0, 0⟩ : Vec3 ℚ) ⟨1, 1, 0⟩ ⟨0, 1, 0⟩ ⟨1 / 3, 1 / 5, 2⟩ ∧
        pyrVolume (⟨0, 0, 0⟩ : Vec3 ℚ) ⟨1, 0, 0⟩ ⟨1, 1, 0⟩ ⟨0, 1, 0⟩ ⟨1 / 3, 1 / 5, 2⟩ =
          tetVolume (⟨0, 0, 0⟩ : Vec3 ℚ) ⟨1, 0, 0⟩ ⟨0, 1, 0⟩ ⟨1 / 3, 1 / 5, 2⟩ +
            tetVolume (⟨1, 0, 0⟩ : Vec3 ℚ) ⟨1, 1, 0⟩ ⟨0, 1, 0⟩ ⟨1 / 3, 1 / 5, 2⟩ :=
  have hp : tetVolume (⟨0, 0, 0⟩ : Vec3 ℚ) ⟨1, 0, 0⟩ ⟨1, 1, 0⟩ ⟨0, 1, 0⟩ = 0 := by
    norm_num [tetVolume, CROSS, DOT, DIFF]
  ⟨hp, (pyrVolume_mean_of_splits (⟨0, 0, 0⟩ : Vec3 ℚ) ⟨1, 0, 0⟩ ⟨1, 1, 0⟩ ⟨0, 1, 0⟩
    ⟨1 / 3, 1 / 5, 2⟩).2.2 hp⟩

/-- C25 (witness): `epsilon = 1e-6` and three records at the origin with partitions 0, 1, 0. -/
theorem operatorEq_not_equivalence_witness :
    (0 : ℚ) < 1 / 10 ^ 6 ∧
      operatorEq (1 / 10 ^ 6 : ℚ) ⟨1, 0, ⟨0, 0, 0⟩⟩ ⟨2, 1, ⟨0, 0, 0⟩⟩ = true ∧
      operatorEq (1 / 10 ^ 6 : ℚ) ⟨2, 1, ⟨0, 0, 0⟩⟩ ⟨3, 0, ⟨0, 0, 0⟩⟩ = true ∧
      operatorEq (1 / 10 ^ 6 : ℚ) ⟨1, 0, ⟨0, 0, 0⟩⟩ ⟨3, 0, ⟨0, 0, 0⟩⟩ = false :=
  ⟨by norm_num,
    (operatorEq_not_equivalence (1 / 10 ^ 6 : ℚ) (by norm_num)).2.1 ⟨0, 0, 0⟩ 1 2 3⟩

/-- C26 (witness of the amended claim): the buffer `adjacentDuplicate` has three records, and
every read of `WriteIdenticalVerts` on it is in range. -/
theorem WriteIdenticalVerts_reads_in_range_iff_witness :
    adjacentDuplicate.length < 2 ^ 64 ∧ 2 ≤ adjacentDuplicate.length ∧
      adjacentDuplicate.length ≤ 2 ^ 31 ∧
      (WriteIdenticalVerts (1 / 10 ^ 6) adjacentDuplicate).isSome = true :=
  have hmax : adjacentDuplicate.length < 2 ^ 64 := by simp [adjacentDuplicate]
  have h2 : 2 ≤ adjacentDuplicate.length := by simp [adjacentDuplicate]
  have hle : adjacentDuplicate.length ≤ 2 ^ 31 := by simp [adjacentDuplicate]
  ⟨hmax, h2, hle,
    (WriteIdenticalVerts_reads_in_range_iff (1 / 10 ^ 6) adjacentDuplicate hmax).1.mpr
      ⟨h2, hle⟩⟩

/-- C26 (counterexample): a buffer of `2^31 + 2` records holds at least two records, yet the
iteration at `i = INT_MAX` computes `i + 1`, which overflows: the index of `x[i+1]` is not a
valid one, so not every read is in range. -/
theorem WriteIdenticalVerts_large_buffer_out_of_range :
    2 ≤ (List.replicate (2 ^ 31 + 2) (⟨1, 0, ⟨0, 0, 0⟩⟩ : vertsPartBdry ℚ)).length ∧
      (WriteIdenticalVerts (1 / 10 ^ 6)
        (List.replicate (2 ^ 31 + 2) (⟨1, 0, ⟨0, 0, 0⟩⟩ : vertsPartBdry ℚ))).isSome = false :=
  ⟨by rw [List.length_replicate]; omega,
    by
      rw [WriteIdenticalVerts_overflow _ _ (by rw [List.length_replicate]; omega)
        (by rw [List.length_replicate]; omega)]
      rfl⟩

/-- C27 (witness): the edges `(1,2) < (1,5) < (3,4)`. -/
theorem Edge_operatorLt_strict_total_witness :
    (Edge.ctor 2 1).operatorLt (Edge.ctor 1 5) = true ∧
      (Edge.ctor 1 5).operatorLt (Edge.ctor 4 3) = true ∧
      (Edge.ctor 2 1).operatorLt (Edge.ctor 4 3) = true :=
  ⟨by decide, by decide,
    (Edge_operatorLt_strict_total (Edge.ctor 2 1) (Edge.ctor 1 5) (Edge.ctor 4 3)).2.2.2.2
      (by decide) (by decide)⟩

/-- C28 (witness): `N = 2`, corner 1, whose lattice index is `(2,0,2)` and whose reference
coordinates are `(1,0,0)`. -/
theorem tet_corner_reference_coords_witness :
    (1 : Int) ≤ 2 ∧
      (TetDivider.ctor 2).uvwIJK 1 0 = ((TetDivider.ctor 2).vertIJK 1 0 : ℚ) / ((2 : Int) : ℚ) ∧
      (TetDivider.ctor 2).uvwIJK 1 1 = ((TetDivider.ctor 2).vertIJK 1 1 : ℚ) / ((2 : Int) : ℚ) ∧
      (TetDivider.ctor 2).uvwIJK 1 2 =
        1 - ((TetDivider.ctor 2).vertIJK 1 2 : ℚ) / ((2 : Int) : ℚ) ∧
      0 ≤ (TetDivider.ctor 2).vertIJK 1 0 ∧ 0 ≤ (TetDivider.ctor 2).vertIJK 1 1 ∧
      (TetDivider.ctor 2).vertIJK 1 0 + (TetDivider.ctor 2).vertIJK 1 1 ≤
        (TetDivider.ctor 2).vertIJK 1 2 ∧
      (TetDivider.ctor 2).vertIJK 1 2 ≤ 2 :=
  ⟨by decide, tet_corner_reference_coords 2 (by decide) 1⟩

/-! ### Claims on the stored length scale -/

section IncidentTheorems

variable {K : Type} [LinearOrderedField K]

theorem accumulate_sums (volume : K) :
    ∀ (l : List (Nat × K)) (s s' : VertSums K), accumulate volume l s = some s' →
      ∀ w, s'.vertVolume w = s.vertVolume w +
            ((l.filter fun p => decide (p.1 = w)).map fun _ => |volume|).sum ∧
          s'.vertSolidAngle w = s.vertSolidAngle w +
            ((l.filter fun p => decide (p.1 = w)).map fun p => p.2).sum := by
  intro l
  induction l with
  | nil =>
    intro s s' h w
    simp only [accumulate, Option.some.injEq] at h
    subst h
    simp
  | cons p l ih =>
    intro s s' h w
    obtain ⟨v, solid⟩ := p
    simp only [accumulate] at h
    split_ifs at h with hpos
    obtain ⟨h1, h2⟩ := ih _ _ h w
    rw [h1, h2]
    by_cases hv : v = w
    · subst hv
      simp [addAt, List.filter_cons, add_assoc]
    · have hw : ¬ w = v := fun e => hv e.symm
      simp [addAt, List.filter_cons, hv, hw]

theorem foldlM_sums {β : Type} (f : VertSums K → β → Option (VertSums K))
    (contrib : β → K × List (Nat × K))
    (hf : ∀ (b : β) (s s' : VertSums K), f s b = some s' →
      ∀ w, s'.vertVolume w = s.vertVolume w +
            (((contrib b).2.filter fun p => decide (p.1 = w)).map fun _ => |(contrib b).1|).sum ∧
          s'.vertSolidAngle w = s.vertSolidAngle w +
            (((contrib b).2.filter fun p => decide (p.1 = w)).map fun p => p.2).sum) :
    ∀ (l : List β) (s s' : VertSums K), l.foldlM f s = some s' →
      ∀ w, s'.vertVolume w = s.vertVolume w +
            ((l.map contrib).map fun c =>
              ((c.2.filter fun p => decide (p.1 = w)).map fun _ => |c.1|).sum).sum ∧
          s'.vertSolidAngle w = s.vertSolidAngle w +
            ((l.map contrib).map fun c =>
              ((c.2.filter fun p => decide (p.1 = w)).map fun p => p.2).sum).sum := by
  intro l
  induction l with
  | nil =>
    intro s s' h w
    simp only [List.foldlM_nil, Option.pure_def, Option.some.injEq] at h
    subst h
    simp
  | cons b l ih =>
    intro s s' h w
    rw [List.foldlM_cons] at h
    cases hb : f s b with
    | none => simp [hb] at h
    | some s1 =>
      rw [hb] at h
      obtain ⟨h1, h2⟩ := hf b s s1 hb w
      obtain ⟨h3, h4⟩ := ih s1 s' h w
      rw [h3, h4, h1, h2]
      simp [add_assoc]

theorem mapM_getElem {α β : Type} (f : α → Option β) :
    ∀ (l : List α) (r : List β), l.mapM f = some r →
      r.length = l.length ∧ ∀ i : Nat, r[i]? = (l[i]?).bind f := by
  intro l
  induction l with
  | nil =>
    intro r h
    simp only [List.mapM_nil, Option.pure_def, Option.some.injEq] at h
    subst h
    simp
  | cons a l ih =>
    intro r h
    rw [List.mapM_cons] at h
    cases ha : f a with
    | none => simp [ha] at h
    | some b =>
      rw [ha] at h
      cases hl : l.mapM f with
      | none =>
        rw [hl] at h
        simp at h
      | some bs =>
        rw [hl] at h
        simp only [Option.pure_def, Option.bind_eq_bind, Option.some_bind,
          Option.some.injEq] at h
        subst h
        obtain ⟨h1, h2⟩ := ih bs hl
        refine ⟨by simp [h1], ?_⟩
        intro i
        cases i with
        | zero => simp [ha]
        | succ i => simpa using h2 i

theorem mapM_isSome {α β : Type} (f : α → Option β) :
    ∀ (l : List α), (∀ a ∈ l, ∃ b, f a = some b) → ∃ r, l.mapM f = some r := by
  intro l
  induction l with
  | nil =>
    intro _
    exact ⟨[], List.mapM_nil f⟩
  | cons a l ih =>
    intro h
    obtain ⟨b, hb⟩ := h a (List.mem_cons_self a l)
    obtain ⟨bs, hbs⟩ := ih (fun x hx => h x (List.mem_cons_of_mem a hx))
    refine ⟨b :: bs, ?_⟩
    rw [List.mapM_cons, hb, hbs]
    rfl

theorem setupLengthScales_sums (L : Libm K) (m : CoarseMesh K) (lenScale : List K)
    (hrun : setupLengthScales L m = some lenScale) :
    (List.range m.numVerts).mapM
        (fun vv => lengthScaleOf L (incidentVol L m vv) (incidentSolid L m vv)) =
      some lenScale := by
  unfold setupLengthScales at hrun
  cases h1 : m.tetConn.foldlM (fun s tet => tetCell L m.getCoords tet s)
      (⟨fun _ => 0, fun _ => 0⟩ : VertSums K) with
  | none => simp [h1] at hrun
  | some s1 =>
    cases h2 : m.pyrConn.foldlM (fun s pyr => pyrCell L m.getCoords pyr s) s1 with
    | none => simp [h1, h2] at hrun
    | some s2 =>
      cases h3 : m.prismConn.foldlM (fun s prism => prismCell L m.getCoords prism s) s2 with
      | none => simp [h1, h2, h3] at hrun
      | some s3 =>
        cases h4 : m.hexConn.foldlM (fun s hex => hexCell L m.getCoords hex s) s3 with
        | none => simp [h1, h2, h3, h4] at hrun
        | some s4 =>
          simp only [h1, h2, h3, h4, Option.bind_eq_bind, Option.some_bind] at hrun
          have e1 := foldlM_sums (fun s tet => tetCell L m.getCoords tet s) (tetCorners L m.getCoords)
            (fun tetVerts s s' h w => by
              unfold tetCell at h
              simp only at h
              split_ifs at h
              exact accumulate_sums _ _ _ _ h w) m.tetConn _ _ h1
          have e2 := foldlM_sums (fun s pyr => pyrCell L m.getCoords pyr s) (pyrCorners L m.getCoords)
            (fun pyrVerts s s' h w => by
              unfold pyrCell at h
              simp only at h
              split_ifs at h
              exact accumulate_sums _ _ _ _ h w) m.pyrConn _ _ h2
          have e3 := foldlM_sums (fun s prism => prismCell L m.getCoords prism s)
            (prismCorners L m.getCoords)
            (fun prismVerts s s' h w => by
              unfold prismCell at h
              exact accumulate_sums _ _ _ _ h w) m.prismConn _ _ h3
          have e4 := foldlM_sums (fun s hex => hexCell L m.getCoords hex s) (hexCorners L m.getCoords)
            (fun hexVerts s s' h w => by
              unfold hexCell at h
              exact accumulate_sums _ _ _ _ h w) m.hexConn _ _ h4
          have hv : ∀ w, s4.vertVolume w = incidentVol L m w := by
            intro w
            rw [(e4 w).1, (e3 w).1, (e2 w).1, (e1 w).1]
            simp only [incidentVol, cellCorners, List.map_append, List.sum_append, zero_add]
          have hs : ∀ w, s4.vertSolidAngle w = incidentSolid L m w := by
            intro w
            rw [(e4 w).2, (e3 w).2, (e2 w).2, (e1 w).2]
            simp only [incidentSolid, cellCorners, List.map_append, List.sum_append, zero_add]
          rw [← hrun]
          congr 1
          funext vv
          rw [hv, hs]

theorem cubeMesh_sums (L : Libm K) (hs : L.sqrt 1 = 1) (ha : L.acos 0 = L.M_PI / 2)
    (s4 : VertSums K)
    (h : hexCell L cubeCoords ![4, 5, 6, 7, 0, 1, 2, 3] ⟨fun _ => 0, fun _ => 0⟩ = some s4)
    (v : Nat) (hv : v < 8) : s4.vertVolume v = 8 ∧ s4.vertSolidAngle v = L.M_PI / 2 := by
  have hd : hexDiheds L (fun i => cubeCoords ((![4, 5, 6, 7, 0, 1, 2, 3] : Fin 8 → Nat) i))
      = fun _ => L.M_PI / 2 := funext (reversedCube_diheds L hs ha)
  have hsol : hexSolids L (hexDiheds L fun i =>
      cubeCoords ((![4, 5, 6, 7, 0, 1, 2, 3] : Fin 8 → Nat) i)) = fun _ => L.M_PI / 2 := by
    rw [hd]
    funext w
    fin_cases w <;> simp [hexSolids, cons_val_five, cons_val_six, cons_val_seven]
  have hvol : hexVolume (fun i => (cubeCoords ((![4, 5, 6, 7, 0, 1, 2, 3] : Fin 8 → Nat) i) :
      Vec3 K)) = -8 := by
    simp [hexVolume, pyrVolume, CROSS, DOT, cubeCoords, cons_val_five, cons_val_six,
      cons_val_seven]
    norm_num
  unfold hexCell at h
  simp only [hsol, hvol] at h
  obtain ⟨h1, h2⟩ := accumulate_sums _ _ _ _ h v
  rw [h1, h2]
  simp only [ofFn_eight, Matrix.cons_val_zero, Matrix.cons_val_one, Matrix.cons_val_two,
    Matrix.cons_val_three, Matrix.cons_val_four, Matrix.head_cons, Matrix.tail_cons,
    cons_val_five, cons_val_six, cons_val_seven]
  interval_cases v <;> norm_num [List.filter_cons]

theorem cubeMesh_runs (L : Libm K) (hs : L.sqrt 1 = 1) (ha : L.acos 0 = L.M_PI / 2)
    (hpi : 0 < L.M_PI) :
    ∃ lenScale, setupLengthScales L (cubeMesh : CoarseMesh K) = some lenScale := by
  have hrev : ∀ s : VertSums K, hexCell L cubeCoords ![0, 1, 2, 3, 4, 5, 6, 7] s =
      hexCell L cubeCoords ![4, 5, 6, 7, 0, 1, 2, 3] s := by
    intro s
    rw [← hexCell_reversed L cubeCoords ![4, 5, 6, 7, 0, 1, 2, 3] s]
    rfl
  cases h4 : hexCell L cubeCoords ![4, 5, 6, 7, 0, 1, 2, 3]
      (⟨fun _ => 0, fun _ => 0⟩ : VertSums K) with
  | none => exact absurd h4 (reversedCube_accepted L hs ha hpi _)
  | some s4 =>
    obtain ⟨r, hr⟩ := mapM_isSome
      (fun vv => lengthScaleOf L (s4.vertVolume vv) (s4.vertSolidAngle vv)) (List.range 8)
      (by
        intro v hv
        obtain ⟨e1, e2⟩ := cubeMesh_sums L hs ha s4 h4 v (List.mem_range.mp hv)
        have hpos : 0 < L.M_PI / 2 := by positivity
        show ∃ b, lengthScaleOf L (s4.vertVolume v) (s4.vertSolidAngle v) = some b
        rw [e1, e2]
        unfold lengthScaleOf
        rw [if_pos ⟨by norm_num, hpos⟩]
        exact ⟨_, rfl⟩)
    refine ⟨r, ?_⟩
    simp only [setupLengthScales, cubeMesh, List.foldlM_nil, List.foldlM_cons, hrev, h4,
      Option.pure_def, Option.bind_eq_bind, Option.some_bind]
    exact hr

theorem lengthScaleOf_eq_some (L : Libm K) (Vol Omega r : K)
    (h : lengthScaleOf L Vol Omega = some r) :
    0 < Vol ∧ 0 < Omega ∧ r = L.cbrt ((Vol * (4 * L.M_PI) / Omega) / (4 * L.M_PI / 3)) := by
  unfold lengthScaleOf at h
  split_ifs at h with hc
  simp only [Option.some.injEq] at h
  exact ⟨hc.1, hc.2, h.symm⟩

theorem setupLengthScales_stores (L : Libm K) (m : CoarseMesh K) (lenScale : List K)
    (hrun : setupLengthScales L m = some lenScale) :
    lenScale.length = m.numVerts ∧
      ∀ v, v < m.numVerts →
        lenScale[v]? = lengthScaleOf L (incidentVol L m v) (incidentSolid L m v) ∧
          ∃ r, lenScale[v]? = some r := by
  obtain ⟨hlen, hget⟩ := mapM_getElem _ _ _ (setupLengthScales_sums L m lenScale hrun)
  rw [List.length_range] at hlen
  refine ⟨hlen, ?_⟩
  intro v hv
  have h1 := hget v
  rw [List.getElem?_range hv] at h1
  simp only [Option.some_bind] at h1
  refine ⟨h1, ?_⟩
  have hv2 : v < lenScale.length := by omega
  exact ⟨lenScale[v], List.getElem?_eq_getElem hv2⟩

/-- C5: when `setupLengthScales` runs to its end on a mesh, it stores one length scale per
vertex, and for every vertex `v` the accumulated volume `Vol[v]` (the sum of the incident cell
volumes) and the accumulated solid angle `Omega[v]` (the sum of the incident solid angles) are
both strictly positive, the stored value is
`lenScale[v] = cbrt((Vol[v] * 4*pi / Omega[v]) / (4*pi/3))`, its cube is
`3 * Vol[v] / Omega[v]`, and `lenScale[v] > 0`.  The library facts used are `M_PI > 0` and that
`cbrt` of a positive number is its positive cube root. -/
theorem lengthScale_cubed (L : Libm K) (hpi : 0 < L.M_PI)
    (hcbrt : ∀ x : K, 0 < x → 0 < L.cbrt x ∧ L.cbrt x ^ 3 = x)
    (m : CoarseMesh K) (lenScale : List K) (hrun : setupLengthScales L m = some lenScale) :
    lenScale.length = m.numVerts ∧
      ∀ v, v < m.numVerts →
        0 < incidentVol L m v ∧ 0 < incidentSolid L m v ∧
          ∃ r, lenScale[v]? = some r ∧
            r = L.cbrt ((incidentVol L m v * (4 * L.M_PI) / incidentSolid L m v)
              / (4 * L.M_PI / 3)) ∧
            r ^ 3 = 3 * incidentVol L m v / incidentSolid L m v ∧ 0 < r := by
  obtain ⟨hlen, hst⟩ := setupLengthScales_stores L m lenScale hrun
  refine ⟨hlen, ?_⟩
  intro v hv
  obtain ⟨h1, r, hr⟩ := hst v hv
  rw [hr] at h1
  obtain ⟨hV, hO, hval⟩ := lengthScaleOf_eq_some L _ _ r h1.symm
  have harg : (incidentVol L m v * (4 * L.M_PI) / incidentSolid L m v) / (4 * L.M_PI / 3) =
      3 * incidentVol L m v / incidentSolid L m v := by
    field_simp
    ring
  have hpos : 0 < 3 * incidentVol L m v / incidentSolid L m v := by positivity
  refine ⟨hV, hO, r, hr, hval, ?_, ?_⟩
  · rw [hval, harg]
    exact (hcbrt _ hpos).2
  · rw [hval, harg]
    exact (hcbrt _ hpos).1

/-- C6 (amended): when `setupLengthScales` runs to its end, it stores one length scale per
vertex, every vertex `v` has passed the assertion (the sum of the incident cell volumes and
the sum of the incident solid angles are both positive), and the value stored for `v` is
`cbrt(3 * V / (4 * pi)) = cbrt(V / (4 * pi / 3))` with
`V = (sum of incident cell volumes at v) * 4*pi / (sum of incident solid angles at v)`. -/
theorem lengthScale_sphere_radius (L : Libm K) (m : CoarseMesh K) (lenScale : List K)
    (hrun : setupLengthScales L m = some lenScale) :
    lenScale.length = m.numVerts ∧
      ∀ v, v < m.numVerts →
        0 < incidentVol L m v ∧ 0 < incidentSolid L m v ∧
          lenScale[v]? = some (L.cbrt
            (3 * (incidentVol L m v * (4 * L.M_PI) / incidentSolid L m v) / (4 * L.M_PI))) ∧
          lenScale[v]? = some (L.cbrt
            ((incidentVol L m v * (4 * L.M_PI) / incidentSolid L m v) / (4 * L.M_PI / 3))) := by
  obtain ⟨hlen, hst⟩ := setupLengthScales_stores L m lenScale hrun
  refine ⟨hlen, ?_⟩
  intro v hv
  obtain ⟨h1, r, hr⟩ := hst v hv
  rw [hr] at h1
  obtain ⟨hV, hO, hval⟩ := lengthScaleOf_eq_some L _ _ r h1.symm
  have harg : 3 * (incidentVol L m v * (4 * L.M_PI) / incidentSolid L m v) / (4 * L.M_PI) =
      (incidentVol L m v * (4 * L.M_PI) / incidentSolid L m v) / (4 * L.M_PI / 3) := by
    rw [div_div_eq_mul_div, mul_comm]
  refine ⟨hV, hO, ?_, ?_⟩
  · rw [hr, hval, harg]
  · rw [hr, hval]

end IncidentTheorems

/-- C5 (witness): the mesh of one cube `[0,2]^3`, with the real-number `sqrt`, `arccos`, cube
root and `pi`.  The routine runs to its end, stores eight length scales, and the one of vertex
0 is positive with cube `3 * Vol[0] / Omega[0]`. -/
theorem lengthScale_cubed_witness :
    (0 : ℝ) < Real.pi ∧
      ∃ lenScale, setupLengthScales (K := ℝ) ⟨Real.sqrt, Real.arccos,
          fun x => if 0 ≤ x then x ^ ((3 : ℝ)⁻¹) else -((-x) ^ ((3 : ℝ)⁻¹)), Real.pi⟩
          cubeMesh = some lenScale ∧
        lenScale.length = 8 ∧
        ∃ r, lenScale[0]? = some r ∧
          r ^ 3 = 3 * incidentVol (K := ℝ) ⟨Real.sqrt, Real.arccos,
              fun x => if 0 ≤ x then x ^ ((3 : ℝ)⁻¹) else -((-x) ^ ((3 : ℝ)⁻¹)), Real.pi⟩
              cubeMesh 0 /
            incidentSolid (K := ℝ) ⟨Real.sqrt, Real.arccos,
              fun x => if 0 ≤ x then x ^ ((3 : ℝ)⁻¹) else -((-x) ^ ((3 : ℝ)⁻¹)), Real.pi⟩
              cubeMesh 0 ∧
          0 < r := by
  obtain ⟨ls, h⟩ := cubeMesh_runs (K := ℝ) ⟨Real.sqrt, Real.arccos,
    fun x => if 0 ≤ x then x ^ ((3 : ℝ)⁻¹) else -((-x) ^ ((3 : ℝ)⁻¹)), Real.pi⟩
    Real.sqrt_one Real.arccos_zero Real.pi_pos
  obtain ⟨hlen, hall⟩ := lengthScale_cubed (K := ℝ) ⟨Real.sqrt, Real.arccos,
    fun x => if 0 ≤ x then x ^ ((3 : ℝ)⁻¹) else -((-x) ^ ((3 : ℝ)⁻¹)), Real.pi⟩
    Real.pi_pos real_cbrt_spec cubeMesh ls h
  obtain ⟨_, _, r, hr, _, hcube, hpos⟩ := hall 0 (by decide)
  exact ⟨Real.pi_pos, ls, h, hlen, r, hr, hcube, hpos⟩

/-- C6 (witness of the amended claim): the mesh of one cube `[0,2]^3`, with the real-number
`sqrt`, `arccos`, cube root and `pi`.  The routine runs to its end and the value stored for
vertex 0 is `cbrt(3 * V / (4 * pi))`. -/
theorem lengthScale_sphere_radius_witness :
    ∃ lenScale, setupLengthScales (K := ℝ) ⟨Real.sqrt, Real.arccos,
        fun x => if 0 ≤ x then x ^ ((3 : ℝ)⁻¹) else -((-x) ^ ((3 : ℝ)⁻¹)), Real.pi⟩
        cubeMesh = some lenScale ∧
      lenScale.length = 8 ∧
      lenScale[0]? = some ((fun x : ℝ => if 0 ≤ x then x ^ ((3 : ℝ)⁻¹) else -((-x) ^ ((3 : ℝ)⁻¹)))
        (3 * (incidentVol (K := ℝ) ⟨Real.sqrt, Real.arccos,
              fun x => if 0 ≤ x then x ^ ((3 : ℝ)⁻¹) else -((-x) ^ ((3 : ℝ)⁻¹)), Real.pi⟩
              cubeMesh 0 * (4 * Real.pi) /
            incidentSolid (K := ℝ) ⟨Real.sqrt, Real.arccos,
              fun x => if 0 ≤ x then x ^ ((3 : ℝ)⁻¹) else -((-x) ^ ((3 : ℝ)⁻¹)), Real.pi⟩
              cubeMesh 0) / (4 * Real.pi))) := by
  obtain ⟨ls, h⟩ := cubeMesh_runs (K := ℝ) ⟨Real.sqrt, Real.arccos,
    fun x => if 0 ≤ x then x ^ ((3 : ℝ)⁻¹) else -((-x) ^ ((3 : ℝ)⁻¹)), Real.pi⟩
    Real.sqrt_one Real.arccos_zero Real.pi_pos
  obtain ⟨hlen, hall⟩ := lengthScale_sphere_radius (K := ℝ) ⟨Real.sqrt, Real.arccos,
    fun x => if 0 ≤ x then x ^ ((3 : ℝ)⁻¹) else -((-x) ^ ((3 : ℝ)⁻¹)), Real.pi⟩
    cubeMesh ls h
  exact ⟨ls, h, hlen, (hall 0 (by decide)).2.2.1⟩

end ExaMesh
